import Mathlib

/-!
Verification development for the `tcore` BitTorrent core library.

Bytes are modelled as `List Nat` (each entry an octet value). ASCII literals
used in statements are written through `bs`, which maps a pure-ASCII Lean
string to its byte list.

The development embeds, faithfully to the Rust sources:
* the streaming bencode pipeline (`bencode/parser.rs`, `bencode/stack.rs`,
  `bencode/decoder.rs`);
* the metainfo builder (`bencode/torrent.rs`) together with the whole-buffer
  positional tokenizer it consumes (that tokenizer is not present under the
  source snapshot; it is modelled from the specification, see `WB.next_token`);
* SHA-1 (`cryptos/hash.rs` delegates to the `sha1` crate; the standard
  algorithm is implemented here directly);
* the tracker worker URL construction (`sessions/worker.rs`).
-/

deriving instance DecidableEq for Except

/-- ASCII string to byte list. All literals used below are pure ASCII, for
which code points and UTF-8 bytes coincide. -/
def bs (s : String) : List Nat := s.data.map Char.toNat

/-- Decimal digit test on a byte (ASCII `0`..`9`). -/
def isDigitB (b : Nat) : Bool := 48 ≤ b && b ≤ 57

/-- Value of a big-endian run of ASCII digits, per the accumulation the `atoi`
crate performs. -/
def digitsVal (s : List Nat) : Nat := s.foldl (fun a b => a * 10 + (b - 48)) 0

/-- `atoi::atoi::<usize>`: succeeds iff the slice is non-empty and consists
entirely of decimal digits (the callers bound the slice length, so the
`usize` overflow check can never fire). -/
def atoiNat (s : List Nat) : Option Nat :=
  if s.isEmpty then none
  else if s.all isDigitB then some (digitsVal s) else none

/-- `i64::from_radix_10_signed_checked` from the `atoi` crate: consume an
optional sign, then a maximal run of digits; report the signed value and the
number of bytes consumed.  The stepwise checked arithmetic fails exactly when
the magnitude leaves the `i64` range (the magnitude grows monotonically, so
the stepwise check is equivalent to a final range check). -/
def fromRadix10SignedChecked (s : List Nat) : Option Int × Nat :=
  let neg : Bool := s.headD 0 = 45
  let signed : Bool := s.headD 0 = 45 || s.headD 0 = 43
  let rest := if signed then s.tail else s
  let ds := rest.takeWhile isDigitB
  let used := (if signed then 1 else 0) + ds.length
  let v : Int := if neg then -(digitsVal ds : Int) else (digitsVal ds : Int)
  if v < -(2 ^ 63) ∨ (2 ^ 63 - 1 : Int) < v then (none, used) else (some v, used)

/-! ## Value model (`bencode/value.rs`)

`ByteString` is `Vec<u8>`; `Value::Dictionary` is a `Vec<(ByteString, Value)>`
pair list, and `PartialEq` is derived, i.e. structural. -/

inductive Value where
  | int (n : Int)
  | str (s : List Nat)
  | list (l : List Value)
  | dict (d : List (List Nat × Value))

mutual

/-- Structural (order-sensitive) equality test on `Value`, mirroring the
derived `PartialEq`. -/
def Value.beq : Value → Value → Bool
  | .int a, .int b => a == b
  | .str a, .str b => a == b
  | .list a, .list b => Value.beqList a b
  | .dict a, .dict b => Value.beqPairs a b
  | _, _ => false

def Value.beqList : List Value → List Value → Bool
  | [], [] => true
  | a :: as, b :: bz => Value.beq a b && Value.beqList as bz
  | _, _ => false

def Value.beqPairs : List (List Nat × Value) → List (List Nat × Value) → Bool
  | [], [] => true
  | a :: as, b :: bz => (a.1 == b.1) && Value.beq a.2 b.2 && Value.beqPairs as bz
  | _, _ => false

end

mutual

theorem Value.beq_iff : ∀ a b : Value, Value.beq a b = true ↔ a = b
  | .int a, .int b => by simp [Value.beq]
  | .str a, .str b => by simp [Value.beq]
  | .list a, .list b => by simp [Value.beq, Value.beqList_iff a b]
  | .dict a, .dict b => by simp [Value.beq, Value.beqPairs_iff a b]
  | .int _, .str _ | .int _, .list _ | .int _, .dict _
  | .str _, .int _ | .str _, .list _ | .str _, .dict _
  | .list _, .int _ | .list _, .str _ | .list _, .dict _
  | .dict _, .int _ | .dict _, .str _ | .dict _, .list _ => by
    simp [Value.beq]

theorem Value.beqList_iff : ∀ a b : List Value, Value.beqList a b = true ↔ a = b
  | [], [] => by simp [Value.beqList]
  | a :: as, b :: bz => by
    simp [Value.beqList, Value.beq_iff a b, Value.beqList_iff as bz]
  | [], _ :: _ => by simp [Value.beqList]
  | _ :: _, [] => by simp [Value.beqList]

theorem Value.beqPairs_iff :
    ∀ a b : List (List Nat × Value), Value.beqPairs a b = true ↔ a = b
  | [], [] => by simp [Value.beqPairs]
  | a :: as, b :: bz => by
    simp [Value.beqPairs, Value.beq_iff a.2 b.2, Value.beqPairs_iff as bz,
      Prod.ext_iff]
  | [], _ :: _ => by simp [Value.beqPairs]
  | _ :: _, [] => by simp [Value.beqPairs]

end

instance : DecidableEq Value := fun a b => decidable_of_iff _ (Value.beq_iff a b)

/-! ## Tokenizer of the streaming decoder (`bencode/parser.rs`) -/

inductive Token where
  | primitive (v : Value)
  | beginList
  | beginDict
  | endOfObj
  | invalid
deriving DecidableEq

inductive StructureError where
  | pushToDictError
  | orphanedKey
deriving DecidableEq

inductive DecodeError where
  | invalidSyntax
  | invalidStructure (e : StructureError)
  | valueTooLarge
  | io
  | unexpectedEof
  | trailingDataInBuffer
deriving DecidableEq

/-- `parser::parse_string`: returns a token and its consumed length, or
`(none, 0)` when more bytes are needed. -/
def parse_string (buf : List Nat) : Except DecodeError (Option Token × Nat) :=
  match buf.findIdx? (· == 58) with
  | none => .ok (none, 0)
  | some i =>
    if buf.headD 0 = 48 ∧ buf.getD 1 0 ≠ 58 then .error .invalidSyntax
    else if 7 < i then .error .valueTooLarge
    else match atoiNat (buf.take i) with
      | none => .error .invalidSyntax
      | some len =>
        if buf.length < len + i + 1 then .ok (none, 0)
        else .ok (some (.primitive (.str ((buf.drop (i + 1)).take len))), i + len + 1)

/-- `parser::parse_int`: returns a token and its consumed length, or
`(none, 0)` when more bytes are needed. -/
def parse_int (buf : List Nat) : Except DecodeError (Option Token × Nat) :=
  match buf.findIdx? (· == 101) with
  | none => .ok (none, 0)
  | some i =>
    if buf.getD 1 0 = 45 ∧ buf.getD 2 0 = 48 then .error .invalidSyntax
    else if buf.getD 1 0 = 48 ∧ buf.getD 2 0 ≠ 101 then .error .invalidSyntax
    else if 19 < i - 1 then .error .valueTooLarge
    else
      match fromRadix10SignedChecked ((buf.drop 1).take (i - 1)) with
      | (some n, len) =>
        if len ≠ i - 1 then .error .invalidSyntax
        else .ok (some (.primitive (.int n)), i + 1)
      | (none, _) => .error .invalidSyntax

/-! ## Structural stack (`bencode/stack.rs`)

The Rust `Vec` keeps its top at the back; the model keeps the top container at
the head of the list. -/

inductive Container where
  | list (l : List Value)
  | dict (d : List (List Nat × Value)) (pending_key : Option (List Nat))
deriving DecidableEq

/-- `DictBuilder::insert`. -/
def DictBuilder.insert (d : List (List Nat × Value)) (pk : Option (List Nat))
    (v : Value) :
    Except StructureError (List (List Nat × Value) × Option (List Nat)) :=
  match pk with
  | none =>
    match v with
    | .str s => .ok (d, some s)
    | _ => .error .pushToDictError
  | some k => .ok (d ++ [(k, v)], none)

/-- `DictBuilder::finish`. -/
def DictBuilder.finish (d : List (List Nat × Value)) (pk : Option (List Nat)) :
    Except StructureError (List (List Nat × Value)) :=
  if pk ≠ none then .error .orphanedKey else .ok d

/-- `Container::push_value`. -/
def Container.push_value (c : Container) (v : Value) :
    Except StructureError Container :=
  match c with
  | .list l => .ok (.list (l ++ [v]))
  | .dict d pk => (DictBuilder.insert d pk v).map (fun p => .dict p.1 p.2)

/-- `Container::to_value`. -/
def Container.to_value (c : Container) : Except StructureError Value :=
  match c with
  | .list l => .ok (.list l)
  | .dict d pk => (DictBuilder.finish d pk).map .dict

/-- `Stack::push_value`: if the stack is empty the value is the completed root. -/
def Stack.push_value (stack : List Container) (v : Value) :
    Except StructureError (Option Value × List Container) :=
  match stack with
  | top :: rest => (top.push_value v).map (fun c => (none, c :: rest))
  | [] => .ok (some v, [])

/-- `Stack::pop_container`: finalize the top container and push it into the
one below (or yield it as root). Popping an empty stack yields nothing. -/
def Stack.pop_container (stack : List Container) :
    Except StructureError (Option Value × List Container) :=
  match stack with
  | top :: rest =>
    match top.to_value with
    | .ok v => Stack.push_value rest v
    | .error e => .error e
  | [] => .ok (none, [])

/-! ## Streaming decoder (`bencode/decoder.rs`)

The byte source is a slice (`&[u8]`): `fill_buf` exposes the whole remainder
and `consume` takes all of it, so a refill moves the entire remaining source
into the internal buffer. -/

structure DecSt where
  src : List Nat
  buf : List Nat
deriving DecidableEq

/-- `Decoder::advance_buf`. -/
def DecSt.advance_buf (st : DecSt) (n : Nat) : DecSt :=
  if n ≤ st.buf.length then { st with buf := st.buf.drop n } else st

/-- `Decoder::next_token`: dispatch on the first buffered byte; `none` means
more bytes are needed. -/
def DecSt.next_token (st : DecSt) : Except DecodeError (Option Token × DecSt) :=
  match st.buf.head? with
  | none => .ok (none, st)
  | some b =>
    if b = 105 then
      match parse_int st.buf with
      | .ok (t, n) => .ok (t, st.advance_buf n)
      | .error e => .error e
    else if 48 ≤ b ∧ b ≤ 57 then
      match parse_string st.buf with
      | .ok (t, n) => .ok (t, st.advance_buf n)
      | .error e => .error e
    else if b = 108 then .ok (some .beginList, st.advance_buf 1)
    else if b = 100 then .ok (some .beginDict, st.advance_buf 1)
    else if b = 101 then .ok (some .endOfObj, st.advance_buf 1)
    else .ok (some .invalid, st)

/-- `Decoder::refill` for a slice source: append the whole remaining source to
the buffer and report how many bytes arrived. -/
def DecSt.refill (st : DecSt) : Nat × DecSt :=
  (st.src.length, { src := [], buf := st.buf ++ st.src })

/-- The body of `Decoder::decode`'s loop, with explicit fuel. `none` stands
for fuel exhaustion, which `decode`'s fuel choice makes unreachable. The loop
yields the completed root together with the decoder state at the break. -/
def decodeLoop : Nat → DecSt → List Container →
    Option (Except DecodeError (Value × DecSt))
  | 0, _, _ => none
  | fuel + 1, st, stack =>
    match st.next_token with
    | .error e => some (.error e)
    | .ok (some tok, st') =>
      match tok with
      | .primitive v =>
        match Stack.push_value stack v with
        | .ok (some root, _) => some (.ok (root, st'))
        | .ok (none, stack') => decodeLoop fuel st' stack'
        | .error e => some (.error (.invalidStructure e))
      | .beginList => decodeLoop fuel st' (.list [] :: stack)
      | .beginDict => decodeLoop fuel st' (.dict [] none :: stack)
      | .endOfObj =>
        match Stack.pop_container stack with
        | .ok (some root, _) => some (.ok (root, st'))
        | .ok (none, stack') => decodeLoop fuel st' stack'
        | .error e => some (.error (.invalidStructure e))
      | .invalid => some (.error .invalidSyntax)
    | .ok (none, _) =>
      let (len, st') := st.refill
      if len = 0 then some (.error .unexpectedEof)
      else decodeLoop fuel st' stack

/-- The loop of `Decoder::decode`, started on an empty buffer over the given
source. The fuel covers every reachable iteration: each produced token
consumes at least one buffered byte and the single effective refill moves the
source into the buffer. -/
def decodeRoot (src : List Nat) : Option (Except DecodeError (Value × DecSt)) :=
  decodeLoop (2 * src.length + 3) ⟨src, []⟩ []

/-- `Decoder::decode` over a fresh decoder on a byte slice: run the loop, then
fail with `TrailingDataInBuffer` if buffered bytes remain. Fuel exhaustion is
unreachable (see `decodeRoot`) and is mapped to an arbitrary error. -/
def decode (src : List Nat) : Except DecodeError Value :=
  match decodeRoot src with
  | some (.ok (v, st)) => if st.buf.isEmpty then .ok v else .error .trailingDataInBuffer
  | some (.error e) => .error e
  | none => .error .io

/-! ## Canonicalization, from the specification's words (claim C8)

The specification postulates a canonical ordering of dictionary pairs,
lexicographic by key bytes; this is the spec-side definition used to compare
against the implementation's structural equality. -/

/-- Lexicographic comparison of byte lists (`a ≤ b`). -/
def specKeyLe : List Nat → List Nat → Bool
  | [], _ => true
  | _ :: _, [] => false
  | a :: as, b :: bl => if a < b then true else if b < a then false else specKeyLe as bl

/-- Ordered insert of a pair by key, for the spec-side canonical sort. -/
def specInsertPair (p : List Nat × Value) :
    List (List Nat × Value) → List (List Nat × Value)
  | [] => [p]
  | q :: qs => if specKeyLe p.1 q.1 then p :: q :: qs else q :: specInsertPair p qs

/-- Insertion sort of dictionary pairs by key bytes, per the spec's canonical
ordering. -/
def specSortPairs : List (List Nat × Value) → List (List Nat × Value)
  | [] => []
  | p :: ps => specInsertPair p (specSortPairs ps)

mutual

/-- Canonicalization per the spec's words: dictionaries are rewritten with
their pairs in lexicographic key order, recursively. -/
def specCanonicalize : Value → Value
  | .int n => .int n
  | .str s => .str s
  | .list l => .list (specCanonicalizeList l)
  | .dict d => .dict (specSortPairs (specCanonicalizePairs d))

def specCanonicalizeList : List Value → List Value
  | [] => []
  | v :: vs => specCanonicalize v :: specCanonicalizeList vs

def specCanonicalizePairs :
    List (List Nat × Value) → List (List Nat × Value)
  | [] => []
  | p :: ps => (p.1, specCanonicalize p.2) :: specCanonicalizePairs ps

end

/-! ## Claims C4, C5, C6, C7, C8 -/

/-- Helper: the decoder state after decoding `li42e4:teste` with trailing
`3:cow` left in the buffer. -/
theorem decodeRoot_trailing_example :
    decodeRoot (bs "li42e4:teste3:cow") =
      some (.ok (.list [.int 42, .str (bs "test")], ⟨[], bs "3:cow"⟩)) := by
  decide

/-- Equation lemma: `parse_string` when the colon is found. -/
theorem parse_string_some (buf : List Nat) (i : Nat)
    (hfind : buf.findIdx? (· == 58) = some i) :
    parse_string buf =
      (if buf.headD 0 = 48 ∧ buf.getD 1 0 ≠ 58 then .error .invalidSyntax
      else if 7 < i then .error .valueTooLarge
      else match atoiNat (buf.take i) with
        | none => .error .invalidSyntax
        | some len =>
          if buf.length < len + i + 1 then .ok (none, 0)
          else .ok (some (.primitive (.str ((buf.drop (i + 1)).take len))),
            i + len + 1)) := by
  unfold parse_string
  rw [hfind]

/-- Equation lemma: `parse_string` when no colon is present. -/
theorem parse_string_none (buf : List Nat)
    (hfind : buf.findIdx? (· == 58) = none) :
    parse_string buf = .ok (none, 0) := by
  unfold parse_string
  rw [hfind]

/-- Equation lemma: `parse_int` when the terminator is found. -/
theorem parse_int_some (buf : List Nat) (i : Nat)
    (hfind : buf.findIdx? (· == 101) = some i) :
    parse_int buf =
      (if buf.getD 1 0 = 45 ∧ buf.getD 2 0 = 48 then .error .invalidSyntax
      else if buf.getD 1 0 = 48 ∧ buf.getD 2 0 ≠ 101 then .error .invalidSyntax
      else if 19 < i - 1 then .error .valueTooLarge
      else match fromRadix10SignedChecked ((buf.drop 1).take (i - 1)) with
        | (some n, len) =>
          if len ≠ i - 1 then .error .invalidSyntax
          else .ok (some (.primitive (.int n)), i + 1)
        | (none, _) => .error .invalidSyntax) := by
  unfold parse_int
  rw [hfind]

/-- Equation lemma: `parse_int` when no terminator is present. -/
theorem parse_int_none (buf : List Nat)
    (hfind : buf.findIdx? (· == 101) = none) :
    parse_int buf = .ok (none, 0) := by
  unfold parse_int
  rw [hfind]

/-- C4: `i-0e`, `i042e` and `04:test` are all rejected with `InvalidSyntax`;
`-0` is never a valid integer and a leading `0` digit is allowed only as the
sole digit of an integer payload or of a string-length payload; the empty
string `0:` (and the integer `i0e`) remain valid. -/
theorem C4_leading_zero_rules :
    decode (bs "i-0e") = .error .invalidSyntax ∧
    decode (bs "i042e") = .error .invalidSyntax ∧
    decode (bs "04:test") = .error .invalidSyntax ∧
    decode (bs "0:") = .ok (.str []) ∧
    decode (bs "i0e") = .ok (.int 0) ∧
    (∀ buf i, buf.findIdx? (· == 101) = some i → buf.getD 1 0 = 45 →
      buf.getD 2 0 = 48 → parse_int buf = .error .invalidSyntax) ∧
    (∀ buf i, buf.findIdx? (· == 101) = some i → buf.getD 1 0 = 48 →
      buf.getD 2 0 ≠ 101 → parse_int buf = .error .invalidSyntax) ∧
    (∀ buf i, buf.findIdx? (· == 58) = some i → buf.headD 0 = 48 →
      buf.getD 1 0 ≠ 58 → parse_string buf = .error .invalidSyntax) := by
  refine ⟨by decide, by decide, by decide, by decide, by decide, ?_, ?_, ?_⟩
  · intro buf i hfind h1 h2
    rw [parse_int_some buf i hfind, if_pos ⟨h1, h2⟩]
  · intro buf i hfind h1 h2
    rw [parse_int_some buf i hfind,
      if_neg (fun hc => by rw [h1] at hc; exact absurd hc.1 (by decide)),
      if_pos ⟨h1, h2⟩]
  · intro buf i hfind h0 h1
    rw [parse_string_some buf i hfind, if_pos ⟨h0, h1⟩]

/-- C4 witness: the universal clauses applied at concrete buffers. -/
theorem C4_leading_zero_rules_witness :
    parse_int (bs "i-05e") = .error .invalidSyntax ∧
    parse_int (bs "i00e") = .error .invalidSyntax ∧
    parse_string (bs "01:a") = .error .invalidSyntax :=
  ⟨C4_leading_zero_rules.2.2.2.2.2.1 (bs "i-05e") 4 (by decide) (by decide)
      (by decide),
   C4_leading_zero_rules.2.2.2.2.2.2.1 (bs "i00e") 3 (by decide) (by decide)
      (by decide),
   C4_leading_zero_rules.2.2.2.2.2.2.2 (bs "01:a") 2 (by decide) (by decide)
      (by decide)⟩

/-- C5 counterexample: a string-length payload of 8 characters (at most 21,
so the claim says it must not be rejected for size) is rejected with
`ValueTooLarge`; the actual bound on the length payload is 7 characters. -/
theorem C5_payload_bound_counterexample :
    parse_string (bs "12345678:") = .error .valueTooLarge ∧
    (bs "12345678:").findIdx? (· == 58) = some 8 ∧
    decode (bs "12345678:aaa") = .error .valueTooLarge := by
  refine ⟨by decide, by decide, by decide⟩

/-- C5 (amended): `ValueTooLarge` is produced exactly when the terminator is
present, the leading-zero / `-0` syntax checks have not already rejected the
payload, and the payload exceeds the actual bound: more than 7 characters for
a string-length payload, more than 19 characters (sign included) for an
integer payload. -/
theorem C5_value_too_large_iff :
    ∀ buf : List Nat,
    (parse_string buf = .error .valueTooLarge ↔
      ∃ i, buf.findIdx? (· == 58) = some i ∧
        ¬(buf.headD 0 = 48 ∧ buf.getD 1 0 ≠ 58) ∧ 7 < i) ∧
    (parse_int buf = .error .valueTooLarge ↔
      ∃ i, buf.findIdx? (· == 101) = some i ∧
        ¬(buf.getD 1 0 = 45 ∧ buf.getD 2 0 = 48) ∧
        ¬(buf.getD 1 0 = 48 ∧ buf.getD 2 0 ≠ 101) ∧ 19 < i - 1) := by
  intro buf
  constructor
  · cases hfind : buf.findIdx? (· == 58) with
    | none =>
      rw [parse_string_none buf hfind]
      constructor
      · intro h; exact absurd h (by decide)
      · intro ⟨j, hj, _⟩; cases hj
    | some i =>
      rw [parse_string_some buf i hfind]
      by_cases h1 : buf.headD 0 = 48 ∧ buf.getD 1 0 ≠ 58
      · rw [if_pos h1]
        constructor
        · intro h; exact absurd h (by decide)
        · intro ⟨j, hj, hn, _⟩; exact absurd h1 hn
      · rw [if_neg h1]
        by_cases h2 : 7 < i
        · rw [if_pos h2]
          exact ⟨fun _ => ⟨i, rfl, h1, h2⟩, fun _ => rfl⟩
        · rw [if_neg h2]
          constructor
          · intro h
            split at h
            · exact absurd h (by decide)
            · split at h
              · exact absurd h (by decide)
              · exact Except.noConfusion h
          · intro ⟨j, hj, _, hgt⟩
            cases hj
            exact absurd hgt h2
  · cases hfind : buf.findIdx? (· == 101) with
    | none =>
      rw [parse_int_none buf hfind]
      constructor
      · intro h; exact absurd h (by decide)
      · intro ⟨j, hj, _⟩; cases hj
    | some i =>
      rw [parse_int_some buf i hfind]
      by_cases h1 : buf.getD 1 0 = 45 ∧ buf.getD 2 0 = 48
      · rw [if_pos h1]
        constructor
        · intro h; exact absurd h (by decide)
        · intro ⟨j, hj, hn, _⟩; exact absurd h1 hn
      · rw [if_neg h1]
        by_cases h2 : buf.getD 1 0 = 48 ∧ buf.getD 2 0 ≠ 101
        · rw [if_pos h2]
          constructor
          · intro h; exact absurd h (by decide)
          · intro ⟨j, hj, _, hn, _⟩; exact absurd h2 hn
        · rw [if_neg h2]
          by_cases h3 : 19 < i - 1
          · rw [if_pos h3]
            exact ⟨fun _ => ⟨i, rfl, h1, h2, h3⟩, fun _ => rfl⟩
          · rw [if_neg h3]
            constructor
            · intro h
              split at h
              · split at h
                · exact absurd h (by decide)
                · exact Except.noConfusion h
              · exact absurd h (by decide)
            · intro ⟨j, hj, _, _, hgt⟩
              cases hj
              exact absurd hgt h3

/-- C5 (amended) witness: the characterization applied at concrete buffers —
an 8-character length payload and a 20-character integer payload are rejected
for size, while 7- and 19-character payloads are not. -/
theorem C5_value_too_large_iff_witness :
    parse_string (bs "12345679:") = .error .valueTooLarge ∧
    parse_int (bs "i12345678901234567890e") = .error .valueTooLarge ∧
    parse_string (bs "1234567:") ≠ .error .valueTooLarge ∧
    parse_int (bs "i1234567890123456789e") ≠ .error .valueTooLarge := by
  refine ⟨((C5_value_too_large_iff (bs "12345679:")).1).2 ⟨8, by decide⟩,
    ((C5_value_too_large_iff (bs "i12345678901234567890e")).2).2
      ⟨21, by decide⟩, by decide, by decide⟩

/-- C6: whenever the decode loop completes a root value, the decoder reports
`TrailingDataInBuffer` exactly when unconsumed bytes remain past the first
complete top-level object; concretely, `li42e4:teste3:cow` is rejected while
`li42e4:teste` is accepted. -/
theorem C6_trailing_data_iff :
    (∀ src v st, decodeRoot src = some (.ok (v, st)) →
      (decode src = .error .trailingDataInBuffer ↔ st.buf ≠ [])) ∧
    decode (bs "li42e4:teste3:cow") = .error .trailingDataInBuffer ∧
    decode (bs "li42e4:teste") = .ok (.list [.int 42, .str (bs "test")]) := by
  refine ⟨?_, by decide, by decide⟩
  intro src v st h
  unfold decode
  rw [h]
  show (if st.buf.isEmpty = true then (Except.ok v : Except DecodeError Value)
      else .error .trailingDataInBuffer) = .error .trailingDataInBuffer ↔
    st.buf ≠ []
  by_cases hb : st.buf = []
  · rw [if_pos (by simp [hb])]
    constructor
    · intro hc; exact Except.noConfusion hc
    · intro hc; exact absurd hb hc
  · rw [if_neg (by simp [List.isEmpty_iff, hb])]
    exact ⟨fun _ => hb, fun _ => rfl⟩

/-- C6 witness: the characterization applied to the concrete decode of
`li42e4:teste3:cow`, whose loop completes a root with `3:cow` left over. -/
theorem C6_trailing_data_iff_witness :
    decode (bs "li42e4:teste3:cow") = .error .trailingDataInBuffer :=
  (C6_trailing_data_iff.1 (bs "li42e4:teste3:cow")
      (.list [.int 42, .str (bs "test")]) ⟨[], bs "3:cow"⟩
      decodeRoot_trailing_example).2 (by decide)

/-- C7 counterexample: pushing two different non-string values into a
dict-builder with no pending key yields the very same payload-less
`PushToDictError` value, so the error does not carry the offending value as
the claim states. -/
theorem C7_error_payload_counterexample :
    DictBuilder.insert [] none (.int 1) = .error .pushToDictError ∧
    DictBuilder.insert [] none (.list []) = .error .pushToDictError ∧
    (Value.int 1 ≠ Value.list []) := by
  refine ⟨rfl, rfl, by decide⟩

/-- C7 (amended): in no-pending-key state pushing a byte string sets it as
the pending key and any other value fails with the (payload-less)
`PushToDictError`; in pending-key state the pair is stored and the pending
key cleared; finalizing a dict-builder with a pending key — directly or via
`Stack::pop_container` — fails with `OrphanedKey`. -/
theorem C7_dict_builder_rules :
    (∀ d s, DictBuilder.insert d none (.str s) = .ok (d, some s)) ∧
    (∀ d v, (∀ s, v ≠ .str s) →
      DictBuilder.insert d none v = .error .pushToDictError) ∧
    (∀ d k v, DictBuilder.insert d (some k) v = .ok (d ++ [(k, v)], none)) ∧
    (∀ d k, DictBuilder.finish d (some k) = .error .orphanedKey) ∧
    (∀ d k rest,
      Stack.pop_container (.dict d (some k) :: rest) = .error .orphanedKey) := by
  refine ⟨fun d s => rfl, ?_, fun d k v => rfl, fun d k => by
    simp [DictBuilder.finish], ?_⟩
  · intro d v h
    cases v with
    | str s => exact absurd rfl (h s)
    | int n => rfl
    | list l => rfl
    | dict p => rfl
  · intro d k rest
    simp [Stack.pop_container, Container.to_value, DictBuilder.finish,
      Except.map]

/-- C7 (amended) witness: the rules applied at concrete inputs. -/
theorem C7_dict_builder_rules_witness :
    DictBuilder.insert [] none (.int 5) = .error .pushToDictError ∧
    DictBuilder.insert [] none (.str (bs "k")) = .ok ([], some (bs "k")) ∧
    Stack.pop_container [.dict [] (some (bs "k"))] = .error .orphanedKey :=
  ⟨C7_dict_builder_rules.2.1 [] (.int 5) (fun s h => Value.noConfusion h),
   C7_dict_builder_rules.1 [] (bs "k"),
   C7_dict_builder_rules.2.2.2.2 [] (bs "k") []⟩

/-- C8 counterexample: two dictionaries whose canonicalized pair lists agree
— the same pairs inserted in different orders — are nevertheless unequal
under the implementation's structural equality. -/
theorem C8_order_counterexample :
    specCanonicalize (.dict [(bs "a", .int 1), (bs "b", .int 2)]) =
      specCanonicalize (.dict [(bs "b", .int 2), (bs "a", .int 1)]) ∧
    Value.dict [(bs "a", .int 1), (bs "b", .int 2)] ≠
      Value.dict [(bs "b", .int 2), (bs "a", .int 1)] := by
  constructor
  · decide
  · decide

/-- C8 (amended): equality on `Value` dictionaries is structural and
order-sensitive — two `Dict` values are equal exactly when their pair
sequences coincide in order, so insertion order is not ignored. -/
theorem C8_dict_eq_structural :
    ∀ d1 d2 : List (List Nat × Value),
      (Value.dict d1 = Value.dict d2) ↔ d1 = d2 := by
  intro d1 d2
  constructor
  · intro h
    injection h
  · intro h
    rw [h]

/-! ## Bencode encoding, from the specification's words (claim C2)

The canonical bencode encoding of a `Value`, used to state the decode
round-trip: `i<decimal>e`, `<decimal>:<bytes>`, `l…e`, `d…e`. -/

/-- Little-endian decimal digits with structural fuel (so that the kernel can
evaluate it); agrees with `Nat.digits 10` (see `decDigits_eq_digits`). -/
def decDigits : Nat → Nat → List Nat
  | 0, _ => []
  | fuel + 1, n => if n = 0 then [] else n % 10 :: decDigits fuel (n / 10)

/-- Big-endian ASCII decimal representation of a natural number. -/
def natDecimal (n : Nat) : List Nat :=
  if n = 0 then [48] else ((decDigits n n).reverse).map (· + 48)

/-- ASCII decimal representation of an `i64`, sign included. -/
def intDecimal (n : Int) : List Nat :=
  if n < 0 then 45 :: natDecimal (-n).toNat else natDecimal n.toNat

/-- Canonical bencode encoding of a byte string token. -/
def encStr (s : List Nat) : List Nat := natDecimal s.length ++ (58 :: s)

mutual

/-- Canonical bencode encoding of a `Value` (specification §6). -/
def encodeValue : Value → List Nat
  | .int n => 105 :: (intDecimal n ++ [101])
  | .str s => encStr s
  | .list l => 108 :: (encodeValues l ++ [101])
  | .dict d => 100 :: (encodePairs d ++ [101])

def encodeValues : List Value → List Nat
  | [] => []
  | v :: vs => encodeValue v ++ encodeValues vs

def encodePairs : List (List Nat × Value) → List Nat
  | [] => []
  | p :: ps => encStr p.1 ++ (encodeValue p.2 ++ encodePairs ps)

end

mutual

/-- A `Value` within the tokenizer's size bounds: integers whose decimal
payload fits in 19 characters (sign included) and strings whose length
payload fits in 7 characters, recursively. -/
def fits : Value → Bool
  | .int n => (0 ≤ n && n < 2 ^ 63) || (n < 0 && -n < 10 ^ 18)
  | .str s => s.length < 10 ^ 7
  | .list l => fitsList l
  | .dict d => fitsPairs d

def fitsList : List Value → Bool
  | [] => true
  | v :: vs => fits v && fitsList vs

def fitsPairs : List (List Nat × Value) → Bool
  | [] => true
  | p :: ps => decide (p.1.length < 10 ^ 7) && fits p.2 && fitsPairs ps

end

/-- `decDigits` with enough fuel computes `Nat.digits 10`. -/
theorem decDigits_eq_digits : ∀ fuel n, n ≤ fuel → decDigits fuel n = Nat.digits 10 n := by
  intro fuel
  induction fuel with
  | zero =>
    intro n hn
    interval_cases n
    simp [decDigits]
  | succ f ih =>
    intro n hn
    by_cases h0 : n = 0
    · simp [decDigits, h0]
    · have hdiv : n / 10 ≤ f := by
        have := Nat.div_lt_self (Nat.pos_of_ne_zero h0) (by norm_num : 1 < 10)
        omega
      rw [decDigits, if_neg h0, Nat.digits_def' (by norm_num : (1:Nat) < 10)
        (Nat.pos_of_ne_zero h0), ih (n / 10) hdiv]

/-- Every byte of `natDecimal n` is an ASCII digit. -/
theorem natDecimal_digits {n d : Nat} (hd : d ∈ natDecimal n) : isDigitB d = true := by
  unfold natDecimal at hd
  by_cases h0 : n = 0
  · rw [if_pos h0] at hd
    simp at hd
    simp [hd, isDigitB]
  · rw [if_neg h0, decDigits_eq_digits n n le_rfl] at hd
    simp only [List.mem_map, List.mem_reverse] at hd
    obtain ⟨x, hx, hxd⟩ := hd
    have := Nat.digits_lt_base (by norm_num) hx
    simp only [isDigitB, Bool.and_eq_true, decide_eq_true_eq]
    omega

/-- Folding the decimal accumulator over a reversed digit list recovers
`Nat.ofDigits`. -/
theorem digitsVal_reverse_map (l : List Nat) (hl : ∀ x ∈ l, x < 10) :
    digitsVal (l.reverse.map (· + 48)) = Nat.ofDigits 10 l := by
  induction l with
  | nil => simp [digitsVal, Nat.ofDigits]
  | cons d t ih =>
    have hd : d < 10 := hl d (by simp)
    simp only [List.reverse_cons, List.map_append, List.map_cons, List.map_nil]
    unfold digitsVal
    rw [List.foldl_append]
    simp only [List.foldl_cons, List.foldl_nil]
    rw [show (t.reverse.map (· + 48)).foldl (fun a b => a * 10 + (b - 48)) 0 =
      digitsVal (t.reverse.map (· + 48)) from rfl,
      ih (fun x hx => hl x (by simp [hx])), Nat.ofDigits_cons]
    push_cast
    omega

/-- The decimal representation evaluates back to itself. -/
theorem digitsVal_natDecimal (n : Nat) : digitsVal (natDecimal n) = n := by
  unfold natDecimal
  by_cases h0 : n = 0
  · simp [h0, digitsVal]
  · rw [if_neg h0, decDigits_eq_digits n n le_rfl,
      digitsVal_reverse_map _ (fun x hx => Nat.digits_lt_base (by norm_num) hx),
      Nat.ofDigits_digits]

/-- `natDecimal n` is never empty. -/
theorem natDecimal_ne_nil (n : Nat) : natDecimal n ≠ [] := by
  unfold natDecimal
  by_cases h0 : n = 0
  · simp [h0]
  · rw [if_neg h0, decDigits_eq_digits n n le_rfl]
    simp [Nat.digits_ne_nil_iff_ne_zero.mpr h0]

/-- `atoi` accepts the decimal representation. -/
theorem atoiNat_natDecimal (n : Nat) : atoiNat (natDecimal n) = some n := by
  unfold atoiNat
  rw [if_neg (by simp [List.isEmpty_iff, natDecimal_ne_nil n]),
    if_pos (by rw [List.all_eq_true]; exact fun d hd => natDecimal_digits hd),
    digitsVal_natDecimal]

/-- Length bound: `n < 10 ^ k` (with `k ≥ 1`) bounds the decimal length. -/
theorem natDecimal_length_le {n k : Nat} (hk : 1 ≤ k) (h : n < 10 ^ k) :
    (natDecimal n).length ≤ k := by
  unfold natDecimal
  by_cases h0 : n = 0
  · simpa [h0] using hk
  · rw [if_neg h0, decDigits_eq_digits n n le_rfl]
    simp only [List.length_map, List.length_reverse]
    rw [Nat.digits_len 10 n (by norm_num) h0]
    have := (Nat.lt_pow_iff_log_lt (by norm_num : 1 < 10) h0).mp h
    omega

/-- The leading digit of a positive number's decimal form is not `0`. -/
theorem natDecimal_head_ne_zero {n : Nat} (h0 : n ≠ 0) :
    (natDecimal n).headD 0 ≠ 48 := by
  unfold natDecimal
  rw [if_neg h0, decDigits_eq_digits n n le_rfl]
  have hnil : Nat.digits 10 n ≠ [] := Nat.digits_ne_nil_iff_ne_zero.mpr h0
  have hlast := Nat.getLast_digit_ne_zero 10 h0
  rw [List.headD_eq_head?]
  cases hrev : ((Nat.digits 10 n).reverse.map (· + 48)).head? with
  | none =>
    simp only [List.head?_eq_none_iff, List.map_eq_nil_iff,
      List.reverse_eq_nil_iff] at hrev
    exact absurd hrev hnil
  | some d =>
    rw [List.head?_map, List.head?_reverse] at hrev
    simp only [Option.map_eq_some'] at hrev
    obtain ⟨x, hx, hxd⟩ := hrev
    rw [List.getLast?_eq_getLast _ hnil] at hx
    simp only [Option.getD_some]
    rw [Option.some.injEq] at hx
    omega

/-- First match of a predicate after a clean prefix. -/
theorem findIdx_first (p : Nat → Bool) (l : List Nat) (a : Nat) (r : List Nat)
    (hl : ∀ x ∈ l, p x = false) (ha : p a = true) :
    List.findIdx? p (l ++ a :: r) = some l.length := by
  rw [List.findIdx?_append, List.findIdx?_eq_none_iff.mpr hl,
    List.findIdx?_cons, if_pos ha]
  simp

/-- Numeric bounds of an ASCII digit byte. -/
theorem isDigitB_bounds {x : Nat} (h : isDigitB x = true) : 48 ≤ x ∧ x ≤ 57 := by
  simpa [isDigitB, Bool.and_eq_true, decide_eq_true_eq] using h

/-- The head of a decimal representation is an ASCII digit. -/
theorem natDecimal_headD_digit (m : Nat) :
    isDigitB ((natDecimal m).headD 0) = true := by
  cases hl : natDecimal m with
  | nil => exact absurd hl (natDecimal_ne_nil m)
  | cons d t =>
    have : d ∈ natDecimal m := by rw [hl]; simp
    simpa using natDecimal_digits this

/-- `from_radix_10_signed_checked` on a plain decimal payload within the
`i64` range. -/
theorem fromRadix_natDecimal (m : Nat) (hm : (m : Int) ≤ 2 ^ 63 - 1) :
    fromRadix10SignedChecked (natDecimal m) =
      (some (m : Int), (natDecimal m).length) := by
  have hd := isDigitB_bounds (natDecimal_headD_digit m)
  have h45 : ¬ (natDecimal m).headD 0 = 45 := by omega
  have h43 : ¬ (natDecimal m).headD 0 = 43 := by omega
  have htw : (natDecimal m).takeWhile isDigitB = natDecimal m :=
    List.takeWhile_eq_self_iff.mpr (fun x hx => natDecimal_digits hx)
  simp only [fromRadix10SignedChecked]
  rw [decide_eq_false h45, decide_eq_false h43]
  simp only [Bool.or_self, Bool.false_eq_true, if_false, htw]
  rw [if_neg]
  · simp [digitsVal_natDecimal]
  · rw [digitsVal_natDecimal]
    push_cast
    omega

/-- `from_radix_10_signed_checked` on a sign-prefixed decimal payload within
the `i64` range. -/
theorem fromRadix_negDecimal (m : Nat) (hm0 : m ≠ 0) (hm : (m : Int) ≤ 2 ^ 63) :
    fromRadix10SignedChecked (45 :: natDecimal m) =
      (some (-(m : Int)), 1 + (natDecimal m).length) := by
  have htw : (natDecimal m).takeWhile isDigitB = natDecimal m :=
    List.takeWhile_eq_self_iff.mpr (fun x hx => natDecimal_digits hx)
  have h45 : ((45 :: natDecimal m).headD 0 = 45) := by simp
  simp only [fromRadix10SignedChecked]
  rw [decide_eq_true h45]
  simp only [Bool.true_or, if_true, List.tail_cons, htw]
  rw [if_neg]
  · simp [digitsVal_natDecimal]
  · rw [digitsVal_natDecimal]
    have : (0 : Int) < (m : Int) := by exact_mod_cast Nat.pos_of_ne_zero hm0
    push_cast
    omega

/-- Bytes of a signed decimal payload: a sign or digits. -/
theorem intDecimal_mem {n : Int} {x : Nat} (hx : x ∈ intDecimal n) :
    x = 45 ∨ isDigitB x = true := by
  unfold intDecimal at hx
  split at hx
  · rcases List.mem_cons.mp hx with rfl | hx'
    · exact Or.inl rfl
    · exact Or.inr (natDecimal_digits hx')
  · exact Or.inr (natDecimal_digits hx)

/-- The signed decimal payload is never empty. -/
theorem intDecimal_ne_nil (n : Int) : intDecimal n ≠ [] := by
  unfold intDecimal
  split
  · simp
  · exact natDecimal_ne_nil _

/-- Size bound on the signed decimal payload of a fitting integer. -/
theorem intDecimal_length_le {n : Int} (h : fits (.int n) = true) :
    (intDecimal n).length ≤ 19 := by
  have hfits : (0 ≤ n ∧ n < 2 ^ 63) ∨ (n < 0 ∧ -n < 10 ^ 18) := by
    simpa [fits, Bool.or_eq_true, Bool.and_eq_true, decide_eq_true_eq] using h
  unfold intDecimal
  rcases hfits with ⟨h0, hlt⟩ | ⟨h0, hlt⟩
  · rw [if_neg (by omega)]
    exact natDecimal_length_le (by norm_num) (by omega)
  · rw [if_pos h0]
    simp only [List.length_cons]
    have := natDecimal_length_le (n := (-n).toNat) (k := 18) (by norm_num)
      (by omega)
    omega

/-- `parse_int` consumes exactly one encoded integer token. -/
theorem parse_int_enc (n : Int) (h : fits (.int n) = true) (rest : List Nat) :
    parse_int (105 :: (intDecimal n ++ (101 :: rest))) =
      .ok (some (.primitive (.int n)), (intDecimal n).length + 2) := by
  have hfits : (0 ≤ n ∧ n < 2 ^ 63) ∨ (n < 0 ∧ -n < 10 ^ 18) := by
    simpa [fits, Bool.or_eq_true, Bool.and_eq_true, decide_eq_true_eq] using h
  have hno : ∀ x ∈ 105 :: intDecimal n, ((x == 101) = false) := by
    intro x hx
    rcases List.mem_cons.mp hx with rfl | hx'
    · decide
    · rcases intDecimal_mem hx' with rfl | hd
      · decide
      · have := isDigitB_bounds hd
        simp only [beq_eq_false_iff_ne, ne_eq]
        omega
  have hfind : List.findIdx? (· == 101)
      (105 :: (intDecimal n ++ (101 :: rest))) =
      some ((intDecimal n).length + 1) := by
    have := findIdx_first (· == 101) (105 :: intDecimal n) 101 rest hno
      (by decide)
    simpa [List.cons_append] using this
  rw [parse_int_some _ _ hfind]
  have hsize : ¬ 19 < (intDecimal n).length + 1 - 1 := by
    have := intDecimal_length_le h
    omega
  have hdrop : (List.take ((intDecimal n).length + 1 - 1)
      (List.drop 1 (105 :: (intDecimal n ++ (101 :: rest))))) = intDecimal n := by
    simp [List.take_left']
  rcases hfits with ⟨h0, hlt⟩ | ⟨h0, hlt⟩
  · -- non-negative: payload is a plain decimal
    have hn : intDecimal n = natDecimal n.toNat := by
      unfold intDecimal
      rw [if_neg (by omega)]
    have hcast : ((n.toNat : Nat) : Int) = n := Int.toNat_of_nonneg h0
    by_cases hm : n.toNat = 0
    · -- the value is zero: the payload is [48]
      have hn0 : n = 0 := by omega
      subst hn0
      have h01 : intDecimal 0 = [48] := rfl
      rw [h01] at *
      rw [if_neg (by simp [List.getD]), if_neg (by simp [List.getD]),
        if_neg (by norm_num),
        show (List.take ([48].length + 1 - 1)
          (List.drop 1 (105 :: ([48] ++ (101 :: rest))))) = [48] from by simp,
        show fromRadix10SignedChecked [48] = (some 0, 1) from by decide]
      norm_num
    · -- positive: leading digit is not zero
      have hd := isDigitB_bounds (natDecimal_headD_digit n.toNat)
      have hne0 : (natDecimal n.toNat).headD 0 ≠ 48 := natDecimal_head_ne_zero hm
      have hg1 : (105 :: (intDecimal n ++ (101 :: rest))).getD 1 0 =
          (natDecimal n.toNat).headD 0 := by
        rw [hn]
        cases hl : natDecimal n.toNat with
        | nil => exact absurd hl (natDecimal_ne_nil _)
        | cons d t => simp [List.getD]
      rw [if_neg (by rw [hg1]; omega), if_neg (by rw [hg1]; omega),
        if_neg hsize, hdrop, hn,
        fromRadix_natDecimal n.toNat (by omega)]
      show (if (natDecimal n.toNat).length ≠ (natDecimal n.toNat).length + 1 - 1
          then (Except.error DecodeError.invalidSyntax :
            Except DecodeError (Option Token × Nat))
          else .ok (some (.primitive (.int (n.toNat : Int))),
            (natDecimal n.toNat).length + 1 + 1)) =
        .ok (some (.primitive (.int n)), (natDecimal n.toNat).length + 2)
      rw [if_neg (by omega), hcast]
  · -- negative: payload is the sign followed by the magnitude's decimal
    have hm0 : (-n).toNat ≠ 0 := by omega
    have hn : intDecimal n = 45 :: natDecimal (-n).toNat := by
      unfold intDecimal
      rw [if_pos h0]
    have hd := isDigitB_bounds (natDecimal_headD_digit (-n).toNat)
    have hne0 : (natDecimal (-n).toNat).headD 0 ≠ 48 :=
      natDecimal_head_ne_zero hm0
    have hg1 : (105 :: (intDecimal n ++ (101 :: rest))).getD 1 0 = 45 := by
      rw [hn]; simp [List.getD]
    have hg2 : (105 :: (intDecimal n ++ (101 :: rest))).getD 2 0 =
        (natDecimal (-n).toNat).headD 0 := by
      rw [hn]
      cases hl : natDecimal (-n).toNat with
      | nil => exact absurd hl (natDecimal_ne_nil _)
      | cons d t => simp [List.getD]
    rw [if_neg (by rw [hg1, hg2]; omega), if_neg (by rw [hg1]; omega),
      if_neg hsize, hdrop, hn,
      fromRadix_negDecimal (-n).toNat hm0 (by omega)]
    show (if 1 + (natDecimal (-n).toNat).length ≠
        (45 :: natDecimal (-n).toNat).length + 1 - 1
        then (Except.error DecodeError.invalidSyntax :
          Except DecodeError (Option Token × Nat))
        else .ok (some (.primitive (.int (-(((-n).toNat : Nat) : Int)))),
          (45 :: natDecimal (-n).toNat).length + 1 + 1)) =
      .ok (some (.primitive (.int n)), (45 :: natDecimal (-n).toNat).length + 2)
    rw [if_neg (by simp only [List.length_cons]; omega)]
    have hval : -(((-n).toNat : Nat) : Int) = n := by omega
    rw [hval]

/-- `parse_string` consumes exactly one encoded string token. -/
theorem parse_string_enc (s : List Nat) (h : s.length < 10 ^ 7) (rest : List Nat) :
    parse_string (natDecimal s.length ++ (58 :: (s ++ rest))) =
      .ok (some (.primitive (.str s)),
        (natDecimal s.length).length + s.length + 1) := by
  have hno : ∀ x ∈ natDecimal s.length, ((x == 58) = false) := by
    intro x hx
    have := isDigitB_bounds (natDecimal_digits hx)
    simp only [beq_eq_false_iff_ne, ne_eq]
    omega
  have hfind : List.findIdx? (· == 58)
      (natDecimal s.length ++ (58 :: (s ++ rest))) =
      some (natDecimal s.length).length :=
    findIdx_first _ _ 58 _ hno (by decide)
  rw [parse_string_some _ _ hfind]
  have hg0 : (natDecimal s.length ++ (58 :: (s ++ rest))).headD 0 =
      (natDecimal s.length).headD 0 := by
    cases hl : natDecimal s.length with
    | nil => exact absurd hl (natDecimal_ne_nil _)
    | cons d t => simp
  have hcond : ¬((natDecimal s.length ++ (58 :: (s ++ rest))).headD 0 = 48 ∧
      (natDecimal s.length ++ (58 :: (s ++ rest))).getD 1 0 ≠ 58) := by
    by_cases hsl : s.length = 0
    · have h01 : natDecimal s.length = [48] := by rw [hsl]; rfl
      rw [h01]
      simp [List.getD]
    · rw [hg0]
      have := natDecimal_head_ne_zero hsl
      omega
  have hsize : ¬ 7 < (natDecimal s.length).length := by
    have := natDecimal_length_le (n := s.length) (k := 7) (by norm_num) h
    omega
  rw [if_neg hcond, if_neg hsize,
    show (natDecimal s.length ++ (58 :: (s ++ rest))).take
      (natDecimal s.length).length = natDecimal s.length from List.take_left' rfl,
    atoiNat_natDecimal]
  have hlen : ¬ (natDecimal s.length ++ (58 :: (s ++ rest))).length <
      s.length + (natDecimal s.length).length + 1 := by
    simp only [List.length_append, List.length_cons]
    omega
  have hdrop : ((natDecimal s.length ++ (58 :: (s ++ rest))).drop
      ((natDecimal s.length).length + 1)).take s.length = s := by
    rw [show (natDecimal s.length ++ (58 :: (s ++ rest))) =
      (natDecimal s.length ++ [58]) ++ (s ++ rest) from by simp,
      List.drop_left' (by simp), List.take_left' rfl]
  show (if (natDecimal s.length ++ (58 :: (s ++ rest))).length <
      s.length + (natDecimal s.length).length + 1
      then (Except.ok (none, 0) : Except DecodeError (Option Token × Nat))
      else .ok (some (.primitive (.str
        (((natDecimal s.length ++ (58 :: (s ++ rest))).drop
          ((natDecimal s.length).length + 1)).take s.length))),
        (natDecimal s.length).length + s.length + 1)) =
    .ok (some (.primitive (.str s)),
      (natDecimal s.length).length + s.length + 1)
  rw [if_neg hlen, hdrop]

/-! ## Loop-level consumption lemmas for the streaming decoder -/

mutual

/-- Token count of an encoded value: loop iterations needed to consume it. -/
def tc : Value → Nat
  | .int _ => 1
  | .str _ => 1
  | .list l => 2 + tcList l
  | .dict d => 2 + tcPairs d

def tcList : List Value → Nat
  | [] => 0
  | v :: vs => tc v + tcList vs

def tcPairs : List (List Nat × Value) → Nat
  | [] => 0
  | p :: ps => 1 + tc p.2 + tcPairs ps

end

/-- One unfolding of the decode loop. -/
theorem decodeLoop_succ (fuel : Nat) (st : DecSt) (stack : List Container) :
    decodeLoop (fuel + 1) st stack =
      match st.next_token with
      | .error e => some (.error e)
      | .ok (some tok, st') =>
        match tok with
        | .primitive v =>
          match Stack.push_value stack v with
          | .ok (some root, _) => some (.ok (root, st'))
          | .ok (none, stack') => decodeLoop fuel st' stack'
          | .error e => some (.error (.invalidStructure e))
        | .beginList => decodeLoop fuel st' (.list [] :: stack)
        | .beginDict => decodeLoop fuel st' (.dict [] none :: stack)
        | .endOfObj =>
          match Stack.pop_container stack with
          | .ok (some root, _) => some (.ok (root, st'))
          | .ok (none, stack') => decodeLoop fuel st' stack'
          | .error e => some (.error (.invalidStructure e))
        | .invalid => some (.error .invalidSyntax)
      | .ok (none, _) =>
        let (len, st') := st.refill
        if len = 0 then some (.error .unexpectedEof)
        else decodeLoop fuel st' stack := rfl

/-- `next_token` on a buffered encoded integer token. -/
theorem next_token_int (src : List Nat) (n : Int) (h : fits (.int n) = true)
    (rest : List Nat) :
    DecSt.next_token ⟨src, 105 :: (intDecimal n ++ (101 :: rest))⟩ =
      .ok (some (.primitive (.int n)), ⟨src, rest⟩) := by
  have hadv : DecSt.advance_buf ⟨src, 105 :: (intDecimal n ++ (101 :: rest))⟩
      ((intDecimal n).length + 2) = (⟨src, rest⟩ : DecSt) := by
    unfold DecSt.advance_buf
    rw [if_pos (by simp only [List.length_cons, List.length_append]; omega)]
    have : (105 :: (intDecimal n ++ (101 :: rest))).drop
        ((intDecimal n).length + 2) = rest := by
      rw [show (105 :: (intDecimal n ++ (101 :: rest))) =
        (105 :: (intDecimal n ++ [101])) ++ rest from by simp,
        List.drop_left' (by simp)]
    simp only [this]
  unfold DecSt.next_token
  simp only [List.head?_cons]
  rw [if_pos trivial, parse_int_enc n h rest]
  show Except.ok (some (Token.primitive (Value.int n)),
      DecSt.advance_buf ⟨src, 105 :: (intDecimal n ++ (101 :: rest))⟩
        ((intDecimal n).length + 2)) =
    Except.ok (some (Token.primitive (Value.int n)), (⟨src, rest⟩ : DecSt))
  rw [hadv]

/-- One unfolding of `next_token` on a non-empty buffer. -/
theorem next_token_cons (src : List Nat) (b : Nat) (rest : List Nat) :
    DecSt.next_token ⟨src, b :: rest⟩ =
      (if b = 105 then
        match parse_int (b :: rest) with
        | Except.ok (t, n) => Except.ok (t, DecSt.advance_buf ⟨src, b :: rest⟩ n)
        | Except.error e => Except.error e
      else if 48 ≤ b ∧ b ≤ 57 then
        match parse_string (b :: rest) with
        | Except.ok (t, n) => Except.ok (t, DecSt.advance_buf ⟨src, b :: rest⟩ n)
        | Except.error e => Except.error e
      else if b = 108 then
        Except.ok (some .beginList, DecSt.advance_buf ⟨src, b :: rest⟩ 1)
      else if b = 100 then
        Except.ok (some .beginDict, DecSt.advance_buf ⟨src, b :: rest⟩ 1)
      else if b = 101 then
        Except.ok (some .endOfObj, DecSt.advance_buf ⟨src, b :: rest⟩ 1)
      else Except.ok (some .invalid, ⟨src, b :: rest⟩)) := rfl

/-- `next_token` on a buffered encoded string token. -/
theorem next_token_str (src : List Nat) (s : List Nat) (h : s.length < 10 ^ 7)
    (rest : List Nat) :
    DecSt.next_token ⟨src, encStr s ++ rest⟩ =
      .ok (some (.primitive (.str s)), ⟨src, rest⟩) := by
  obtain ⟨d, t, hdt⟩ : ∃ d t, natDecimal s.length = d :: t := by
    cases hl : natDecimal s.length with
    | nil => exact absurd hl (natDecimal_ne_nil _)
    | cons d t => exact ⟨d, t, rfl⟩
  have hd : 48 ≤ d ∧ d ≤ 57 := by
    have := isDigitB_bounds (natDecimal_headD_digit s.length)
    rwa [hdt] at this
  have hbuf : encStr s ++ rest = d :: (t ++ (58 :: (s ++ rest))) := by
    simp [encStr, hdt]
  have hshape : (d :: (t ++ (58 :: (s ++ rest))) : List Nat) =
      natDecimal s.length ++ (58 :: (s ++ rest)) := by
    simp [hdt]
  have hadv : DecSt.advance_buf ⟨src, natDecimal s.length ++ (58 :: (s ++ rest))⟩
      ((natDecimal s.length).length + s.length + 1) = (⟨src, rest⟩ : DecSt) := by
    unfold DecSt.advance_buf
    rw [if_pos (by simp only [List.length_append, List.length_cons]; omega)]
    have hdr : (natDecimal s.length ++ (58 :: (s ++ rest))).drop
        ((natDecimal s.length).length + s.length + 1) = rest := by
      rw [show natDecimal s.length ++ (58 :: (s ++ rest)) =
        (natDecimal s.length ++ (58 :: s)) ++ rest from by simp,
        List.drop_left' (by simp only [List.length_append, List.length_cons]; omega)]
    simp only [hdr]
  rw [hbuf, next_token_cons, if_neg (by omega), if_pos hd, hshape,
    parse_string_enc s h rest]
  show Except.ok (some (Token.primitive (Value.str s)),
      DecSt.advance_buf ⟨src, natDecimal s.length ++ (58 :: (s ++ rest))⟩
        ((natDecimal s.length).length + s.length + 1)) =
    Except.ok (some (Token.primitive (Value.str s)), (⟨src, rest⟩ : DecSt))
  rw [hadv]

/-- `next_token` on the structural single-byte tokens. -/
theorem next_token_open_list (src rest : List Nat) :
    DecSt.next_token ⟨src, 108 :: rest⟩ = .ok (some .beginList, ⟨src, rest⟩) := by
  simp [DecSt.next_token, DecSt.advance_buf]

theorem next_token_open_dict (src rest : List Nat) :
    DecSt.next_token ⟨src, 100 :: rest⟩ = .ok (some .beginDict, ⟨src, rest⟩) := by
  simp [DecSt.next_token, DecSt.advance_buf]

theorem next_token_endobj (src rest : List Nat) :
    DecSt.next_token ⟨src, 101 :: rest⟩ = .ok (some .endOfObj, ⟨src, rest⟩) := by
  simp [DecSt.next_token, DecSt.advance_buf]

/-- `Stack::push_value` onto a list container appends. -/
theorem push_value_list (acc : List Value) (stack : List Container) (v : Value) :
    Stack.push_value (.list acc :: stack) v =
      .ok (none, .list (acc ++ [v]) :: stack) := rfl

/-- `Stack::push_value` of a string onto a keyless dict sets the pending key. -/
theorem push_value_dict_key (d : List (List Nat × Value)) (stack : List Container)
    (s : List Nat) :
    Stack.push_value (.dict d none :: stack) (.str s) =
      .ok (none, .dict d (some s) :: stack) := rfl

/-- `Stack::push_value` onto a dict with a pending key stores the pair. -/
theorem push_value_dict_val (d : List (List Nat × Value)) (k : List Nat)
    (stack : List Container) (v : Value) :
    Stack.push_value (.dict d (some k) :: stack) v =
      .ok (none, .dict (d ++ [(k, v)]) none :: stack) := rfl

/-- Popping a list container pushes the finished list below. -/
theorem pop_list (l : List Value) (stack : List Container) :
    Stack.pop_container (.list l :: stack) = Stack.push_value stack (.list l) := rfl

/-- Popping a keyless dict container pushes the finished dictionary below. -/
theorem pop_dict (d : List (List Nat × Value)) (stack : List Container) :
    Stack.pop_container (.dict d none :: stack) =
      Stack.push_value stack (.dict d) := by
  show (match Container.to_value (Container.dict d none) with
    | Except.ok v => Stack.push_value stack v
    | Except.error e => Except.error e) = Stack.push_value stack (Value.dict d)
  rw [show Container.to_value (Container.dict d none) =
    Except.ok (Value.dict d) from rfl]

/-- Outcome of pushing a completed value while looping: break with the root,
continue, or fail structurally. This is the loop's own continuation shape. -/
def pushOutcome (stack : List Container) (v : Value) (rest : List Nat)
    (fuel : Nat) : Option (Except DecodeError (Value × DecSt)) :=
  match Stack.push_value stack v with
  | .ok (some root, _) => some (.ok (root, ⟨[], rest⟩))
  | .ok (none, stack') => decodeLoop fuel ⟨[], rest⟩ stack'
  | .error e => some (.error (.invalidStructure e))

/-- Consuming one encoded integer token from the front of the buffer. -/
theorem decodeLoop_encInt (n : Int) (h : fits (.int n) = true) (rest : List Nat)
    (stack : List Container) (fuel : Nat) :
    decodeLoop (1 + fuel) ⟨[], encodeValue (.int n) ++ rest⟩ stack =
      pushOutcome stack (.int n) rest fuel := by
  have hbuf : encodeValue (.int n) ++ rest =
      105 :: (intDecimal n ++ (101 :: rest)) := by
    simp [encodeValue]
  rw [show 1 + fuel = fuel + 1 from by omega, hbuf, decodeLoop_succ,
    next_token_int [] n h rest]
  rfl

/-- Consuming one encoded string token from the front of the buffer. -/
theorem decodeLoop_encStr (s : List Nat) (h : s.length < 10 ^ 7) (rest : List Nat)
    (stack : List Container) (fuel : Nat) :
    decodeLoop (1 + fuel) ⟨[], encStr s ++ rest⟩ stack =
      pushOutcome stack (.str s) rest fuel := by
  rw [show 1 + fuel = fuel + 1 from by omega, decodeLoop_succ,
    next_token_str [] s h rest]
  rfl

mutual

/-- Consuming one whole encoded value: the loop behaves as a single
`push_value` of that value. -/
theorem decodeLoop_enc (v : Value) (hv : fits v = true) (rest : List Nat)
    (stack : List Container) (fuel : Nat) :
    decodeLoop (tc v + fuel) ⟨[], encodeValue v ++ rest⟩ stack =
      pushOutcome stack v rest fuel := by
  match v with
  | .int n => exact decodeLoop_encInt n hv rest stack fuel
  | .str s =>
    have hs : s.length < 10 ^ 7 := by
      simpa [fits, decide_eq_true_eq] using hv
    exact decodeLoop_encStr s hs rest stack fuel
  | .list l =>
    have hl : fitsList l = true := by simpa [fits] using hv
    have hbuf : encodeValue (.list l) ++ rest =
        108 :: (encodeValues l ++ (101 :: rest)) := by
      simp [encodeValue]
    rw [show tc (.list l) + fuel = (tcList l + (fuel + 1)) + 1 from by
      simp [tc]; omega, hbuf, decodeLoop_succ, next_token_open_list]
    show decodeLoop (tcList l + (fuel + 1)) ⟨[], encodeValues l ++ (101 :: rest)⟩
      (.list [] :: stack) = pushOutcome stack (.list l) rest fuel
    rw [decodeLoop_encList l hl (101 :: rest) stack [] (fuel + 1),
      List.nil_append, decodeLoop_succ, next_token_endobj]
    show (match Stack.pop_container (.list l :: stack) with
      | .ok (some root, _) => some (.ok (root, (⟨[], rest⟩ : DecSt)))
      | .ok (none, stack') => decodeLoop fuel ⟨[], rest⟩ stack'
      | .error e => some (.error (.invalidStructure e))) =
      pushOutcome stack (.list l) rest fuel
    rw [pop_list]
    rfl
  | .dict ps =>
    have hp : fitsPairs ps = true := by simpa [fits] using hv
    have hbuf : encodeValue (.dict ps) ++ rest =
        100 :: (encodePairs ps ++ (101 :: rest)) := by
      simp [encodeValue]
    rw [show tc (.dict ps) + fuel = (tcPairs ps + (fuel + 1)) + 1 from by
      simp [tc]; omega, hbuf, decodeLoop_succ, next_token_open_dict]
    show decodeLoop (tcPairs ps + (fuel + 1)) ⟨[], encodePairs ps ++ (101 :: rest)⟩
      (.dict [] none :: stack) = pushOutcome stack (.dict ps) rest fuel
    rw [decodeLoop_encPairs ps hp (101 :: rest) stack [] (fuel + 1),
      List.nil_append, decodeLoop_succ, next_token_endobj]
    show (match Stack.pop_container (.dict ps none :: stack) with
      | .ok (some root, _) => some (.ok (root, (⟨[], rest⟩ : DecSt)))
      | .ok (none, stack') => decodeLoop fuel ⟨[], rest⟩ stack'
      | .error e => some (.error (.invalidStructure e))) =
      pushOutcome stack (.dict ps) rest fuel
    rw [pop_dict]
    rfl

/-- Consuming a sequence of encoded values appends them to the open list. -/
theorem decodeLoop_encList (l : List Value) (hl : fitsList l = true)
    (rest : List Nat) (stack : List Container) (acc : List Value) (fuel : Nat) :
    decodeLoop (tcList l + fuel) ⟨[], encodeValues l ++ rest⟩
      (.list acc :: stack) =
      decodeLoop fuel ⟨[], rest⟩ (.list (acc ++ l) :: stack) := by
  match l with
  | [] =>
    rw [show tcList [] + fuel = fuel from by simp [tcList],
      show encodeValues [] ++ rest = rest from by simp [encodeValues],
      List.append_nil]
  | v :: vs =>
    have hv : fits v = true := by
      have := hl
      simp only [fitsList, Bool.and_eq_true] at this
      exact this.1
    have hvs : fitsList vs = true := by
      have := hl
      simp only [fitsList, Bool.and_eq_true] at this
      exact this.2
    have hbuf : encodeValues (v :: vs) ++ rest =
        encodeValue v ++ (encodeValues vs ++ rest) := by
      simp [encodeValues]
    rw [show tcList (v :: vs) + fuel = tc v + (tcList vs + fuel) from by
      simp [tcList]; omega, hbuf,
      decodeLoop_enc v hv (encodeValues vs ++ rest) (.list acc :: stack)
        (tcList vs + fuel)]
    show decodeLoop (tcList vs + fuel) ⟨[], encodeValues vs ++ rest⟩
      (.list (acc ++ [v]) :: stack) =
      decodeLoop fuel ⟨[], rest⟩ (.list (acc ++ (v :: vs)) :: stack)
    rw [decodeLoop_encList vs hvs rest stack (acc ++ [v]) fuel,
      show (acc ++ [v]) ++ vs = acc ++ (v :: vs) from by simp]

/-- Consuming a sequence of encoded key-value pairs appends them to the open
dictionary. -/
theorem decodeLoop_encPairs (ps : List (List Nat × Value))
    (hp : fitsPairs ps = true) (rest : List Nat) (stack : List Container)
    (d : List (List Nat × Value)) (fuel : Nat) :
    decodeLoop (tcPairs ps + fuel) ⟨[], encodePairs ps ++ rest⟩
      (.dict d none :: stack) =
      decodeLoop fuel ⟨[], rest⟩ (.dict (d ++ ps) none :: stack) := by
  match ps with
  | [] =>
    rw [show tcPairs [] + fuel = fuel from by simp [tcPairs],
      show encodePairs [] ++ rest = rest from by simp [encodePairs],
      List.append_nil]
  | p :: ps' =>
    have hk : p.1.length < 10 ^ 7 := by
      have := hp
      simp only [fitsPairs, Bool.and_eq_true, decide_eq_true_eq] at this
      exact this.1.1
    have hv : fits p.2 = true := by
      have := hp
      simp only [fitsPairs, Bool.and_eq_true] at this
      exact this.1.2
    have hps' : fitsPairs ps' = true := by
      have := hp
      simp only [fitsPairs, Bool.and_eq_true] at this
      exact this.2
    have hbuf : encodePairs (p :: ps') ++ rest =
        encStr p.1 ++ (encodeValue p.2 ++ (encodePairs ps' ++ rest)) := by
      simp [encodePairs]
    rw [show tcPairs (p :: ps') + fuel = 1 + (tc p.2 + (tcPairs ps' + fuel))
      from by simp [tcPairs]; omega, hbuf,
      decodeLoop_encStr p.1 hk _ (.dict d none :: stack) _]
    show decodeLoop (tc p.2 + (tcPairs ps' + fuel))
      ⟨[], encodeValue p.2 ++ (encodePairs ps' ++ rest)⟩
      (.dict d (some p.1) :: stack) =
      decodeLoop fuel ⟨[], rest⟩ (.dict (d ++ (p :: ps')) none :: stack)
    rw [decodeLoop_enc p.2 hv (encodePairs ps' ++ rest)
      (.dict d (some p.1) :: stack) (tcPairs ps' + fuel)]
    show decodeLoop (tcPairs ps' + fuel) ⟨[], encodePairs ps' ++ rest⟩
      (.dict (d ++ [(p.1, p.2)]) none :: stack) =
      decodeLoop fuel ⟨[], rest⟩ (.dict (d ++ (p :: ps')) none :: stack)
    rw [decodeLoop_encPairs ps' hps' rest stack (d ++ [(p.1, p.2)]) fuel,
      show (d ++ [(p.1, p.2)]) ++ ps' = d ++ (p :: ps') from by simp]

end

/-- Encodings are never empty. -/
theorem encodeValue_ne_nil (v : Value) : encodeValue v ≠ [] := by
  cases v with
  | int n => simp [encodeValue]
  | str s =>
    simp only [encodeValue, encStr]
    intro hc
    have := congrArg List.length hc
    simp at this
  | list l => simp [encodeValue]
  | dict d => simp [encodeValue]

mutual

/-- Token count is bounded by encoded length. -/
theorem tc_le_length (v : Value) : tc v ≤ (encodeValue v).length := by
  match v with
  | .int n => simp [tc, encodeValue]
  | .str s =>
    simp only [tc, encodeValue, encStr, List.length_append, List.length_cons]
    omega
  | .list l =>
    have := tcList_le_length l
    simp only [tc, encodeValue, List.length_cons, List.length_append,
      List.length_singleton]
    omega
  | .dict d =>
    have := tcPairs_le_length d
    simp only [tc, encodeValue, List.length_cons, List.length_append,
      List.length_singleton]
    omega

theorem tcList_le_length (l : List Value) :
    tcList l ≤ (encodeValues l).length := by
  match l with
  | [] => simp [tcList, encodeValues]
  | v :: vs =>
    have h1 := tc_le_length v
    have h2 := tcList_le_length vs
    simp only [tcList, encodeValues, List.length_append]
    omega

theorem tcPairs_le_length (ps : List (List Nat × Value)) :
    tcPairs ps ≤ (encodePairs ps).length := by
  match ps with
  | [] => simp [tcPairs, encodePairs]
  | p :: ps' =>
    have h1 := tc_le_length p.2
    have h2 := tcPairs_le_length ps'
    have h3 : 1 ≤ (encStr p.1).length := by
      simp only [encStr, List.length_append, List.length_cons]
      omega
    simp only [tcPairs, encodePairs, List.length_append]
    omega

end

/-- The decode loop on a fresh decoder over one encoded value completes with
that value as root and an empty buffer. -/
theorem decodeRoot_encode (v : Value) (hv : fits v = true) :
    decodeRoot (encodeValue v) = some (.ok (v, ⟨[], []⟩)) := by
  have hne : encodeValue v ≠ [] := encodeValue_ne_nil v
  have htc : tc v ≤ (encodeValue v).length := tc_le_length v
  have hnt : DecSt.next_token ⟨encodeValue v, []⟩ =
      .ok (none, ⟨encodeValue v, []⟩) := rfl
  unfold decodeRoot
  rw [show 2 * (encodeValue v).length + 3 =
    (2 * (encodeValue v).length + 2) + 1 from by omega, decodeLoop_succ, hnt]
  show (if (encodeValue v).length = 0 then some (.error .unexpectedEof)
      else decodeLoop (2 * (encodeValue v).length + 2) ⟨[], encodeValue v⟩ []) =
    some (.ok (v, ⟨[], []⟩))
  rw [if_neg (by simpa using hne)]
  have hloop := decodeLoop_enc v hv [] []
    (2 * (encodeValue v).length + 2 - tc v)
  rw [List.append_nil] at hloop
  rw [show 2 * (encodeValue v).length + 2 =
    tc v + (2 * (encodeValue v).length + 2 - tc v) from by omega, hloop]
  rfl

/-- Round-trip: decoding the canonical encoding of any in-bounds value
returns exactly that value. -/
theorem decode_encode (v : Value) (hv : fits v = true) :
    decode (encodeValue v) = .ok v := by
  unfold decode
  rw [decodeRoot_encode v hv]
  rfl

/-- C2 counterexample: `i-9223372036854775808e` is the valid bencode encoding
of the representable `i64` value `Int(-2^63)`, yet `decode` rejects it with
`ValueTooLarge` (its 20-character payload exceeds the tokenizer's 19-character
bound), so decode does not return `Ok(V)` on every valid encoding. -/
theorem C2_i64_min_counterexample :
    encodeValue (.int (-(2 ^ 63))) = bs "i-9223372036854775808e" ∧
    -(2 ^ 63 : Int) ≥ -(2 ^ 63) ∧
    decode (encodeValue (.int (-(2 ^ 63)))) = .error .valueTooLarge := by
  refine ⟨by decide, le_refl _, by decide⟩

/-- C2 (amended): for every value within the tokenizer's size bounds
(integer payloads of at most 19 characters, strings shorter than `10^7`
bytes), decoding the canonical encoding returns `Ok` of exactly that value;
in particular the four concrete scenarios hold. -/
theorem C2_decode_round_trip :
    (∀ v : Value, fits v = true → decode (encodeValue v) = .ok v) ∧
    decode (bs "i42e") = .ok (.int 42) ∧
    decode (bs "4:test") = .ok (.str (bs "test")) ∧
    decode (bs "li42e4:teste") = .ok (.list [.int 42, .str (bs "test")]) ∧
    decode (bs "d4:testi42ee") = .ok (.dict [(bs "test", .int 42)]) :=
  ⟨decode_encode, by decide, by decide, by decide, by decide⟩

/-- C2 (amended) witness: the round-trip applied at a concrete compound
value whose encoding is `li42e4:teste`. -/
theorem C2_decode_round_trip_witness :
    encodeValue (.list [.int 42, .str (bs "test")]) = bs "li42e4:teste" ∧
    decode (bs "li42e4:teste") = .ok (.list [.int 42, .str (bs "test")]) := by
  refine ⟨by decide, ?_⟩
  have h := C2_decode_round_trip.1 (.list [.int 42, .str (bs "test")]) (by decide)
  rwa [show encodeValue (.list [.int 42, .str (bs "test")]) =
    bs "li42e4:teste" from by decide] at h

/-! ## SHA-1 (`cryptos/hash.rs`)

`make_sha1` delegates to the `sha1` crate; the standard algorithm
(FIPS 180-1) is implemented here directly over byte lists. -/

/-- 32-bit left rotation. -/
def rotl (n x : Nat) : Nat := ((x <<< n) ||| (x >>> (32 - n))) % 2 ^ 32

/-- Big-endian bytes of a number, fixed width. -/
def toBytesBE : Nat → Nat → List Nat
  | 0, _ => []
  | k + 1, n => toBytesBE k (n / 256) ++ [n % 256]

/-- Merkle–Damgård padding: `0x80`, zeros to 56 mod 64, 8-byte bit length. -/
def sha1Pad (msg : List Nat) : List Nat :=
  let zeros := (56 + 64 - (msg.length + 1) % 64) % 64
  msg ++ 128 :: List.replicate zeros 0 ++ toBytesBE 8 (msg.length * 8)

/-- Pack bytes into big-endian 32-bit words. -/
def wordsOfBytes : List Nat → List Nat
  | b0 :: b1 :: b2 :: b3 :: rest =>
    (((b0 * 256 + b1) * 256 + b2) * 256 + b3) :: wordsOfBytes rest
  | _ => []

/-- Message-schedule extension: append one derived word per step. -/
def extendW (w : List Nat) : Nat → List Nat
  | 0 => w
  | k + 1 =>
    let w' := extendW w k
    w' ++ [rotl 1 ((w'.getD (w'.length - 3) 0) ^^^ (w'.getD (w'.length - 8) 0) ^^^
      (w'.getD (w'.length - 14) 0) ^^^ (w'.getD (w'.length - 16) 0))]

/-- SHA-1 round functions. -/
def sha1F (t b c d : Nat) : Nat :=
  if t < 20 then (b &&& c) ||| ((b ^^^ 0xFFFFFFFF) &&& d)
  else if t < 40 then b ^^^ c ^^^ d
  else if t < 60 then (b &&& c) ||| (b &&& d) ||| (c &&& d)
  else b ^^^ c ^^^ d

/-- SHA-1 round constants. -/
def sha1K (t : Nat) : Nat :=
  if t < 20 then 0x5A827999
  else if t < 40 then 0x6ED9EBA1
  else if t < 60 then 0x8F1BBCDC
  else 0xCA62C1D6

structure Sha1St where
  a : Nat
  b : Nat
  c : Nat
  d : Nat
  e : Nat

/-- One SHA-1 round. -/
def sha1Round (t wt : Nat) (st : Sha1St) : Sha1St :=
  ⟨(rotl 5 st.a + sha1F t st.b st.c st.d + st.e + sha1K t + wt) % 2 ^ 32,
    st.a, rotl 30 st.b, st.c, st.d⟩

/-- Process one 64-byte block. -/
def processBlock (h : Sha1St) (block : List Nat) : Sha1St :=
  let w := extendW (wordsOfBytes block) 64
  let f := (List.range 80).foldl (fun st t => sha1Round t (w.getD t 0) st) h
  ⟨(h.a + f.a) % 2 ^ 32, (h.b + f.b) % 2 ^ 32, (h.c + f.c) % 2 ^ 32,
    (h.d + f.d) % 2 ^ 32, (h.e + f.e) % 2 ^ 32⟩

/-- Fold over all 64-byte blocks (fuel-bounded, structurally recursive). -/
def sha1Blocks : Nat → Sha1St → List Nat → Sha1St
  | 0, st, _ => st
  | f + 1, st, bytes =>
    if bytes.isEmpty then st
    else sha1Blocks f (processBlock st (bytes.take 64)) (bytes.drop 64)

/-- SHA-1 digest bytes of a message. -/
def sha1Bytes (msg : List Nat) : List Nat :=
  let padded := sha1Pad msg
  let st := sha1Blocks padded.length
    ⟨0x67452301, 0xEFCDAB89, 0x98BADCFE, 0x10325476, 0xC3D2E1F0⟩ padded
  toBytesBE 4 st.a ++ toBytesBE 4 st.b ++ toBytesBE 4 st.c ++
    toBytesBE 4 st.d ++ toBytesBE 4 st.e

theorem toBytesBE_length (k n : Nat) : (toBytesBE k n).length = k := by
  induction k generalizing n with
  | zero => rfl
  | succ k ih => simp [toBytesBE, ih]

theorem sha1Bytes_length (msg : List Nat) : (sha1Bytes msg).length = 20 := by
  simp [sha1Bytes, toBytesBE_length]

/-- The 20-byte digest type, mirroring `[u8; 20]`. -/
def Sha20 : Type := { l : List Nat // l.length = 20 }

instance : DecidableEq Sha20 := fun a b =>
  decidable_of_iff (a.val = b.val) Subtype.ext_iff.symm

instance : Inhabited Sha20 := ⟨⟨List.replicate 20 0, by simp⟩⟩

/-- `cryptos::hash::make_sha1`. -/
def make_sha1 (msg : List Nat) : Sha20 := ⟨sha1Bytes msg, sha1Bytes_length msg⟩

/-! ## Whole-buffer positional tokenizer

Modelled from the spec: the positional tokenizer (`bencode::decoder::{Decoder,
Token, TokenKind, DecodeError}` as imported by `bencode/torrent.rs`) is not
present under the source snapshot — only its callers are. It is modelled from
specification §4.A: a view over a contiguous buffer with a cursor, dispatch on
the byte at the cursor, strict `-0`/leading-zero rules, 21-character payload
bound (`ValueTooLarge`), full-digit-run requirement, and positions carried on
the structural tokens (`BeginList`/`BeginDict`/`EndObject`), matching the
pattern matches in `torrent.rs`. -/

namespace WB

inductive Token where
  | int (n : Int)
  | string (s : List Nat)
  | beginList (pos : Nat)
  | beginDict (pos : Nat)
  | endObject (pos : Nat)
deriving DecidableEq

inductive TokenKind where
  | int
  | string
  | beginList
  | beginDict
  | endObject
deriving DecidableEq

def Token.kind : Token → TokenKind
  | .int _ => .int
  | .string _ => .string
  | .beginList _ => .beginList
  | .beginDict _ => .beginDict
  | .endObject _ => .endObject

inductive WErr where
  | unfinishedInt
  | unfinishedString (expected got : Nat)
  | missingColonInString
  | unknownToken (b : Nat)
  | posOutOfBounds
  | valueTooLarge
  | invalidSyntax
deriving DecidableEq

structure Decoder where
  src : List Nat
  pos : Nat
deriving DecidableEq

/-- Parse a signed decimal payload entirely (full digit run), checked against
the `i64` range. -/
def intFromPayload (payload : List Nat) : Option Int :=
  if payload.headD 0 = 45 then
    if payload.tail ≠ [] ∧ payload.tail.all isDigitB ∧
        -(digitsVal payload.tail : Int) ≥ -(2 ^ 63) then
      some (-(digitsVal payload.tail : Int))
    else none
  else
    if payload ≠ [] ∧ payload.all isDigitB ∧
        (digitsVal payload : Int) ≤ 2 ^ 63 - 1 then
      some (digitsVal payload : Int)
    else none

/-- Parse an unsigned decimal payload entirely. -/
def natFromPayload (payload : List Nat) : Option Nat :=
  if payload ≠ [] ∧ payload.all isDigitB then some (digitsVal payload) else none

/-- Modelled from the spec: `Decoder::next_token` of the whole-buffer
tokenizer (spec §4.A). Dispatch is on the byte at the cursor; integer and
string-length payloads obey the strict `-0`/leading-zero rules and the
21-character bound. -/
def next_token (d : Decoder) : Except WErr (Token × Decoder) :=
  if d.src.length ≤ d.pos then .error .posOutOfBounds
  else if (d.src.drop d.pos).headD 0 = 105 then
    match (d.src.drop d.pos).findIdx? (· == 101) with
    | none => .error .unfinishedInt
    | some j =>
      if (((d.src.drop d.pos).drop 1).take (j - 1)).headD 0 = 45 ∧
          (((d.src.drop d.pos).drop 1).take (j - 1)).getD 1 0 = 48 then
        .error .invalidSyntax
      else if (((d.src.drop d.pos).drop 1).take (j - 1)).headD 0 = 48 ∧
          ((d.src.drop d.pos).drop 1).take (j - 1) ≠ [48] then
        .error .invalidSyntax
      else if 21 < (((d.src.drop d.pos).drop 1).take (j - 1)).length then
        .error .valueTooLarge
      else
        match intFromPayload (((d.src.drop d.pos).drop 1).take (j - 1)) with
        | none => .error .invalidSyntax
        | some n => .ok (.int n, ⟨d.src, d.pos + j + 1⟩)
  else if 48 ≤ (d.src.drop d.pos).headD 0 ∧ (d.src.drop d.pos).headD 0 ≤ 57 then
    match (d.src.drop d.pos).findIdx? (· == 58) with
    | none => .error .missingColonInString
    | some c =>
      if ((d.src.drop d.pos).take c).headD 0 = 48 ∧
          (d.src.drop d.pos).take c ≠ [48] then
        .error .invalidSyntax
      else if 21 < ((d.src.drop d.pos).take c).length then
        .error .valueTooLarge
      else
        match natFromPayload ((d.src.drop d.pos).take c) with
        | none => .error .invalidSyntax
        | some len =>
          if d.src.length - (d.pos + c + 1) < len then
            .error (.unfinishedString len (d.src.length - (d.pos + c + 1)))
          else .ok (.string ((d.src.drop (d.pos + c + 1)).take len),
            ⟨d.src, d.pos + c + 1 + len⟩)
  else if (d.src.drop d.pos).headD 0 = 108 then
    .ok (.beginList d.pos, ⟨d.src, d.pos + 1⟩)
  else if (d.src.drop d.pos).headD 0 = 100 then
    .ok (.beginDict d.pos, ⟨d.src, d.pos + 1⟩)
  else if (d.src.drop d.pos).headD 0 = 101 then
    .ok (.endObject d.pos, ⟨d.src, d.pos + 1⟩)
  else .error (.unknownToken ((d.src.drop d.pos).headD 0))

end WB

/-! ## Torrent descriptor and metainfo builder (`bencode/torrent.rs`) -/

/-- RFC 3629 UTF-8 validity, as enforced by `String::from_utf8`. -/
def utf8Valid : List Nat → Bool
  | [] => true
  | b :: rest =>
    if b < 0x80 then utf8Valid rest
    else if 0xC2 ≤ b ∧ b ≤ 0xDF then
      match rest with
      | c1 :: r => (0x80 ≤ c1 && c1 ≤ 0xBF) && utf8Valid r
      | _ => false
    else if b = 0xE0 then
      match rest with
      | c1 :: c2 :: r =>
        (0xA0 ≤ c1 && c1 ≤ 0xBF) && (0x80 ≤ c2 && c2 ≤ 0xBF) && utf8Valid r
      | _ => false
    else if (0xE1 ≤ b ∧ b ≤ 0xEC) ∨ b = 0xEE ∨ b = 0xEF then
      match rest with
      | c1 :: c2 :: r =>
        (0x80 ≤ c1 && c1 ≤ 0xBF) && (0x80 ≤ c2 && c2 ≤ 0xBF) && utf8Valid r
      | _ => false
    else if b = 0xED then
      match rest with
      | c1 :: c2 :: r =>
        (0x80 ≤ c1 && c1 ≤ 0x9F) && (0x80 ≤ c2 && c2 ≤ 0xBF) && utf8Valid r
      | _ => false
    else if b = 0xF0 then
      match rest with
      | c1 :: c2 :: c3 :: r =>
        (0x90 ≤ c1 && c1 ≤ 0xBF) && (0x80 ≤ c2 && c2 ≤ 0xBF) &&
          (0x80 ≤ c3 && c3 ≤ 0xBF) && utf8Valid r
      | _ => false
    else if 0xF1 ≤ b ∧ b ≤ 0xF3 then
      match rest with
      | c1 :: c2 :: c3 :: r =>
        (0x80 ≤ c1 && c1 ≤ 0xBF) && (0x80 ≤ c2 && c2 ≤ 0xBF) &&
          (0x80 ≤ c3 && c3 ≤ 0xBF) && utf8Valid r
      | _ => false
    else if b = 0xF4 then
      match rest with
      | c1 :: c2 :: c3 :: r =>
        (0x80 ≤ c1 && c1 ≤ 0x8F) && (0x80 ≤ c2 && c2 ≤ 0xBF) &&
          (0x80 ≤ c3 && c3 ≤ 0xBF) && utf8Valid r
      | _ => false
    else false

/-- The `as u64` / `as usize` cast from `i64`. -/
def u64cast (n : Int) : Nat := (n % (2 ^ 64 : Int)).toNat

structure File where
  length : Nat
  path : List (List Nat)
deriving DecidableEq

instance : Inhabited File := ⟨⟨0, []⟩⟩

structure Info where
  info_hash : Sha20
  name : List Nat
  piece_length : Nat
  pieces : List Nat
  length : Option Nat
  files : Option (List File)
deriving DecidableEq

instance : Inhabited Info := ⟨⟨default, [], 0, [], none, none⟩⟩

structure Torrent where
  announce : List Nat
  info : Info
deriving DecidableEq

instance : Inhabited Torrent := ⟨⟨[], default⟩⟩

inductive TorrentKey where
  | announce
  | info
  | infoName
  | infoPieceLength
  | infoPieces
  | infoLength
  | infoFiles
  | filesLength
  | filesPath
deriving DecidableEq

inductive TorrentBuilderStateKind where
  | begin
  | metaInfo
  | info
  | files
  | singularFile
  | singularFilePath
  | finished
deriving DecidableEq

inductive TorrentFileError where
  | io
  | decode (e : WB.WErr)
  | expectedKey (state : TorrentBuilderStateKind) (got : WB.TokenKind)
  | missingRequiredKey (state : TorrentBuilderStateKind) (key : TorrentKey)
  | mutualExclusiveKeys
  | missingMetaInfoOpener
  | unexpectedTypeForKey (key : TorrentKey) (expected got : WB.TokenKind)
  | unexpectedObjectClosure
  | utf8
  | invalidPiecesLength (n : Nat)
deriving DecidableEq

/-- `Info::is_valid`. -/
def Info.is_valid (i : Info) : Except TorrentFileError Unit :=
  if i.name.isEmpty then
    .error (.missingRequiredKey .info .infoName)
  else if i.piece_length = 0 then
    .error (.missingRequiredKey .info .infoPieceLength)
  else if i.pieces.isEmpty then
    .error (.missingRequiredKey .info .infoPieces)
  else if ¬ (i.pieces.length % 20 = 0) then
    .error (.invalidPiecesLength i.pieces.length)
  else if i.length.isNone ∧ i.files.isNone then
    .error (.missingRequiredKey .info .infoFiles)
  else .ok ()

/-- `Torrent::is_valid`. -/
def Torrent.is_valid (t : Torrent) : Except TorrentFileError Unit :=
  if t.announce.isEmpty then
    .error (.missingRequiredKey .metaInfo .announce)
  else if t.info = default then
    .error (.missingRequiredKey .metaInfo .info)
  else .ok ()

/-- `Torrent::info_hash`: guarded by an `is_empty` check on the fixed-size
array. -/
def Torrent.info_hash (t : Torrent) : Option Sha20 :=
  if t.info.info_hash.val.isEmpty then none else some t.info.info_hash

/-- `expect_extract` for a `BeginDict` token, returning its position. -/
def expectBeginDictPos (dec : WB.Decoder) (key : TorrentKey) :
    Except TorrentFileError (Nat × WB.Decoder) :=
  match WB.next_token dec with
  | .error e => .error (.decode e)
  | .ok (.beginDict i, dec') => .ok (i, dec')
  | .ok (t, _) => .error (.unexpectedTypeForKey key .beginDict t.kind)

/-- `expect_extract` for a `String` token. -/
def expectString (dec : WB.Decoder) (key : TorrentKey) :
    Except TorrentFileError (List Nat × WB.Decoder) :=
  match WB.next_token dec with
  | .error e => .error (.decode e)
  | .ok (.string s, dec') => .ok (s, dec')
  | .ok (t, _) => .error (.unexpectedTypeForKey key .string t.kind)

/-- `expect_extract` for an `Int` token. -/
def expectInt (dec : WB.Decoder) (key : TorrentKey) :
    Except TorrentFileError (Int × WB.Decoder) :=
  match WB.next_token dec with
  | .error e => .error (.decode e)
  | .ok (.int n, dec') => .ok (n, dec')
  | .ok (t, _) => .error (.unexpectedTypeForKey key .int t.kind)

/-- `expect_token` for a `BeginList` token. -/
def expectBeginList (dec : WB.Decoder) (key : TorrentKey) :
    Except TorrentFileError WB.Decoder :=
  match WB.next_token dec with
  | .error e => .error (.decode e)
  | .ok (.beginList _, dec') => .ok dec'
  | .ok (t, _) => .error (.unexpectedTypeForKey key .beginList t.kind)

/-- `TorrentBuilder::skip_nested_value`: consume tokens until the depth
counter returns to zero. The fuel covers every reachable iteration; `none`
marks exhaustion, unreachable for the fuel `build` supplies. -/
def skip_nested_value : Nat → Nat → WB.Decoder →
    Option (Except TorrentFileError WB.Decoder)
  | _, 0, dec => some (.ok dec)
  | 0, _, _ => none
  | fuel + 1, counter + 1, dec =>
    match WB.next_token dec with
    | .error e => some (.error (.decode e))
    | .ok (.int _, dec') => skip_nested_value fuel (counter + 1) dec'
    | .ok (.string _, dec') => skip_nested_value fuel (counter + 1) dec'
    | .ok (.beginDict _, dec') => skip_nested_value fuel (counter + 2) dec'
    | .ok (.beginList _, dec') => skip_nested_value fuel (counter + 2) dec'
    | .ok (.endObject _, dec') => skip_nested_value fuel counter dec'

/-- `TorrentBuilder::skip_value`. -/
def skip_value (fuel : Nat) (dec : WB.Decoder) :
    Option (Except TorrentFileError WB.Decoder) :=
  match WB.next_token dec with
  | .error e => some (.error (.decode e))
  | .ok (.int _, dec') => some (.ok dec')
  | .ok (.string _, dec') => some (.ok dec')
  | .ok (.endObject _, _) => some (.error .unexpectedObjectClosure)
  | .ok (.beginDict _, dec') => skip_nested_value fuel 1 dec'
  | .ok (.beginList _, dec') => skip_nested_value fuel 1 dec'

/-- `TorrentBuilder::handle_announce`. -/
def handle_announce (dec : WB.Decoder) (t : Torrent) :
    Except TorrentFileError (Torrent × WB.Decoder) :=
  match expectString dec .announce with
  | .error e => .error e
  | .ok (s, dec') =>
    if utf8Valid s then .ok ({ t with announce := s }, dec')
    else .error .utf8

/-- `TorrentBuilder::handle_name`. -/
def handle_name (dec : WB.Decoder) (t : Torrent) :
    Except TorrentFileError (Torrent × WB.Decoder) :=
  match expectString dec .infoName with
  | .error e => .error e
  | .ok (s, dec') =>
    if utf8Valid s then .ok ({ t with info := { t.info with name := s } }, dec')
    else .error .utf8

/-- `TorrentBuilder::handle_piece_length` (the source reports errors for this
key under `TorrentKey::InfoLength`). -/
def handle_piece_length (dec : WB.Decoder) (t : Torrent) :
    Except TorrentFileError (Torrent × WB.Decoder) :=
  match expectInt dec .infoLength with
  | .error e => .error e
  | .ok (n, dec') =>
    .ok ({ t with info := { t.info with piece_length := u64cast n } }, dec')

/-- `TorrentBuilder::handle_pieces`. -/
def handle_pieces (dec : WB.Decoder) (t : Torrent) :
    Except TorrentFileError (Torrent × WB.Decoder) :=
  match expectString dec .infoPieces with
  | .error e => .error e
  | .ok (s, dec') => .ok ({ t with info := { t.info with pieces := s } }, dec')

/-- `TorrentBuilder::handle_length`. -/
def handle_length (dec : WB.Decoder) (t : Torrent) :
    Except TorrentFileError (Torrent × WB.Decoder) :=
  match expectInt dec .infoLength with
  | .error e => .error e
  | .ok (n, dec') =>
    .ok ({ t with info := { t.info with length := some (u64cast n) } }, dec')

/-- `last_mut` update of the open file's length (pushing a fresh default file
when the list is empty, as the source does). -/
def setLastFileLength : List File → Nat → List File
  | [], len => [⟨len, []⟩]
  | [f], len => [{ f with length := len }]
  | f :: fs, len => f :: setLastFileLength fs len

/-- `last_mut` push of a path segment onto the open file. -/
def pushLastFilePath : List File → List Nat → List File
  | [], p => [⟨0, [p]⟩]
  | [f], p => [{ f with path := f.path ++ [p] }]
  | f :: fs, p => f :: pushLastFilePath fs p

/-- `TorrentBuilder::handle_file_length`. The source `unwrap`s
`torrent.info.files`, which is always `Some` in this state; the model reads
it with an empty-list default. -/
def handle_file_length (dec : WB.Decoder) (t : Torrent) :
    Except TorrentFileError (Torrent × WB.Decoder) :=
  match expectInt dec .filesLength with
  | .error e => .error e
  | .ok (n, dec') =>
    .ok ({ t with info := { t.info with
      files := some (setLastFileLength (t.info.files.getD []) (u64cast n)) } },
      dec')

/-- `TorrentBuilder::handle_file_path`. -/
def handle_file_path (path : List Nat) (t : Torrent) :
    Except TorrentFileError Torrent :=
  if utf8Valid path then
    .ok { t with info := { t.info with
      files := some (pushLastFilePath (t.info.files.getD []) path) } }
  else .error .utf8

/-- `TorrentBuilder::get_info_slice`: `&src[info_begin ..= end_pos]`. -/
def get_info_slice (src : List Nat) (info_begin end_pos : Nat) : List Nat :=
  (src.drop info_begin).take (end_pos + 1 - info_begin)

/-- `TorrentBuilder::handle_meta_keys`. Returns the next state, the (possibly
updated) `info_begin`, the torrent and the decoder. -/
def handle_meta_keys (key : List Nat) (dec : WB.Decoder) (t : Torrent)
    (ib : Nat) (skipFuel : Nat) :
    Option (Except TorrentFileError
      (TorrentBuilderStateKind × Nat × Torrent × WB.Decoder)) :=
  if key = bs "announce" then
    match handle_announce dec t with
    | .error e => some (.error e)
    | .ok (t', dec') => some (.ok (.metaInfo, ib, t', dec'))
  else if key = bs "info" then
    match expectBeginDictPos dec .info with
    | .error e => some (.error e)
    | .ok (i, dec') => some (.ok (.info, i, t, dec'))
  else
    match skip_value skipFuel dec with
    | none => none
    | some (.error e) => some (.error e)
    | some (.ok dec') => some (.ok (.metaInfo, ib, t, dec'))

/-- `TorrentBuilder::handle_info_keys`. -/
def handle_info_keys (key : List Nat) (dec : WB.Decoder) (t : Torrent)
    (skipFuel : Nat) :
    Option (Except TorrentFileError
      (TorrentBuilderStateKind × Torrent × WB.Decoder)) :=
  if key = bs "name" then
    match handle_name dec t with
    | .error e => some (.error e)
    | .ok (t', dec') => some (.ok (.info, t', dec'))
  else if key = bs "piece length" then
    match handle_piece_length dec t with
    | .error e => some (.error e)
    | .ok (t', dec') => some (.ok (.info, t', dec'))
  else if key = bs "pieces" then
    match handle_pieces dec t with
    | .error e => some (.error e)
    | .ok (t', dec') => some (.ok (.info, t', dec'))
  else if key = bs "length" then
    if t.info.files.isSome then some (.error .mutualExclusiveKeys)
    else
      match handle_length dec t with
      | .error e => some (.error e)
      | .ok (t', dec') => some (.ok (.info, t', dec'))
  else if key = bs "files" then
    if t.info.length.isSome then some (.error .mutualExclusiveKeys)
    else
      match expectBeginList dec .infoFiles with
      | .error e => some (.error e)
      | .ok dec' => some (.ok (.files, t, dec'))
  else
    match skip_value skipFuel dec with
    | none => none
    | some (.error e) => some (.error e)
    | some (.ok dec') => some (.ok (.info, t, dec'))

/-- `TorrentBuilder::handle_file_keys`. -/
def handle_file_keys (key : List Nat) (dec : WB.Decoder) (t : Torrent)
    (skipFuel : Nat) :
    Option (Except TorrentFileError
      (TorrentBuilderStateKind × Torrent × WB.Decoder)) :=
  if key = bs "length" then
    match handle_file_length dec t with
    | .error e => some (.error e)
    | .ok (t', dec') => some (.ok (.singularFile, t', dec'))
  else if key = bs "path" then
    match expectBeginList dec .filesPath with
    | .error e => some (.error e)
    | .ok dec' => some (.ok (.singularFilePath, t, dec'))
  else
    match skip_value skipFuel dec with
    | none => none
    | some (.error e) => some (.error e)
    | some (.ok dec') => some (.ok (.singularFile, t, dec'))

/-- Recording the infohash at the close of the info dictionary. -/
def withHash (t : Torrent) (src : List Nat) (ib pos : Nat) : Torrent :=
  { t with info := { t.info with
      info_hash := make_sha1 (get_info_slice src ib pos) } }

/-- The `Files` state first materializes `files` as `Some(Vec::new())`. -/
def filesInit (t : Torrent) : Torrent :=
  if t.info.files.isNone then
    { t with info := { t.info with files := some [] } }
  else t

/-- The loop of `TorrentBuilder::build`, with explicit fuel (`none` marks
exhaustion, unreachable for the fuel `build` supplies: every iteration other
than the final `Finished` one consumes at least one token, advancing the
cursor). `skip_value` is given the same generous fuel. -/
def buildLoop : Nat → TorrentBuilderStateKind → Nat → Torrent → WB.Decoder →
    Option (Except TorrentFileError Torrent)
  | 0, _, _, _, _ => none
  | fuel + 1, st, ib, t, dec =>
    match st with
    | .begin =>
      match WB.next_token dec with
      | .error e => some (.error (.decode e))
      | .ok (.beginDict _, dec') => buildLoop fuel .metaInfo ib t dec'
      | .ok (_, _) => some (.error .missingMetaInfoOpener)
    | .metaInfo =>
      match WB.next_token dec with
      | .error e => some (.error (.decode e))
      | .ok (.string key, dec') =>
        match handle_meta_keys key dec' t ib (dec.src.length + 1) with
        | none => none
        | some (.error e) => some (.error e)
        | some (.ok (st', ib', t', dec'')) => buildLoop fuel st' ib' t' dec''
      | .ok (.endObject _, dec') => buildLoop fuel .finished ib t dec'
      | .ok (tok, _) => some (.error (.expectedKey .metaInfo tok.kind))
    | .info =>
      match WB.next_token dec with
      | .error e => some (.error (.decode e))
      | .ok (.string key, dec') =>
        match handle_info_keys key dec' t (dec.src.length + 1) with
        | none => none
        | some (.error e) => some (.error e)
        | some (.ok (st', t', dec'')) => buildLoop fuel st' ib t' dec''
      | .ok (.endObject pos, dec') =>
        match (withHash t dec.src ib pos).info.is_valid with
        | .error e => some (.error e)
        | .ok _ => buildLoop fuel .metaInfo ib (withHash t dec.src ib pos) dec'
      | .ok (tok, _) => some (.error (.expectedKey .info tok.kind))
    | .files =>
      match WB.next_token dec with
      | .error e => some (.error (.decode e))
      | .ok (.beginDict _, dec') =>
        buildLoop fuel .singularFile ib (filesInit t) dec'
      | .ok (.endObject _, dec') => buildLoop fuel .info ib (filesInit t) dec'
      | .ok (tok, _) => some (.error (.expectedKey .files tok.kind))
    | .singularFile =>
      match WB.next_token dec with
      | .error e => some (.error (.decode e))
      | .ok (.string key, dec') =>
        match handle_file_keys key dec' t (dec.src.length + 1) with
        | none => none
        | some (.error e) => some (.error e)
        | some (.ok (st', t', dec'')) => buildLoop fuel st' ib t' dec''
      | .ok (.endObject _, dec') => buildLoop fuel .files ib t dec'
      | .ok (tok, _) => some (.error (.expectedKey .singularFile tok.kind))
    | .singularFilePath =>
      match WB.next_token dec with
      | .error e => some (.error (.decode e))
      | .ok (.string path, dec') =>
        match handle_file_path path t with
        | .error e => some (.error e)
        | .ok t' => buildLoop fuel .singularFilePath ib t' dec'
      | .ok (.endObject _, dec') => buildLoop fuel .singularFile ib t dec'
      | .ok (tok, _) =>
        some (.error (.unexpectedTypeForKey .filesPath .string tok.kind))
    | .finished =>
      match t.is_valid with
      | .error e => some (.error e)
      | .ok _ => some (.ok t)

/-- `TorrentBuilder::build` over a byte slice. Fuel exhaustion is unreachable
for this fuel and is mapped to an arbitrary error. -/
def TorrentBuilder.build (src : List Nat) : Except TorrentFileError Torrent :=
  match buildLoop (src.length + 2) .begin 0 default ⟨src, 0⟩ with
  | some r => r
  | none => .error .io

/-- `Torrent::from_bytes`. -/
def Torrent.from_bytes (src : List Nat) : Except TorrentFileError Torrent :=
  TorrentBuilder.build src

/-- C10: `Torrent::info_hash` never returns `None`: the guarding `is_empty`
check on the fixed 20-byte array is always false, also on a default torrent
whose hash field is all zero bytes. -/
theorem C10_info_hash_never_none :
    (∀ t : Torrent, Torrent.info_hash t = some t.info.info_hash) ∧
    Torrent.info_hash (default : Torrent) =
      some ⟨List.replicate 20 0, by simp⟩ := by
  have key : ∀ t : Torrent, Torrent.info_hash t = some t.info.info_hash := by
    intro t
    unfold Torrent.info_hash
    rw [if_neg]
    have h20 := t.info.info_hash.property
    simp only [List.isEmpty_iff]
    intro hc
    rw [hc] at h20
    simp at h20
  exact ⟨key, key default⟩

/-! ## Tracker worker (`sessions/worker.rs`) -/

/-- One byte of `form_urlencoded::byte_serialize`: alphanumerics and
`*-._` pass through, space becomes `+`, everything else is `%XX` with
uppercase hex. -/
def hexDigitU (n : Nat) : Nat := if n < 10 then 48 + n else 55 + n

def escapeByte (b : Nat) : List Nat :=
  if (48 ≤ b ∧ b ≤ 57) ∨ (65 ≤ b ∧ b ≤ 90) ∨ (97 ≤ b ∧ b ≤ 122) ∨
      b = 42 ∨ b = 45 ∨ b = 46 ∨ b = 95 then [b]
  else if b = 32 then [43]
  else [37, hexDigitU (b / 16), hexDigitU (b % 16)]

/-- `worker::escape_hash`. -/
def escape_hash (h : Sha20) : List Nat := (h.val.map escapeByte).flatten

inductive WorkerState where
  | running
  | paused
  | aborted
deriving DecidableEq

inductive TrackerState where
  | started
  | completed
  | stopped
  | empty
deriving DecidableEq

structure Worker where
  base_url : List Nat
  uploaded : Nat
  downloaded : Nat
  left : Nat
  worker_state : WorkerState
  tracker_state : TrackerState
deriving DecidableEq

/-- `Worker::new`: the stable base URL and initial counters/states. -/
def Worker.new (announce : List Nat) (info_hash peer_id : Sha20) (port : Nat)
    (total_length : Nat) : Worker :=
  { base_url := announce ++ bs "?info_hash=" ++ escape_hash info_hash ++
      bs "&peer_id=" ++ escape_hash peer_id ++ bs "&port=" ++ natDecimal port,
    uploaded := 0, downloaded := 0, left := total_length,
    worker_state := .running, tracker_state := .started }

/-- `Worker::build_url`. -/
def Worker.build_url (w : Worker) : List Nat :=
  w.base_url ++ 38 :: (bs "uploaded=" ++ natDecimal w.uploaded ++
    bs "&downloaded=" ++ natDecimal w.downloaded ++ bs "&left=" ++
    natDecimal w.left)

/-- `Worker::tick`: one announce issues a GET of `build_url`; the worker
state (counters and tracker state included) is left untouched. -/
def Worker.tick (w : Worker) : List Nat × Worker := (w.build_url, w)

/-- `Worker::handle_cmd`. -/
def Worker.handle_cmd (w : Worker) (pause resume abort : Bool) : Worker :=
  if pause then { w with worker_state := .paused }
  else if resume then { w with worker_state := .running }
  else if abort then { w with worker_state := .aborted }
  else w

/-- Naive substring search over byte lists. -/
def containsSub (needle : List Nat) : List Nat → Bool
  | [] => needle.isEmpty
  | x :: t => needle.isPrefixOf (x :: t) || containsSub needle t

/-- C9: the worker builds the claimed base URL and per-tick counter query,
but the `&event=...` parameter is never appended: a fresh worker's first tick
— where the claim requires `&event=started` — issues a GET whose URL contains
no `&event=` at all, and no tracker-state transition ever occurs (`tick`
leaves the worker, its `tracker_state` included, unchanged; the state is set
to `Started` at construction and never read). -/
theorem C9_no_event_parameter :
    (∀ announce ih pid port tl, (Worker.new announce ih pid port tl).base_url =
      announce ++ bs "?info_hash=" ++ escape_hash ih ++ bs "&peer_id=" ++
      escape_hash pid ++ bs "&port=" ++ natDecimal port) ∧
    (∀ w : Worker, Worker.build_url w =
      w.base_url ++ 38 :: (bs "uploaded=" ++ natDecimal w.uploaded ++
        bs "&downloaded=" ++ natDecimal w.downloaded ++ bs "&left=" ++
        natDecimal w.left)) ∧
    (∀ w : Worker, (Worker.tick w).1 = w.build_url ∧ (Worker.tick w).2 = w) ∧
    (∀ announce ih pid port tl,
      (Worker.new announce ih pid port tl).tracker_state = .started) ∧
    containsSub (bs "&event=")
      (Worker.tick (Worker.new (bs "http://t") default default 80 5)).1 = false ∧
    (Worker.tick (Worker.new (bs "http://t") default default 80 5)).2 =
      Worker.new (bs "http://t") default default 80 5 := by
  refine ⟨fun _ _ _ _ _ => rfl, fun _ => rfl, fun _ => ⟨rfl, rfl⟩,
    fun _ _ _ _ _ => rfl, by decide, by decide⟩

/-! ## Tokenizer and builder facts for the metainfo invariants -/

theorem getD_eq_drop_headD (l : List Nat) (n : Nat) :
    l.getD n 0 = (l.drop n).headD 0 := by
  induction l generalizing n with
  | nil => simp
  | cons x t ih =>
    cases n with
    | zero => simp
    | succ m => simpa using ih m


/-- Facts every successful `next_token` provides: the source is untouched,
the cursor strictly advances within bounds, and the positions carried by
`BeginDict`/`EndObject` point at the `d`/`e` byte that produced them. -/
theorem wb_next_token_facts {d : WB.Decoder} {tok : WB.Token} {d' : WB.Decoder}
    (h : WB.next_token d = .ok (tok, d')) :
    d'.src = d.src ∧ d.pos < d'.pos ∧ d'.pos ≤ d.src.length ∧
    (∀ p, tok = .beginDict p → p = d.pos ∧ p < d.src.length ∧
      d.src.getD p 0 = 100) ∧
    (∀ p, tok = .endObject p → p = d.pos ∧ p < d.src.length ∧
      d.src.getD p 0 = 101) := by
  unfold WB.next_token at h
  by_cases hb : d.src.length ≤ d.pos
  · rw [if_pos hb] at h
    cases h
  rw [if_neg hb] at h
  have hpos : d.pos < d.src.length := by omega
  have hbyte : d.src.getD d.pos 0 = (d.src.drop d.pos).headD 0 :=
    getD_eq_drop_headD _ _
  by_cases h105 : (d.src.drop d.pos).headD 0 = 105
  · rw [if_pos h105] at h
    split at h
    · cases h
    · rename_i j hfind
      have hjlt : j < d.src.length - d.pos := by
        have := (List.findIdx?_eq_some_iff_getElem.mp hfind).1
        simpa using this
      split at h
      · cases h
      split at h
      · cases h
      split at h
      · cases h
      split at h
      · cases h
      rw [Except.ok.injEq, Prod.mk.injEq] at h
      obtain ⟨htok, hdec⟩ := h
      subst htok
      subst hdec
      refine ⟨rfl, ?_, ?_, ?_, ?_⟩
      · show d.pos < d.pos + j + 1
        omega
      · show d.pos + j + 1 ≤ d.src.length
        omega
      · intro p hp
        cases hp
      · intro p hp
        cases hp
  rw [if_neg h105] at h
  by_cases hdig : 48 ≤ (d.src.drop d.pos).headD 0 ∧ (d.src.drop d.pos).headD 0 ≤ 57
  · rw [if_pos hdig] at h
    split at h
    · cases h
    · rename_i c hfind
      have hclt : c < d.src.length - d.pos := by
        have := (List.findIdx?_eq_some_iff_getElem.mp hfind).1
        simpa using this
      split at h
      · cases h
      split at h
      · cases h
      split at h
      · cases h
      split at h
      · cases h
      rename_i hlen
      rw [Except.ok.injEq, Prod.mk.injEq] at h
      obtain ⟨htok, hdec⟩ := h
      subst htok
      subst hdec
      refine ⟨rfl, ?_, ?_, ?_, ?_⟩
      · show d.pos < d.pos + c + 1 + _
        omega
      · show d.pos + c + 1 + _ ≤ d.src.length
        omega
      · intro p hp
        cases hp
      · intro p hp
        cases hp
  rw [if_neg hdig] at h
  by_cases h108 : (d.src.drop d.pos).headD 0 = 108
  · rw [if_pos h108] at h
    rw [Except.ok.injEq, Prod.mk.injEq] at h
    obtain ⟨htok, hdec⟩ := h
    subst htok
    subst hdec
    refine ⟨rfl, ?_, ?_, ?_, ?_⟩
    · show d.pos < d.pos + 1
      omega
    · show d.pos + 1 ≤ d.src.length
      omega
    · intro p hp
      cases hp
    · intro p hp
      cases hp
  rw [if_neg h108] at h
  by_cases h100 : (d.src.drop d.pos).headD 0 = 100
  · rw [if_pos h100] at h
    rw [Except.ok.injEq, Prod.mk.injEq] at h
    obtain ⟨htok, hdec⟩ := h
    subst htok
    subst hdec
    refine ⟨rfl, ?_, ?_, ?_, ?_⟩
    · show d.pos < d.pos + 1
      omega
    · show d.pos + 1 ≤ d.src.length
      omega
    · intro p hp
      rw [WB.Token.beginDict.injEq] at hp
      subst hp
      rw [hbyte]
      exact ⟨rfl, hpos, h100⟩
    · intro p hp
      cases hp
  rw [if_neg h100] at h
  by_cases h101 : (d.src.drop d.pos).headD 0 = 101
  · rw [if_pos h101] at h
    rw [Except.ok.injEq, Prod.mk.injEq] at h
    obtain ⟨htok, hdec⟩ := h
    subst htok
    subst hdec
    refine ⟨rfl, ?_, ?_, ?_, ?_⟩
    · show d.pos < d.pos + 1
      omega
    · show d.pos + 1 ≤ d.src.length
      omega
    · intro p hp
      cases hp
    · intro p hp
      rw [WB.Token.endObject.injEq] at hp
      subst hp
      rw [hbyte]
      exact ⟨rfl, hpos, h101⟩
  rw [if_neg h101] at h
  cases h

/-! ## Build-loop step equations and handler facts -/

/-- One unfolding of the build loop in the `Begin` state. -/
theorem buildLoop_begin (fuel ib : Nat) (t : Torrent) (dec : WB.Decoder) :
    buildLoop (fuel + 1) .begin ib t dec =
      match WB.next_token dec with
      | .error e => some (.error (.decode e))
      | .ok (.beginDict _, dec') => buildLoop fuel .metaInfo ib t dec'
      | .ok (_, _) => some (.error .missingMetaInfoOpener) := rfl

/-- One unfolding of the build loop in the `MetaInfo` state. -/
theorem buildLoop_metaInfo (fuel ib : Nat) (t : Torrent) (dec : WB.Decoder) :
    buildLoop (fuel + 1) .metaInfo ib t dec =
      match WB.next_token dec with
      | .error e => some (.error (.decode e))
      | .ok (.string key, dec') =>
        match handle_meta_keys key dec' t ib (dec.src.length + 1) with
        | none => none
        | some (.error e) => some (.error e)
        | some (.ok (st', ib', t', dec'')) => buildLoop fuel st' ib' t' dec''
      | .ok (.endObject _, dec') => buildLoop fuel .finished ib t dec'
      | .ok (tok, _) => some (.error (.expectedKey .metaInfo tok.kind)) := rfl

/-- One unfolding of the build loop in the `Info` state. -/
theorem buildLoop_info (fuel ib : Nat) (t : Torrent) (dec : WB.Decoder) :
    buildLoop (fuel + 1) .info ib t dec =
      match WB.next_token dec with
      | .error e => some (.error (.decode e))
      | .ok (.string key, dec') =>
        match handle_info_keys key dec' t (dec.src.length + 1) with
        | none => none
        | some (.error e) => some (.error e)
        | some (.ok (st', t', dec'')) => buildLoop fuel st' ib t' dec''
      | .ok (.endObject pos, dec') =>
        match (withHash t dec.src ib pos).info.is_valid with
        | .error e => some (.error e)
        | .ok _ => buildLoop fuel .metaInfo ib (withHash t dec.src ib pos) dec'
      | .ok (tok, _) => some (.error (.expectedKey .info tok.kind)) := rfl

/-- One unfolding of the build loop in the `Files` state. -/
theorem buildLoop_files (fuel ib : Nat) (t : Torrent) (dec : WB.Decoder) :
    buildLoop (fuel + 1) .files ib t dec =
      match WB.next_token dec with
      | .error e => some (.error (.decode e))
      | .ok (.beginDict _, dec') =>
        buildLoop fuel .singularFile ib (filesInit t) dec'
      | .ok (.endObject _, dec') => buildLoop fuel .info ib (filesInit t) dec'
      | .ok (tok, _) => some (.error (.expectedKey .files tok.kind)) := rfl

/-- One unfolding of the build loop in the `SingularFile` state. -/
theorem buildLoop_singularFile (fuel ib : Nat) (t : Torrent) (dec : WB.Decoder) :
    buildLoop (fuel + 1) .singularFile ib t dec =
      match WB.next_token dec with
      | .error e => some (.error (.decode e))
      | .ok (.string key, dec') =>
        match handle_file_keys key dec' t (dec.src.length + 1) with
        | none => none
        | some (.error e) => some (.error e)
        | some (.ok (st', t', dec'')) => buildLoop fuel st' ib t' dec''
      | .ok (.endObject _, dec') => buildLoop fuel .files ib t dec'
      | .ok (tok, _) => some (.error (.expectedKey .singularFile tok.kind)) := rfl

/-- One unfolding of the build loop in the `SingularFilePath` state. -/
theorem buildLoop_singularFilePath (fuel ib : Nat) (t : Torrent)
    (dec : WB.Decoder) :
    buildLoop (fuel + 1) .singularFilePath ib t dec =
      match WB.next_token dec with
      | .error e => some (.error (.decode e))
      | .ok (.string path, dec') =>
        match handle_file_path path t with
        | .error e => some (.error e)
        | .ok t' => buildLoop fuel .singularFilePath ib t' dec'
      | .ok (.endObject _, dec') => buildLoop fuel .singularFile ib t dec'
      | .ok (tok, _) =>
        some (.error (.unexpectedTypeForKey .filesPath .string tok.kind)) := rfl

/-- One unfolding of the build loop in the `Finished` state. -/
theorem buildLoop_finished (fuel ib : Nat) (t : Torrent) (dec : WB.Decoder) :
    buildLoop (fuel + 1) .finished ib t dec =
      match t.is_valid with
      | .error e => some (.error e)
      | .ok _ => some (.ok t) := rfl

/-- Facts every successful string `expect_extract` provides. -/
theorem expectString_facts {dec : WB.Decoder} {k : TorrentKey} {s : List Nat}
    {dec' : WB.Decoder} (h : expectString dec k = .ok (s, dec')) :
    dec'.src = dec.src ∧ dec.pos < dec'.pos ∧ dec'.pos ≤ dec.src.length := by
  unfold expectString at h
  split at h <;> try cases h
  rename_i heq
  have hf := wb_next_token_facts heq
  exact ⟨hf.1, hf.2.1, hf.2.2.1⟩

/-- Facts every successful integer `expect_extract` provides. -/
theorem expectInt_facts {dec : WB.Decoder} {k : TorrentKey} {n : Int}
    {dec' : WB.Decoder} (h : expectInt dec k = .ok (n, dec')) :
    dec'.src = dec.src ∧ dec.pos < dec'.pos ∧ dec'.pos ≤ dec.src.length := by
  unfold expectInt at h
  split at h <;> try cases h
  rename_i heq
  have hf := wb_next_token_facts heq
  exact ⟨hf.1, hf.2.1, hf.2.2.1⟩

/-- Facts every successful `expect_token` of a list opener provides. -/
theorem expectBeginList_facts {dec : WB.Decoder} {k : TorrentKey}
    {dec' : WB.Decoder} (h : expectBeginList dec k = .ok dec') :
    dec'.src = dec.src ∧ dec.pos < dec'.pos ∧ dec'.pos ≤ dec.src.length := by
  unfold expectBeginList at h
  split at h <;> try cases h
  rename_i heq
  have hf := wb_next_token_facts heq
  exact ⟨hf.1, hf.2.1, hf.2.2.1⟩

/-- Facts every successful dict-opener `expect_extract` provides: the carried
position is the cursor at the `d` byte. -/
theorem expectBeginDictPos_facts {dec : WB.Decoder} {k : TorrentKey} {i : Nat}
    {dec' : WB.Decoder} (h : expectBeginDictPos dec k = .ok (i, dec')) :
    dec'.src = dec.src ∧ dec.pos < dec'.pos ∧ dec'.pos ≤ dec.src.length ∧
    i = dec.pos ∧ i < dec.src.length ∧ dec.src.getD i 0 = 100 := by
  unfold expectBeginDictPos at h
  split at h <;> try cases h
  rename_i heq
  have hf := wb_next_token_facts heq
  have hd := hf.2.2.2.1 i rfl
  exact ⟨hf.1, hf.2.1, hf.2.2.1, hd.1, hd.2.1, hd.2.2⟩

/-- Exhausted nesting counter: the skip loop stops at once. -/
theorem skip_nested_done (fuel : Nat) (dec : WB.Decoder) :
    skip_nested_value fuel 0 dec = some (.ok dec) := by
  cases fuel <;> rfl

/-- One unfolding of the nested skip loop. -/
theorem skip_nested_step (fuel c : Nat) (dec : WB.Decoder) :
    skip_nested_value (fuel + 1) (c + 1) dec =
      (match WB.next_token dec with
       | .error e => some (.error (.decode e))
       | .ok (.int _, dec') => skip_nested_value fuel (c + 1) dec'
       | .ok (.string _, dec') => skip_nested_value fuel (c + 1) dec'
       | .ok (.beginDict _, dec') => skip_nested_value fuel (c + 2) dec'
       | .ok (.beginList _, dec') => skip_nested_value fuel (c + 2) dec'
       | .ok (.endObject _, dec') => skip_nested_value fuel c dec') := rfl

/-- `skip_nested_value` keeps the source and never moves the cursor backwards
or beyond the end. -/
theorem skip_nested_value_facts : ∀ (fuel counter : Nat) (dec dec' : WB.Decoder),
    dec.pos ≤ dec.src.length →
    skip_nested_value fuel counter dec = some (.ok dec') →
    dec'.src = dec.src ∧ dec.pos ≤ dec'.pos ∧ dec'.pos ≤ dec.src.length := by
  intro fuel
  induction fuel with
  | zero =>
    intro counter dec dec' hp h
    cases counter with
    | zero =>
      rw [skip_nested_done] at h
      rw [Option.some.injEq, Except.ok.injEq] at h
      subst h
      exact ⟨rfl, le_refl _, hp⟩
    | succ c =>
      rw [show skip_nested_value 0 (c + 1) dec = none from rfl] at h
      cases h
  | succ fuel ih =>
    intro counter dec dec' hp h
    cases counter with
    | zero =>
      rw [skip_nested_done] at h
      rw [Option.some.injEq, Except.ok.injEq] at h
      subst h
      exact ⟨rfl, le_refl _, hp⟩
    | succ c =>
      rw [skip_nested_step] at h
      split at h <;> try cases h
      all_goals (
        rename_i heq
        have hf := wb_next_token_facts heq
        have hrec := ih _ _ _ (by rw [hf.1]; exact hf.2.2.1) h
        rw [hf.1] at hrec
        exact ⟨hrec.1, le_trans (le_of_lt hf.2.1) hrec.2.1, hrec.2.2⟩)

/-- `skip_value` keeps the source and strictly advances the cursor within
bounds. -/
theorem skip_value_facts {fuel : Nat} {dec dec' : WB.Decoder}
    (h : skip_value fuel dec = some (.ok dec')) :
    dec'.src = dec.src ∧ dec.pos < dec'.pos ∧ dec'.pos ≤ dec.src.length := by
  unfold skip_value at h
  split at h <;> try cases h
  · rename_i heq
    have hf := wb_next_token_facts heq
    exact ⟨hf.1, hf.2.1, hf.2.2.1⟩
  · rename_i heq
    have hf := wb_next_token_facts heq
    exact ⟨hf.1, hf.2.1, hf.2.2.1⟩
  · rename_i heq
    have hf := wb_next_token_facts heq
    have hrec := skip_nested_value_facts _ _ _ _ (by rw [hf.1]; exact hf.2.2.1) h
    rw [hf.1] at hrec
    exact ⟨hrec.1, lt_of_lt_of_le hf.2.1 hrec.2.1, hrec.2.2⟩
  · rename_i heq
    have hf := wb_next_token_facts heq
    have hrec := skip_nested_value_facts _ _ _ _ (by rw [hf.1]; exact hf.2.2.1) h
    rw [hf.1] at hrec
    exact ⟨hrec.1, lt_of_lt_of_le hf.2.1 hrec.2.1, hrec.2.2⟩

/-- `handle_announce` touches only the announce field and advances the
decoder. -/
theorem handle_announce_facts {dec : WB.Decoder} {t t' : Torrent}
    {dec' : WB.Decoder} (h : handle_announce dec t = .ok (t', dec')) :
    t'.info = t.info ∧ dec'.src = dec.src ∧ dec.pos ≤ dec'.pos ∧
    dec'.pos ≤ dec.src.length := by
  unfold handle_announce at h
  split at h <;> try cases h
  rename_i heq
  split at h <;> try cases h
  have hf := expectString_facts heq
  exact ⟨rfl, hf.1, le_of_lt hf.2.1, hf.2.2⟩

/-- `handle_name` keeps the length/files fields and advances the decoder. -/
theorem handle_name_facts {dec : WB.Decoder} {t t' : Torrent}
    {dec' : WB.Decoder} (h : handle_name dec t = .ok (t', dec')) :
    t'.info.length = t.info.length ∧ t'.info.files = t.info.files ∧
    dec'.src = dec.src ∧ dec.pos ≤ dec'.pos ∧ dec'.pos ≤ dec.src.length := by
  unfold handle_name at h
  split at h <;> try cases h
  rename_i heq
  split at h <;> try cases h
  have hf := expectString_facts heq
  exact ⟨rfl, rfl, hf.1, le_of_lt hf.2.1, hf.2.2⟩

/-- `handle_piece_length` keeps the length/files fields and advances the
decoder. -/
theorem handle_piece_length_facts {dec : WB.Decoder} {t t' : Torrent}
    {dec' : WB.Decoder} (h : handle_piece_length dec t = .ok (t', dec')) :
    t'.info.length = t.info.length ∧ t'.info.files = t.info.files ∧
    dec'.src = dec.src ∧ dec.pos ≤ dec'.pos ∧ dec'.pos ≤ dec.src.length := by
  unfold handle_piece_length at h
  split at h <;> try cases h
  rename_i heq
  have hf := expectInt_facts heq
  exact ⟨rfl, rfl, hf.1, le_of_lt hf.2.1, hf.2.2⟩

/-- `handle_pieces` keeps the length/files fields and advances the decoder. -/
theorem handle_pieces_facts {dec : WB.Decoder} {t t' : Torrent}
    {dec' : WB.Decoder} (h : handle_pieces dec t = .ok (t', dec')) :
    t'.info.length = t.info.length ∧ t'.info.files = t.info.files ∧
    dec'.src = dec.src ∧ dec.pos ≤ dec'.pos ∧ dec'.pos ≤ dec.src.length := by
  unfold handle_pieces at h
  split at h <;> try cases h
  rename_i heq
  have hf := expectString_facts heq
  exact ⟨rfl, rfl, hf.1, le_of_lt hf.2.1, hf.2.2⟩

/-- `handle_length` keeps the files field and advances the decoder. -/
theorem handle_length_facts {dec : WB.Decoder} {t t' : Torrent}
    {dec' : WB.Decoder} (h : handle_length dec t = .ok (t', dec')) :
    t'.info.files = t.info.files ∧
    dec'.src = dec.src ∧ dec.pos ≤ dec'.pos ∧ dec'.pos ≤ dec.src.length := by
  unfold handle_length at h
  split at h <;> try cases h
  rename_i heq
  have hf := expectInt_facts heq
  exact ⟨rfl, hf.1, le_of_lt hf.2.1, hf.2.2⟩

/-- `handle_file_length` keeps the length field and advances the decoder. -/
theorem handle_file_length_facts {dec : WB.Decoder} {t t' : Torrent}
    {dec' : WB.Decoder} (h : handle_file_length dec t = .ok (t', dec')) :
    t'.info.length = t.info.length ∧
    dec'.src = dec.src ∧ dec.pos ≤ dec'.pos ∧ dec'.pos ≤ dec.src.length := by
  unfold handle_file_length at h
  split at h <;> try cases h
  rename_i heq
  have hf := expectInt_facts heq
  exact ⟨rfl, hf.1, le_of_lt hf.2.1, hf.2.2⟩

/-- `handle_file_path` keeps the length field. -/
theorem handle_file_path_facts {p : List Nat} {t t' : Torrent}
    (h : handle_file_path p t = .ok t') :
    t'.info.length = t.info.length := by
  unfold handle_file_path at h
  split at h <;> try cases h
  rfl

/-- Facts every successful `handle_meta_keys` dispatch provides: the decoder
advances in place, and the next state is either `MetaInfo` with the info
untouched or `Info` with `info_begin` pointing at the `d` that opens the info
dictionary. -/
theorem handle_meta_keys_facts {key : List Nat} {dec : WB.Decoder}
    {t : Torrent} {ib sf : Nat} {st' : TorrentBuilderStateKind} {ib' : Nat}
    {t' : Torrent} {dec'' : WB.Decoder}
    (h : handle_meta_keys key dec t ib sf = some (.ok (st', ib', t', dec''))) :
    dec''.src = dec.src ∧ dec.pos ≤ dec''.pos ∧ dec''.pos ≤ dec.src.length ∧
    ((st' = .metaInfo ∧ ib' = ib ∧ t'.info = t.info) ∨
     (st' = .info ∧ t' = t ∧ ib' = dec.pos ∧ ib' < dec.src.length ∧
       dec.src.getD ib' 0 = 100 ∧ ib' < dec''.pos)) := by
  unfold handle_meta_keys at h
  split at h
  · -- announce key
    split at h <;> try cases h
    rename_i heq
    have hf := handle_announce_facts heq
    exact ⟨hf.2.1, hf.2.2.1, hf.2.2.2, Or.inl ⟨rfl, rfl, hf.1⟩⟩
  split at h
  · -- info key
    split at h <;> try cases h
    rename_i heq
    have hf := expectBeginDictPos_facts heq
    exact ⟨hf.1, le_of_lt hf.2.1, hf.2.2.1,
      Or.inr ⟨rfl, rfl, hf.2.2.2.1, hf.2.2.2.2.1, hf.2.2.2.2.2,
        hf.2.2.2.1 ▸ hf.2.1⟩⟩
  · -- unknown key: skipped
    split at h <;> try cases h
    rename_i heq
    have hf := skip_value_facts heq
    exact ⟨hf.1, le_of_lt hf.2.1, hf.2.2, Or.inl ⟨rfl, rfl, rfl⟩⟩

/-- Facts every successful `handle_info_keys` dispatch provides. -/
theorem handle_info_keys_facts {key : List Nat} {dec : WB.Decoder}
    {t : Torrent} {sf : Nat} {st' : TorrentBuilderStateKind}
    {t' : Torrent} {dec'' : WB.Decoder}
    (h : handle_info_keys key dec t sf = some (.ok (st', t', dec''))) :
    dec''.src = dec.src ∧ dec.pos ≤ dec''.pos ∧ dec''.pos ≤ dec.src.length ∧
    ((st' = .info ∧ (t'.info.length = t.info.length ∧
        t'.info.files = t.info.files ∨ t'.info.files = none)) ∨
     (st' = .files ∧ t' = t ∧ t.info.length = none)) := by
  unfold handle_info_keys at h
  split at h
  · -- name
    split at h <;> try cases h
    rename_i heq
    have hf := handle_name_facts heq
    exact ⟨hf.2.2.1, hf.2.2.2.1, hf.2.2.2.2, Or.inl ⟨rfl, Or.inl ⟨hf.1, hf.2.1⟩⟩⟩
  split at h
  · -- piece length
    split at h <;> try cases h
    rename_i heq
    have hf := handle_piece_length_facts heq
    exact ⟨hf.2.2.1, hf.2.2.2.1, hf.2.2.2.2, Or.inl ⟨rfl, Or.inl ⟨hf.1, hf.2.1⟩⟩⟩
  split at h
  · -- pieces
    split at h <;> try cases h
    rename_i heq
    have hf := handle_pieces_facts heq
    exact ⟨hf.2.2.1, hf.2.2.2.1, hf.2.2.2.2, Or.inl ⟨rfl, Or.inl ⟨hf.1, hf.2.1⟩⟩⟩
  split at h
  · -- length: the files field is known absent from the guard
    split at h
    · cases h
    rename_i hguard
    split at h <;> try cases h
    rename_i heq
    have hf := handle_length_facts heq
    have hnone : t.info.files = none := by
      cases hfo : t.info.files with
      | none => rfl
      | some _ => exact absurd (by rw [hfo]; rfl) hguard
    exact ⟨hf.2.1, hf.2.2.1, hf.2.2.2,
      Or.inl ⟨rfl, Or.inr (by rw [hf.1, hnone])⟩⟩
  split at h
  · -- files: the length field is known absent from the guard
    split at h
    · cases h
    rename_i hguard
    split at h <;> try cases h
    rename_i heq
    have hf := expectBeginList_facts heq
    have hnone : t.info.length = none := by
      cases hlo : t.info.length with
      | none => rfl
      | some _ => exact absurd (by rw [hlo]; rfl) hguard
    exact ⟨hf.1, le_of_lt hf.2.1, hf.2.2, Or.inr ⟨rfl, rfl, hnone⟩⟩
  · -- unknown key: skipped
    split at h <;> try cases h
    rename_i heq
    have hf := skip_value_facts heq
    exact ⟨hf.1, le_of_lt hf.2.1, hf.2.2, Or.inl ⟨rfl, Or.inl ⟨rfl, rfl⟩⟩⟩

/-- Facts every successful `handle_file_keys` dispatch provides. -/
theorem handle_file_keys_facts {key : List Nat} {dec : WB.Decoder}
    {t : Torrent} {sf : Nat} {st' : TorrentBuilderStateKind}
    {t' : Torrent} {dec'' : WB.Decoder}
    (h : handle_file_keys key dec t sf = some (.ok (st', t', dec''))) :
    dec''.src = dec.src ∧ dec.pos ≤ dec''.pos ∧ dec''.pos ≤ dec.src.length ∧
    (st' = .singularFile ∨ st' = .singularFilePath) ∧
    t'.info.length = t.info.length := by
  unfold handle_file_keys at h
  split at h
  · -- length
    split at h <;> try cases h
    rename_i heq
    have hf := handle_file_length_facts heq
    exact ⟨hf.2.1, hf.2.2.1, hf.2.2.2, Or.inl rfl, hf.1⟩
  split at h
  · -- path
    split at h <;> try cases h
    rename_i heq
    have hf := expectBeginList_facts heq
    exact ⟨hf.1, le_of_lt hf.2.1, hf.2.2, Or.inr rfl, rfl⟩
  · -- unknown key: skipped
    split at h <;> try cases h
    rename_i heq
    have hf := skip_value_facts heq
    exact ⟨hf.1, le_of_lt hf.2.1, hf.2.2, Or.inl rfl, rfl⟩

/-- A passing `Info::is_valid` certifies all five field conditions. -/
theorem Info_is_valid_ok {i : Info} (h : Info.is_valid i = .ok ()) :
    i.name ≠ [] ∧ i.piece_length ≠ 0 ∧ i.pieces ≠ [] ∧
    i.pieces.length % 20 = 0 ∧
    (i.length.isSome = true ∨ i.files.isSome = true) := by
  unfold Info.is_valid at h
  split at h
  · cases h
  split at h
  · cases h
  split at h
  · cases h
  split at h
  · cases h
  split at h
  · cases h
  rename_i h1 h2 h3 h4 h5
  refine ⟨?_, h2, ?_, by omega, ?_⟩
  · intro hc
    rw [hc] at h1
    exact h1 rfl
  · intro hc
    rw [hc] at h3
    exact h3 rfl
  · cases hl : i.length with
    | some _ => exact Or.inl rfl
    | none =>
      cases hf : i.files with
      | some _ => exact Or.inr rfl
      | none => exact absurd ⟨by rw [hl]; rfl, by rw [hf]; rfl⟩ h5

/-- `Info::is_valid` fails only with `MissingRequiredKey` or
`InvalidPiecesLength`. -/
theorem Info_is_valid_error {i : Info} {e : TorrentFileError}
    (h : Info.is_valid i = .error e) :
    (∃ st k, e = .missingRequiredKey st k) ∨ ∃ n, e = .invalidPiecesLength n := by
  unfold Info.is_valid at h
  split at h
  · exact Or.inl ⟨_, _, (Except.error.inj h).symm⟩
  split at h
  · exact Or.inl ⟨_, _, (Except.error.inj h).symm⟩
  split at h
  · exact Or.inl ⟨_, _, (Except.error.inj h).symm⟩
  split at h
  · exact Or.inr ⟨_, (Except.error.inj h).symm⟩
  split at h
  · exact Or.inl ⟨_, _, (Except.error.inj h).symm⟩
  cases h

/-- A passing `Torrent::is_valid` certifies a non-empty announce and a
non-default info. -/
theorem Torrent_is_valid_ok {t : Torrent} (h : Torrent.is_valid t = .ok ()) :
    t.announce ≠ [] ∧ t.info ≠ default := by
  unfold Torrent.is_valid at h
  split at h
  · cases h
  split at h
  · cases h
  rename_i h1 h2
  refine ⟨?_, h2⟩
  intro hc
  rw [hc] at h1
  exact h1 rfl

/-- `Torrent::is_valid` fails only with the two `MissingRequiredKey`
shapes. -/
theorem Torrent_is_valid_error {t : Torrent} {e : TorrentFileError}
    (h : Torrent.is_valid t = .error e) :
    e = .missingRequiredKey .metaInfo .announce ∨
    e = .missingRequiredKey .metaInfo .info := by
  unfold Torrent.is_valid at h
  split at h
  · exact Or.inl (Except.error.inj h).symm
  split at h
  · exact Or.inr (Except.error.inj h).symm
  cases h

/-- Mutual exclusion of the single-file and multi-file layouts: the builder
never holds both `length` and `files`. -/
def Excl (t : Torrent) : Prop :=
  ¬(t.info.length.isSome = true ∧ t.info.files.isSome = true)

/-- An info record as certified at the close of its dictionary: the validated
field conditions together with a hash taken over a `d ... e` slice of the
source. -/
def GoodInfo (src : List Nat) (i : Info) : Prop :=
  i.name ≠ [] ∧ i.piece_length ≠ 0 ∧ i.pieces ≠ [] ∧
  i.pieces.length % 20 = 0 ∧
  (i.length.isSome = true ∨ i.files.isSome = true) ∧
  ∃ b e, b < e ∧ e < src.length ∧ src.getD b 0 = 100 ∧ src.getD e 0 = 101 ∧
    i.info_hash = make_sha1 (get_info_slice src b e)

/-- The per-state loop invariant of `TorrentBuilder::build`. -/
def StateInv : TorrentBuilderStateKind → List Nat → Nat → Torrent → Nat → Prop
  | .begin, src, _, t, _ => t.info = default ∨ GoodInfo src t.info
  | .metaInfo, src, _, t, _ => t.info = default ∨ GoodInfo src t.info
  | .finished, src, _, t, _ => t.info = default ∨ GoodInfo src t.info
  | .info, src, ib, _, pos =>
      ib < src.length ∧ src.getD ib 0 = 100 ∧ ib < pos
  | .files, src, ib, t, pos =>
      t.info.length = none ∧ ib < src.length ∧ src.getD ib 0 = 100 ∧ ib < pos
  | .singularFile, src, ib, t, pos =>
      t.info.length = none ∧ ib < src.length ∧ src.getD ib 0 = 100 ∧ ib < pos
  | .singularFilePath, src, ib, t, pos =>
      t.info.length = none ∧ ib < src.length ∧ src.getD ib 0 = 100 ∧ ib < pos

/-- `filesInit` keeps the length field. -/
theorem filesInit_length (t : Torrent) :
    (filesInit t).info.length = t.info.length := by
  unfold filesInit
  split <;> rfl

/-- The build-loop invariant: from any state satisfying `StateInv` with the
mutual-exclusion property, a successful run yields a torrent that passes
`Torrent::is_valid`, keeps the exclusion property and carries the hash of a
`d ... e` slice of the source. -/
theorem buildLoop_ok : ∀ (fuel : Nat) (st : TorrentBuilderStateKind)
    (ib : Nat) (t : Torrent) (dec : WB.Decoder) (t' : Torrent),
    dec.pos ≤ dec.src.length → Excl t → StateInv st dec.src ib t dec.pos →
    buildLoop fuel st ib t dec = some (.ok t') →
    Excl t' ∧ GoodInfo dec.src t'.info ∧ Torrent.is_valid t' = .ok () := by
  intro fuel
  induction fuel with
  | zero =>
    intro st ib t dec t' _ _ _ h
    rw [show buildLoop 0 st ib t dec = none from rfl] at h
    cases h
  | succ fuel ih =>
    intro st ib t dec t' hp hx hs h
    cases st with
    | begin =>
      rw [buildLoop_begin] at h
      split at h <;> try cases h
      rename_i p dec₁ heq
      have hf := wb_next_token_facts heq
      have hres := ih .metaInfo ib t dec₁ t'
        (by rw [hf.1]; exact hf.2.2.1) hx
        (by show t.info = default ∨ GoodInfo dec₁.src t.info
            rw [hf.1]; exact hs) h
      rw [hf.1] at hres
      exact hres
    | metaInfo =>
      rw [buildLoop_metaInfo] at h
      split at h <;> try cases h
      · -- string key
        rename_i key dec₁ heq
        split at h <;> try cases h
        rename_i st₁ ib₁ t₁ dec₂ heq2
        have hf := wb_next_token_facts heq
        have hm := handle_meta_keys_facts heq2
        have hsrc : dec₂.src = dec.src := by rw [hm.1, hf.1]
        rcases hm.2.2.2 with ⟨hst, hib, hinfo⟩ | ⟨hst, hteq, hib, hlt, hbyte, hlt2⟩
        · subst hst
          rw [hib] at h
          have hres := ih .metaInfo ib t₁ dec₂ t'
            (by rw [hm.1]; exact hm.2.2.1)
            (by show ¬_; rw [hinfo]; exact hx)
            (by show t₁.info = default ∨ GoodInfo dec₂.src t₁.info
                rw [hinfo, hsrc]; exact hs) h
          rw [hsrc] at hres
          exact hres
        · subst hst
          rw [hteq] at h
          have hres := ih .info ib₁ t dec₂ t'
            (by rw [hm.1]; exact hm.2.2.1) hx
            (by show ib₁ < dec₂.src.length ∧ dec₂.src.getD ib₁ 0 = 100 ∧
                  ib₁ < dec₂.pos
                rw [hm.1]
                exact ⟨hlt, hbyte, hlt2⟩) h
          rw [hsrc] at hres
          exact hres
      · -- end of the metainfo dictionary
        rename_i p dec₁ heq
        have hf := wb_next_token_facts heq
        have hres := ih .finished ib t dec₁ t'
          (by rw [hf.1]; exact hf.2.2.1) hx
          (by show t.info = default ∨ GoodInfo dec₁.src t.info
              rw [hf.1]; exact hs) h
        rw [hf.1] at hres
        exact hres
    | info =>
      rw [buildLoop_info] at h
      obtain ⟨hs1, hs2, hs3⟩ := hs
      split at h <;> try cases h
      · -- string key
        rename_i key dec₁ heq
        split at h <;> try cases h
        rename_i st₁ t₁ dec₂ heq2
        have hf := wb_next_token_facts heq
        have hm := handle_info_keys_facts heq2
        have hsrc : dec₂.src = dec.src := by rw [hm.1, hf.1]
        have hposmono : dec.pos ≤ dec₂.pos :=
          le_trans (le_of_lt hf.2.1) hm.2.1
        rcases hm.2.2.2 with ⟨hst, hpres⟩ | ⟨hst, hteq, hlen⟩
        · subst hst
          have hx1 : Excl t₁ := by
            rcases hpres with ⟨hl, hfi⟩ | hfi
            · show ¬_
              rw [hl, hfi]
              exact hx
            · show ¬_
              rw [hfi]
              simp
          have hres := ih .info ib t₁ dec₂ t'
            (by rw [hm.1]; exact hm.2.2.1) hx1
            (by show ib < dec₂.src.length ∧ dec₂.src.getD ib 0 = 100 ∧
                  ib < dec₂.pos
                rw [hsrc]
                exact ⟨hs1, hs2, lt_of_lt_of_le hs3 hposmono⟩) h
          rw [hsrc] at hres
          exact hres
        · subst hst
          rw [hteq] at h
          have hres := ih .files ib t dec₂ t'
            (by rw [hm.1]; exact hm.2.2.1) hx
            (by show t.info.length = none ∧ ib < dec₂.src.length ∧
                  dec₂.src.getD ib 0 = 100 ∧ ib < dec₂.pos
                rw [hsrc]
                exact ⟨hlen, hs1, hs2, lt_of_lt_of_le hs3 hposmono⟩) h
          rw [hsrc] at hres
          exact hres
      · -- end of the info dictionary: hash recorded, info validated
        rename_i pos₁ dec₁ heq
        split at h <;> try cases h
        rename_i u hval
        cases u
        have hf := wb_next_token_facts heq
        have hend := hf.2.2.2.2 pos₁ rfl
        have hok := Info_is_valid_ok hval
        have hgood : GoodInfo dec.src (withHash t dec.src ib pos₁).info :=
          ⟨hok.1, hok.2.1, hok.2.2.1, hok.2.2.2.1, hok.2.2.2.2,
            ib, pos₁, by omega, hend.2.1, hs2, hend.2.2, rfl⟩
        have hx1 : Excl (withHash t dec.src ib pos₁) := hx
        have hres := ih .metaInfo ib (withHash t dec.src ib pos₁) dec₁ t'
          (by rw [hf.1]; exact hf.2.2.1) hx1
          (by show _ = default ∨ GoodInfo dec₁.src _
              rw [hf.1]
              exact Or.inr hgood) h
        rw [hf.1] at hres
        exact hres
    | files =>
      rw [buildLoop_files] at h
      obtain ⟨hlen, hs1, hs2, hs3⟩ := hs
      have hxfi : Excl (filesInit t) := by
        show ¬_
        rw [filesInit_length, hlen]
        simp
      split at h <;> try cases h
      · -- nested file dictionary opens
        rename_i p dec₁ heq
        have hf := wb_next_token_facts heq
        have hres := ih .singularFile ib (filesInit t) dec₁ t'
          (by rw [hf.1]; exact hf.2.2.1) hxfi
          (by show (filesInit t).info.length = none ∧ ib < dec₁.src.length ∧
                dec₁.src.getD ib 0 = 100 ∧ ib < dec₁.pos
              rw [filesInit_length, hf.1]
              exact ⟨hlen, hs1, hs2, lt_trans hs3 hf.2.1⟩) h
        rw [hf.1] at hres
        exact hres
      · -- the files list closes: back to the info dictionary
        rename_i p dec₁ heq
        have hf := wb_next_token_facts heq
        have hres := ih .info ib (filesInit t) dec₁ t'
          (by rw [hf.1]; exact hf.2.2.1) hxfi
          (by show ib < dec₁.src.length ∧ dec₁.src.getD ib 0 = 100 ∧
                ib < dec₁.pos
              rw [hf.1]
              exact ⟨hs1, hs2, lt_trans hs3 hf.2.1⟩) h
        rw [hf.1] at hres
        exact hres
    | singularFile =>
      rw [buildLoop_singularFile] at h
      obtain ⟨hlen, hs1, hs2, hs3⟩ := hs
      split at h <;> try cases h
      · -- string key
        rename_i key dec₁ heq
        split at h <;> try cases h
        rename_i st₁ t₁ dec₂ heq2
        have hf := wb_next_token_facts heq
        have hm := handle_file_keys_facts heq2
        have hsrc : dec₂.src = dec.src := by rw [hm.1, hf.1]
        have hposmono : dec.pos ≤ dec₂.pos :=
          le_trans (le_of_lt hf.2.1) hm.2.1
        have hlen1 : t₁.info.length = none := by
          rw [hm.2.2.2.2, hlen]
        have hx1 : Excl t₁ := by
          show ¬_
          rw [hlen1]
          simp
        rcases hm.2.2.2.1 with hst | hst <;> subst hst
        · have hres := ih .singularFile ib t₁ dec₂ t'
            (by rw [hm.1]; exact hm.2.2.1) hx1
            (by show t₁.info.length = none ∧ ib < dec₂.src.length ∧
                  dec₂.src.getD ib 0 = 100 ∧ ib < dec₂.pos
                rw [hsrc]
                exact ⟨hlen1, hs1, hs2, lt_of_lt_of_le hs3 hposmono⟩) h
          rw [hsrc] at hres
          exact hres
        · have hres := ih .singularFilePath ib t₁ dec₂ t'
            (by rw [hm.1]; exact hm.2.2.1) hx1
            (by show t₁.info.length = none ∧ ib < dec₂.src.length ∧
                  dec₂.src.getD ib 0 = 100 ∧ ib < dec₂.pos
                rw [hsrc]
                exact ⟨hlen1, hs1, hs2, lt_of_lt_of_le hs3 hposmono⟩) h
          rw [hsrc] at hres
          exact hres
      · -- the file dictionary closes
        rename_i p dec₁ heq
        have hf := wb_next_token_facts heq
        have hres := ih .files ib t dec₁ t'
          (by rw [hf.1]; exact hf.2.2.1) hx
          (by show t.info.length = none ∧ ib < dec₁.src.length ∧
                dec₁.src.getD ib 0 = 100 ∧ ib < dec₁.pos
              rw [hf.1]
              exact ⟨hlen, hs1, hs2, lt_trans hs3 hf.2.1⟩) h
        rw [hf.1] at hres
        exact hres
    | singularFilePath =>
      rw [buildLoop_singularFilePath] at h
      obtain ⟨hlen, hs1, hs2, hs3⟩ := hs
      split at h <;> try cases h
      · -- path segment
        rename_i path dec₁ heq
        split at h <;> try cases h
        rename_i t₁ heq2
        have hf := wb_next_token_facts heq
        have hlen1 : t₁.info.length = none := by
          rw [handle_file_path_facts heq2, hlen]
        have hx1 : Excl t₁ := by
          show ¬_
          rw [hlen1]
          simp
        have hres := ih .singularFilePath ib t₁ dec₁ t'
          (by rw [hf.1]; exact hf.2.2.1) hx1
          (by show t₁.info.length = none ∧ ib < dec₁.src.length ∧
                dec₁.src.getD ib 0 = 100 ∧ ib < dec₁.pos
              rw [hf.1]
              exact ⟨hlen1, hs1, hs2, lt_trans hs3 hf.2.1⟩) h
        rw [hf.1] at hres
        exact hres
      · -- the path list closes
        rename_i p dec₁ heq
        have hf := wb_next_token_facts heq
        have hres := ih .singularFile ib t dec₁ t'
          (by rw [hf.1]; exact hf.2.2.1) hx
          (by show t.info.length = none ∧ ib < dec₁.src.length ∧
                dec₁.src.getD ib 0 = 100 ∧ ib < dec₁.pos
              rw [hf.1]
              exact ⟨hlen, hs1, hs2, lt_trans hs3 hf.2.1⟩) h
        rw [hf.1] at hres
        exact hres
    | finished =>
      rw [buildLoop_finished] at h
      split at h <;> try cases h
      rename_i u hval
      cases u
      have hv := Torrent_is_valid_ok hval
      rcases hs with hdef | hgood
      · exact absurd hdef hv.2
      · exact ⟨hx, hgood, hval⟩

/-- Every torrent accepted by `Torrent::from_bytes` keeps the
mutual-exclusion property, passes `Torrent::is_valid`, and carries the hash
of a `d ... e` slice of the source. -/
theorem from_bytes_ok {src : List Nat} {t : Torrent}
    (h : Torrent.from_bytes src = .ok t) :
    Excl t ∧ GoodInfo src t.info ∧ Torrent.is_valid t = .ok () := by
  unfold Torrent.from_bytes TorrentBuilder.build at h
  split at h <;> try cases h
  rename_i heq
  exact buildLoop_ok (src.length + 2) .begin 0 default ⟨src, 0⟩ t
    (Nat.zero_le _) (by show ¬_; decide) (Or.inl rfl) heq

/-- C3: every torrent returned by `Torrent::from_bytes` satisfies the final
validation — non-empty announce and name, nonzero piece length, non-empty
pieces whose length is a multiple of 20, and exactly one of length/files set —
and validation violations fail with `MissingRequiredKey`,
`InvalidPiecesLength`, or (for both length and files in one info dictionary)
`MutualExclusiveKeys`. -/
theorem C3_final_validation (src : List Nat) (t : Torrent)
    (h : Torrent.from_bytes src = .ok t) :
    (t.announce ≠ [] ∧ t.info.name ≠ [] ∧ t.info.piece_length ≠ 0 ∧
      t.info.pieces ≠ [] ∧ t.info.pieces.length % 20 = 0 ∧
      ((t.info.length.isSome = true ∧ t.info.files = none) ∨
       (t.info.length = none ∧ t.info.files.isSome = true))) ∧
    (∀ i : Info, ∀ e, Info.is_valid i = .error e →
      (∃ st k, e = .missingRequiredKey st k) ∨
      ∃ n, e = .invalidPiecesLength n) ∧
    (∀ t₀ : Torrent, ∀ e, Torrent.is_valid t₀ = .error e →
      e = .missingRequiredKey .metaInfo .announce ∨
      e = .missingRequiredKey .metaInfo .info) ∧
    Torrent.from_bytes (bs "d4:infod6:lengthi5e5:files") =
      .error .mutualExclusiveKeys := by
  obtain ⟨hx, hg, hv⟩ := from_bytes_ok h
  have hvok := Torrent_is_valid_ok hv
  refine ⟨⟨hvok.1, hg.1, hg.2.1, hg.2.2.1, hg.2.2.2.1, ?_⟩,
    fun i e he => Info_is_valid_error he,
    fun t₀ e he => Torrent_is_valid_error he, by decide⟩
  rcases hg.2.2.2.2.1 with hl | hf
  · refine Or.inl ⟨hl, ?_⟩
    cases hfo : t.info.files with
    | none => rfl
    | some _ => exact absurd ⟨hl, by rw [hfo]; rfl⟩ hx
  · refine Or.inr ⟨?_, hf⟩
    cases hlo : t.info.length with
    | none => rfl
    | some _ => exact absurd ⟨by rw [hlo]; rfl, hf⟩ hx

/-! ## Consuming encoded tokens with the whole-buffer tokenizer -/

/-- Shifting a drop decomposition past its first block. -/
theorem drop_shift {src a b : List Nat} {p : Nat} (h : src.drop p = a ++ b) :
    src.drop (p + a.length) = b := by
  have h2 := congrArg (List.drop a.length) h
  rw [List.drop_drop, List.drop_left] at h2
  exact h2

mutual

/-- A `Value` within the whole-buffer tokenizer's size bounds: integers in
the checked `i64` window and byte strings whose length payload fits in 21
characters, recursively. -/
def wfits : Value → Bool
  | .int n => (0 ≤ n && n < 2 ^ 63) || (n < 0 && -n ≤ 2 ^ 63)
  | .str s => decide (s.length < 10 ^ 21)
  | .list l => wfitsList l
  | .dict d => wfitsPairs d

def wfitsList : List Value → Bool
  | [] => true
  | v :: vs => wfits v && wfitsList vs

def wfitsPairs : List (List Nat × Value) → Bool
  | [] => true
  | p :: ps => decide (p.1.length < 10 ^ 21) && wfits p.2 && wfitsPairs ps

end

/-- The integer dispatch arm of the whole-buffer tokenizer, with the
terminator located. -/
theorem wb_next_token_int_some (d : WB.Decoder) (j : Nat)
    (hb : ¬ d.src.length ≤ d.pos)
    (hh : (d.src.drop d.pos).headD 0 = 105)
    (hfind : (d.src.drop d.pos).findIdx? (· == 101) = some j) :
    WB.next_token d =
      (if (((d.src.drop d.pos).drop 1).take (j - 1)).headD 0 = 45 ∧
          (((d.src.drop d.pos).drop 1).take (j - 1)).getD 1 0 = 48 then
        .error .invalidSyntax
      else if (((d.src.drop d.pos).drop 1).take (j - 1)).headD 0 = 48 ∧
          ((d.src.drop d.pos).drop 1).take (j - 1) ≠ [48] then
        .error .invalidSyntax
      else if 21 < (((d.src.drop d.pos).drop 1).take (j - 1)).length then
        .error .valueTooLarge
      else
        match WB.intFromPayload (((d.src.drop d.pos).drop 1).take (j - 1)) with
        | none => .error .invalidSyntax
        | some n => .ok (.int n, ⟨d.src, d.pos + j + 1⟩)) := by
  unfold WB.next_token
  rw [if_neg hb, if_pos hh, hfind]

/-- The string dispatch arm of the whole-buffer tokenizer, with the colon
located. -/
theorem wb_next_token_str_some (d : WB.Decoder) (c : Nat)
    (hb : ¬ d.src.length ≤ d.pos)
    (hh : ¬ (d.src.drop d.pos).headD 0 = 105)
    (hdig : 48 ≤ (d.src.drop d.pos).headD 0 ∧ (d.src.drop d.pos).headD 0 ≤ 57)
    (hfind : (d.src.drop d.pos).findIdx? (· == 58) = some c) :
    WB.next_token d =
      (if ((d.src.drop d.pos).take c).headD 0 = 48 ∧
          (d.src.drop d.pos).take c ≠ [48] then
        .error .invalidSyntax
      else if 21 < ((d.src.drop d.pos).take c).length then
        .error .valueTooLarge
      else
        match WB.natFromPayload ((d.src.drop d.pos).take c) with
        | none => .error .invalidSyntax
        | some len =>
          if d.src.length - (d.pos + c + 1) < len then
            .error (.unfinishedString len (d.src.length - (d.pos + c + 1)))
          else .ok (.string ((d.src.drop (d.pos + c + 1)).take len),
            ⟨d.src, d.pos + c + 1 + len⟩)) := by
  unfold WB.next_token
  rw [if_neg hb, if_neg hh, if_pos hdig, hfind]

/-- A non-negative decimal payload parses back to its value. -/
theorem intFromPayload_nonneg (m : Nat) (hm : (m : Int) ≤ 2 ^ 63 - 1) :
    WB.intFromPayload (natDecimal m) = some (m : Int) := by
  have hd := isDigitB_bounds (natDecimal_headD_digit m)
  unfold WB.intFromPayload
  rw [if_neg (by omega),
    if_pos ⟨natDecimal_ne_nil m,
      List.all_eq_true.mpr (fun d hd2 => natDecimal_digits hd2),
      by rw [digitsVal_natDecimal]; exact hm⟩,
    digitsVal_natDecimal]

/-- A signed decimal payload parses back to the negated magnitude. -/
theorem intFromPayload_neg (m : Nat) (hm0 : m ≠ 0) (hm : (m : Int) ≤ 2 ^ 63) :
    WB.intFromPayload (45 :: natDecimal m) = some (-(m : Int)) := by
  unfold WB.intFromPayload
  rw [if_pos (show (45 :: natDecimal m).headD 0 = 45 from rfl),
    show (45 :: natDecimal m).tail = natDecimal m from rfl,
    if_pos ⟨natDecimal_ne_nil m,
      List.all_eq_true.mpr (fun d hd2 => natDecimal_digits hd2),
      by rw [digitsVal_natDecimal]; omega⟩,
    digitsVal_natDecimal]

/-- The canonical decimal of an in-window `i64` parses back to it. -/
theorem intFromPayload_intDecimal {n : Int}
    (h : (0 ≤ n ∧ n < 2 ^ 63) ∨ (n < 0 ∧ -n ≤ 2 ^ 63)) :
    WB.intFromPayload (intDecimal n) = some n := by
  rcases h with ⟨h0, hlt⟩ | ⟨h0, hle⟩
  · rw [show intDecimal n = natDecimal n.toNat from by
      unfold intDecimal; rw [if_neg (by omega)]]
    rw [intFromPayload_nonneg n.toNat (by omega)]
    congr 1
    omega
  · rw [show intDecimal n = 45 :: natDecimal (-n).toNat from by
      unfold intDecimal; rw [if_pos h0]]
    rw [intFromPayload_neg (-n).toNat (by omega) (by omega)]
    congr 1
    omega

/-- The decimal of an in-window `i64` stays inside the 21-character payload
bound. -/
theorem intDecimal_length_le20 {n : Int}
    (h : (0 ≤ n ∧ n < 2 ^ 63) ∨ (n < 0 ∧ -n ≤ 2 ^ 63)) :
    (intDecimal n).length ≤ 20 := by
  unfold intDecimal
  rcases h with ⟨h0, hlt⟩ | ⟨h0, hle⟩
  · rw [if_neg (by omega)]
    have h1 : n.toNat < 2 ^ 63 := by omega
    have h19 : n.toNat < 10 ^ 19 := lt_of_lt_of_le h1 (by norm_num)
    have := natDecimal_length_le (k := 19) (by norm_num) h19
    omega
  · rw [if_pos h0]
    simp only [List.length_cons]
    have h1 : (-n).toNat ≤ 2 ^ 63 := by omega
    have h19 : (-n).toNat < 10 ^ 19 := lt_of_le_of_lt h1 (by norm_num)
    have := natDecimal_length_le (k := 19) (by norm_num) h19
    omega

/-- The whole-buffer tokenizer consumes exactly one encoded string token. -/
theorem wb_next_str {d : WB.Decoder} {s rest : List Nat}
    (hdrop : d.src.drop d.pos = encStr s ++ rest) (hlen : s.length < 10 ^ 21) :
    WB.next_token d = .ok (.string s, ⟨d.src, d.pos + (encStr s).length⟩) := by
  have hLnd : 1 ≤ (natDecimal s.length).length := by
    cases hl : natDecimal s.length with
    | nil => exact absurd hl (natDecimal_ne_nil _)
    | cons a l => simp
  have hlendrop : d.src.length - d.pos =
      (natDecimal s.length).length + 1 + s.length + rest.length := by
    have := congrArg List.length hdrop
    simp [encStr] at this
    omega
  have hb : ¬ d.src.length ≤ d.pos := by omega
  have hflat : d.src.drop d.pos = natDecimal s.length ++ (58 :: (s ++ rest)) := by
    rw [hdrop]
    simp [encStr]
  have hg0 : (d.src.drop d.pos).headD 0 = (natDecimal s.length).headD 0 := by
    rw [hflat]
    cases hl : natDecimal s.length with
    | nil => exact absurd hl (natDecimal_ne_nil _)
    | cons a l => simp
  have hd := isDigitB_bounds (natDecimal_headD_digit s.length)
  have hh : ¬ (d.src.drop d.pos).headD 0 = 105 := by rw [hg0]; omega
  have hdig : 48 ≤ (d.src.drop d.pos).headD 0 ∧
      (d.src.drop d.pos).headD 0 ≤ 57 := by
    rw [hg0]
    exact hd
  have hno : ∀ x ∈ natDecimal s.length, ((x == 58) = false) := by
    intro x hx
    have := isDigitB_bounds (natDecimal_digits hx)
    simp only [beq_eq_false_iff_ne, ne_eq]
    omega
  have hfind : (d.src.drop d.pos).findIdx? (· == 58) =
      some (natDecimal s.length).length := by
    rw [hflat]
    exact findIdx_first _ _ 58 _ hno (by decide)
  have htake : (d.src.drop d.pos).take (natDecimal s.length).length =
      natDecimal s.length := by
    rw [hflat]
    exact List.take_left' rfl
  have hcond : ¬((natDecimal s.length).headD 0 = 48 ∧
      natDecimal s.length ≠ [48]) := by
    by_cases hsl : s.length = 0
    · have h01 : natDecimal s.length = [48] := by rw [hsl]; rfl
      rw [h01]
      simp
    · have := natDecimal_head_ne_zero hsl
      omega
  have hsize : ¬ 21 < (natDecimal s.length).length := by
    have := natDecimal_length_le (k := 21) (by norm_num) hlen
    omega
  have hnfp : WB.natFromPayload (natDecimal s.length) = some s.length := by
    unfold WB.natFromPayload
    rw [if_pos ⟨natDecimal_ne_nil _,
      List.all_eq_true.mpr (fun d hd2 => natDecimal_digits hd2)⟩,
      digitsVal_natDecimal]
  have hdrop2 : d.src.drop (d.pos + (natDecimal s.length).length + 1) =
      s ++ rest := by
    have hsplit : d.src.drop d.pos =
        (natDecimal s.length ++ [58]) ++ (s ++ rest) := by
      rw [hflat]
      simp
    have := drop_shift hsplit
    simpa using this
  have hrem : ¬ (d.src.length - (d.pos + (natDecimal s.length).length + 1) <
      s.length) := by omega
  rw [wb_next_token_str_some d (natDecimal s.length).length hb hh hdig hfind,
    htake, if_neg hcond, if_neg hsize, hnfp]
  show (if d.src.length - (d.pos + (natDecimal s.length).length + 1) <
        s.length then
      (Except.error (.unfinishedString s.length
        (d.src.length - (d.pos + (natDecimal s.length).length + 1))) :
        Except WB.WErr (WB.Token × WB.Decoder))
    else .ok (.string ((d.src.drop
        (d.pos + (natDecimal s.length).length + 1)).take s.length),
      ⟨d.src, d.pos + (natDecimal s.length).length + 1 + s.length⟩)) =
    .ok (.string s, ⟨d.src, d.pos + (encStr s).length⟩)
  rw [if_neg hrem, hdrop2, List.take_left' rfl,
    show d.pos + (natDecimal s.length).length + 1 + s.length =
      d.pos + (encStr s).length from by simp [encStr]; omega]

/-- The whole-buffer tokenizer consumes exactly one encoded integer token. -/
theorem wb_next_int {d : WB.Decoder} {n : Int} {rest : List Nat}
    (hdrop : d.src.drop d.pos = encodeValue (.int n) ++ rest)
    (hn : wfits (.int n) = true) :
    WB.next_token d = .ok (.int n,
      ⟨d.src, d.pos + (intDecimal n).length + 2⟩) := by
  have hfits : (0 ≤ n ∧ n < 2 ^ 63) ∨ (n < 0 ∧ -n ≤ 2 ^ 63) := by
    simpa [wfits, Bool.or_eq_true, Bool.and_eq_true, decide_eq_true_eq] using hn
  have hflat : d.src.drop d.pos = 105 :: (intDecimal n ++ (101 :: rest)) := by
    rw [hdrop]
    simp [encodeValue]
  have hlendrop : d.src.length - d.pos =
      (intDecimal n).length + rest.length + 2 := by
    have := congrArg List.length hflat
    simp at this
    omega
  have hb : ¬ d.src.length ≤ d.pos := by omega
  have hh : (d.src.drop d.pos).headD 0 = 105 := by rw [hflat]; rfl
  have hno : ∀ x ∈ 105 :: intDecimal n, ((x == 101) = false) := by
    intro x hx
    rcases List.mem_cons.mp hx with rfl | hx'
    · decide
    · rcases intDecimal_mem hx' with rfl | hd
      · decide
      · have := isDigitB_bounds hd
        simp only [beq_eq_false_iff_ne, ne_eq]
        omega
  have hfind : (d.src.drop d.pos).findIdx? (· == 101) =
      some ((intDecimal n).length + 1) := by
    rw [hflat]
    have := findIdx_first (· == 101) (105 :: intDecimal n) 101 rest hno
      (by decide)
    simpa [List.cons_append] using this
  have hpay : (((d.src.drop d.pos).drop 1).take
      ((intDecimal n).length + 1 - 1)) = intDecimal n := by
    rw [hflat]
    simp [List.take_left']
  have hc1 : ¬((intDecimal n).headD 0 = 45 ∧ (intDecimal n).getD 1 0 = 48) := by
    rcases hfits with ⟨h0, hlt⟩ | ⟨h0, hle⟩
    · have hform : intDecimal n = natDecimal n.toNat := by
        unfold intDecimal
        rw [if_neg (by omega)]
      have hd := isDigitB_bounds (natDecimal_headD_digit n.toNat)
      rw [hform]
      omega
    · have hform : intDecimal n = 45 :: natDecimal (-n).toNat := by
        unfold intDecimal
        rw [if_pos h0]
      have hm0 : (-n).toNat ≠ 0 := by omega
      have hne0 := natDecimal_head_ne_zero hm0
      have hg1 : (45 :: natDecimal (-n).toNat).getD 1 0 =
          (natDecimal (-n).toNat).headD 0 := by
        cases hl : natDecimal (-n).toNat with
        | nil => exact absurd hl (natDecimal_ne_nil _)
        | cons a l => simp [List.getD]
      rw [hform, hg1]
      omega
  have hc2 : ¬((intDecimal n).headD 0 = 48 ∧ intDecimal n ≠ [48]) := by
    rcases hfits with ⟨h0, hlt⟩ | ⟨h0, hle⟩
    · have hform : intDecimal n = natDecimal n.toNat := by
        unfold intDecimal
        rw [if_neg (by omega)]
      rw [hform]
      by_cases hm : n.toNat = 0
      · have h01 : natDecimal n.toNat = [48] := by rw [hm]; rfl
        rw [h01]
        simp
      · have := natDecimal_head_ne_zero hm
        omega
    · have hform : intDecimal n = 45 :: natDecimal (-n).toNat := by
        unfold intDecimal
        rw [if_pos h0]
      rw [hform]
      simp
  have hsize : ¬ 21 < (intDecimal n).length := by
    have := intDecimal_length_le20 hfits
    omega
  rw [wb_next_token_int_some d ((intDecimal n).length + 1) hb hh hfind,
    hpay, if_neg hc1, if_neg hc2, if_neg hsize,
    intFromPayload_intDecimal hfits]
  rfl

/-- The whole-buffer tokenizer on an `l` byte. -/
theorem wb_next_open_list {d : WB.Decoder} {rest : List Nat}
    (hdrop : d.src.drop d.pos = 108 :: rest) :
    WB.next_token d = .ok (.beginList d.pos, ⟨d.src, d.pos + 1⟩) := by
  have hlendrop : d.src.length - d.pos = rest.length + 1 := by
    have := congrArg List.length hdrop
    simpa using this
  unfold WB.next_token
  rw [if_neg (by omega), hdrop]
  rw [if_neg (by simp), if_neg (by simp), if_pos (by simp)]

/-- The whole-buffer tokenizer on a `d` byte. -/
theorem wb_next_open_dict {d : WB.Decoder} {rest : List Nat}
    (hdrop : d.src.drop d.pos = 100 :: rest) :
    WB.next_token d = .ok (.beginDict d.pos, ⟨d.src, d.pos + 1⟩) := by
  have hlendrop : d.src.length - d.pos = rest.length + 1 := by
    have := congrArg List.length hdrop
    simpa using this
  unfold WB.next_token
  rw [if_neg (by omega), hdrop]
  rw [if_neg (by simp), if_neg (by simp), if_neg (by simp), if_pos (by simp)]

/-- The whole-buffer tokenizer on an `e` byte. -/
theorem wb_next_endobj {d : WB.Decoder} {rest : List Nat}
    (hdrop : d.src.drop d.pos = 101 :: rest) :
    WB.next_token d = .ok (.endObject d.pos, ⟨d.src, d.pos + 1⟩) := by
  have hlendrop : d.src.length - d.pos = rest.length + 1 := by
    have := congrArg List.length hdrop
    simpa using this
  unfold WB.next_token
  rw [if_neg (by omega), hdrop]
  rw [if_neg (by simp), if_neg (by simp), if_neg (by simp), if_neg (by simp),
    if_pos (by simp)]

mutual

/-- Skipping one encoded value inside a nested skip leaves the counter
unchanged and moves the cursor past the encoding. -/
theorem skipnest_val (v : Value) : ∀ (src : List Nat) (p : Nat)
    (rest : List Nat) (c fuel : Nat), wfits v = true →
    src.drop p = encodeValue v ++ rest →
    skip_nested_value (tc v + fuel) (c + 1) ⟨src, p⟩ =
      skip_nested_value fuel (c + 1) ⟨src, p + (encodeValue v).length⟩ := by
  match v with
  | .int n =>
    intro src p rest c fuel hv hdrop
    rw [show tc (.int n) + fuel = fuel + 1 from by simp [tc]; omega,
      skip_nested_step, wb_next_int hdrop hv]
    show skip_nested_value fuel (c + 1)
        ⟨src, p + (intDecimal n).length + 2⟩ = _
    rw [show p + (intDecimal n).length + 2 =
      p + (encodeValue (.int n)).length from by simp [encodeValue]; omega]
  | .str s =>
    intro src p rest c fuel hv hdrop
    have hs : s.length < 10 ^ 21 := by
      simpa [wfits, decide_eq_true_eq] using hv
    rw [show tc (.str s) + fuel = fuel + 1 from by simp [tc]; omega,
      skip_nested_step,
      wb_next_str (show src.drop p = encStr s ++ rest from hdrop) hs]
    rfl
  | .list l =>
    intro src p rest c fuel hv hdrop
    have hl : wfitsList l = true := by simpa [wfits] using hv
    have hflat : src.drop p = 108 :: (encodeValues l ++ (101 :: rest)) := by
      rw [hdrop]
      simp [encodeValue]
    have hdrop1 : src.drop (p + 1) = encodeValues l ++ (101 :: rest) := by
      have := drop_shift (a := [108]) (by rw [hflat]; rfl)
      simpa using this
    have hdrop2 : src.drop (p + 1 + (encodeValues l).length) = 101 :: rest :=
      drop_shift hdrop1
    rw [show tc (.list l) + fuel = (tcList l + (fuel + 1)) + 1 from by
      simp [tc]; omega, skip_nested_step, wb_next_open_list hflat]
    show skip_nested_value (tcList l + (fuel + 1)) (c + 2) ⟨src, p + 1⟩ = _
    rw [skipnest_vals l src (p + 1) (101 :: rest) (c + 1) (fuel + 1) hl hdrop1,
      skip_nested_step, wb_next_endobj hdrop2]
    show skip_nested_value fuel (c + 1)
        ⟨src, p + 1 + (encodeValues l).length + 1⟩ = _
    rw [show p + 1 + (encodeValues l).length + 1 =
      p + (encodeValue (.list l)).length from by simp [encodeValue]; omega]
  | .dict ps =>
    intro src p rest c fuel hv hdrop
    have hps : wfitsPairs ps = true := by simpa [wfits] using hv
    have hflat : src.drop p = 100 :: (encodePairs ps ++ (101 :: rest)) := by
      rw [hdrop]
      simp [encodeValue]
    have hdrop1 : src.drop (p + 1) = encodePairs ps ++ (101 :: rest) := by
      have := drop_shift (a := [100]) (by rw [hflat]; rfl)
      simpa using this
    have hdrop2 : src.drop (p + 1 + (encodePairs ps).length) = 101 :: rest :=
      drop_shift hdrop1
    rw [show tc (.dict ps) + fuel = (tcPairs ps + (fuel + 1)) + 1 from by
      simp [tc]; omega, skip_nested_step, wb_next_open_dict hflat]
    show skip_nested_value (tcPairs ps + (fuel + 1)) (c + 2) ⟨src, p + 1⟩ = _
    rw [skipnest_pairs ps src (p + 1) (101 :: rest) (c + 1) (fuel + 1) hps
        hdrop1,
      skip_nested_step, wb_next_endobj hdrop2]
    show skip_nested_value fuel (c + 1)
        ⟨src, p + 1 + (encodePairs ps).length + 1⟩ = _
    rw [show p + 1 + (encodePairs ps).length + 1 =
      p + (encodeValue (.dict ps)).length from by simp [encodeValue]; omega]

/-- Skipping a sequence of encoded values. -/
theorem skipnest_vals (l : List Value) : ∀ (src : List Nat) (p : Nat)
    (rest : List Nat) (c fuel : Nat), wfitsList l = true →
    src.drop p = encodeValues l ++ rest →
    skip_nested_value (tcList l + fuel) (c + 1) ⟨src, p⟩ =
      skip_nested_value fuel (c + 1) ⟨src, p + (encodeValues l).length⟩ := by
  match l with
  | [] =>
    intro src p rest c fuel _ _
    simp [tcList, encodeValues]
  | v :: vs =>
    intro src p rest c fuel hl hdrop
    have hv : wfits v = true := by
      have := hl
      simp only [wfitsList, Bool.and_eq_true] at this
      exact this.1
    have hvs : wfitsList vs = true := by
      have := hl
      simp only [wfitsList, Bool.and_eq_true] at this
      exact this.2
    have hdrop0 : src.drop p = encodeValue v ++ (encodeValues vs ++ rest) := by
      rw [hdrop]
      simp [encodeValues]
    have hdrop1 : src.drop (p + (encodeValue v).length) =
        encodeValues vs ++ rest := drop_shift hdrop0
    rw [show tcList (v :: vs) + fuel = tc v + (tcList vs + fuel) from by
      simp [tcList]; omega,
      skipnest_val v src p (encodeValues vs ++ rest) c (tcList vs + fuel)
        hv hdrop0,
      skipnest_vals vs src (p + (encodeValue v).length) rest c fuel hvs hdrop1,
      show p + (encodeValue v).length + (encodeValues vs).length =
        p + (encodeValues (v :: vs)).length from by simp [encodeValues]; omega]

/-- Skipping a sequence of encoded key-value pairs. -/
theorem skipnest_pairs (ps : List (List Nat × Value)) : ∀ (src : List Nat)
    (p : Nat) (rest : List Nat) (c fuel : Nat), wfitsPairs ps = true →
    src.drop p = encodePairs ps ++ rest →
    skip_nested_value (tcPairs ps + fuel) (c + 1) ⟨src, p⟩ =
      skip_nested_value fuel (c + 1) ⟨src, p + (encodePairs ps).length⟩ := by
  match ps with
  | [] =>
    intro src p rest c fuel _ _
    simp [tcPairs, encodePairs]
  | q :: qs =>
    intro src p rest c fuel hp hdrop
    have hk : q.1.length < 10 ^ 21 := by
      have := hp
      simp only [wfitsPairs, Bool.and_eq_true, decide_eq_true_eq] at this
      exact this.1.1
    have hv : wfits q.2 = true := by
      have := hp
      simp only [wfitsPairs, Bool.and_eq_true] at this
      exact this.1.2
    have hqs : wfitsPairs qs = true := by
      have := hp
      simp only [wfitsPairs, Bool.and_eq_true] at this
      exact this.2
    have hdrop0 : src.drop p =
        encStr q.1 ++ (encodeValue q.2 ++ (encodePairs qs ++ rest)) := by
      rw [hdrop]
      simp [encodePairs]
    have hdrop1 : src.drop (p + (encStr q.1).length) =
        encodeValue q.2 ++ (encodePairs qs ++ rest) := drop_shift hdrop0
    have hdrop2 : src.drop (p + (encStr q.1).length +
        (encodeValue q.2).length) = encodePairs qs ++ rest := drop_shift hdrop1
    rw [show tcPairs (q :: qs) + fuel =
      (tc q.2 + (tcPairs qs + fuel)) + 1 from by simp [tcPairs]; omega,
      skip_nested_step, wb_next_str hdrop0 hk]
    show skip_nested_value (tc q.2 + (tcPairs qs + fuel)) (c + 1)
        ⟨src, p + (encStr q.1).length⟩ = _
    rw [skipnest_val q.2 src (p + (encStr q.1).length)
        (encodePairs qs ++ rest) c (tcPairs qs + fuel) hv hdrop1,
      skipnest_pairs qs src (p + (encStr q.1).length + (encodeValue q.2).length)
        rest c fuel hqs hdrop2,
      show p + (encStr q.1).length + (encodeValue q.2).length +
          (encodePairs qs).length = p + (encodePairs (q :: qs)).length from by
        simp [encodePairs]; omega]

end

/-- `skip_value` consumes exactly one encoded value, given enough fuel. -/
theorem skip_value_enc {v : Value} {src : List Nat} {p : Nat} {rest : List Nat}
    {fuel : Nat} (hv : wfits v = true)
    (hdrop : src.drop p = encodeValue v ++ rest) (hfuel : tc v ≤ fuel) :
    skip_value fuel ⟨src, p⟩ =
      some (.ok ⟨src, p + (encodeValue v).length⟩) := by
  match v with
  | .int n =>
    unfold skip_value
    rw [wb_next_int hdrop hv,
      show p + (intDecimal n).length + 2 =
        p + (encodeValue (.int n)).length from by simp [encodeValue]; omega]
  | .str s =>
    have hs : s.length < 10 ^ 21 := by
      simpa [wfits, decide_eq_true_eq] using hv
    unfold skip_value
    rw [wb_next_str (show src.drop p = encStr s ++ rest from hdrop) hs]
    rfl
  | .list l =>
    have hl : wfitsList l = true := by simpa [wfits] using hv
    have hflat : src.drop p = 108 :: (encodeValues l ++ (101 :: rest)) := by
      rw [hdrop]
      simp [encodeValue]
    have hdrop1 : src.drop (p + 1) = encodeValues l ++ (101 :: rest) := by
      have := drop_shift (a := [108]) (by rw [hflat]; rfl)
      simpa using this
    have hdrop2 : src.drop (p + 1 + (encodeValues l).length) = 101 :: rest :=
      drop_shift hdrop1
    have htc : tc (.list l) = 2 + tcList l := rfl
    unfold skip_value
    rw [wb_next_open_list hflat]
    show skip_nested_value fuel 1 ⟨src, p + 1⟩ = _
    rw [show fuel = tcList l + (fuel - tcList l - 1 + 1) from by
      rw [htc] at hfuel; omega,
      skipnest_vals l src (p + 1) (101 :: rest) 0 (fuel - tcList l - 1 + 1)
        hl hdrop1,
      skip_nested_step, wb_next_endobj hdrop2]
    show skip_nested_value (fuel - tcList l - 1) 0
        ⟨src, p + 1 + (encodeValues l).length + 1⟩ = _
    rw [skip_nested_done,
      show p + 1 + (encodeValues l).length + 1 =
        p + (encodeValue (.list l)).length from by simp [encodeValue]; omega]
  | .dict ps =>
    have hps : wfitsPairs ps = true := by simpa [wfits] using hv
    have hflat : src.drop p = 100 :: (encodePairs ps ++ (101 :: rest)) := by
      rw [hdrop]
      simp [encodeValue]
    have hdrop1 : src.drop (p + 1) = encodePairs ps ++ (101 :: rest) := by
      have := drop_shift (a := [100]) (by rw [hflat]; rfl)
      simpa using this
    have hdrop2 : src.drop (p + 1 + (encodePairs ps).length) = 101 :: rest :=
      drop_shift hdrop1
    have htc : tc (.dict ps) = 2 + tcPairs ps := rfl
    unfold skip_value
    rw [wb_next_open_dict hflat]
    show skip_nested_value fuel 1 ⟨src, p + 1⟩ = _
    rw [show fuel = tcPairs ps + (fuel - tcPairs ps - 1 + 1) from by
      rw [htc] at hfuel; omega,
      skipnest_pairs ps src (p + 1) (101 :: rest) 0 (fuel - tcPairs ps - 1 + 1)
        hps hdrop1,
      skip_nested_step, wb_next_endobj hdrop2]
    show skip_nested_value (fuel - tcPairs ps - 1) 0
        ⟨src, p + 1 + (encodePairs ps).length + 1⟩ = _
    rw [skip_nested_done,
      show p + 1 + (encodePairs ps).length + 1 =
        p + (encodeValue (.dict ps)).length from by simp [encodeValue]; omega]

/-- The `Begin` step on a dictionary opener. -/
theorem buildLoop_begin_dict {src : List Nat} {p i : Nat} {dec₁ : WB.Decoder}
    (fuel ib : Nat) (t : Torrent)
    (h : WB.next_token ⟨src, p⟩ = .ok (.beginDict i, dec₁)) :
    buildLoop (fuel + 1) .begin ib t ⟨src, p⟩ =
      buildLoop fuel .metaInfo ib t dec₁ := by
  rw [buildLoop_begin, h]

/-- The `MetaInfo` step on a string key. -/
theorem buildLoop_metaInfo_str {src key : List Nat} {p : Nat}
    {dec₁ : WB.Decoder} (fuel ib : Nat) (t : Torrent)
    (h : WB.next_token ⟨src, p⟩ = .ok (.string key, dec₁)) :
    buildLoop (fuel + 1) .metaInfo ib t ⟨src, p⟩ =
      match handle_meta_keys key dec₁ t ib (src.length + 1) with
      | none => none
      | some (.error e) => some (.error e)
      | some (.ok (st', ib', t', dec'')) => buildLoop fuel st' ib' t' dec'' := by
  rw [buildLoop_metaInfo, h]

/-- The `MetaInfo` step on the closing `e`. -/
theorem buildLoop_metaInfo_end {src : List Nat} {p i : Nat} {dec₁ : WB.Decoder}
    (fuel ib : Nat) (t : Torrent)
    (h : WB.next_token ⟨src, p⟩ = .ok (.endObject i, dec₁)) :
    buildLoop (fuel + 1) .metaInfo ib t ⟨src, p⟩ =
      buildLoop fuel .finished ib t dec₁ := by
  rw [buildLoop_metaInfo, h]

/-- The `Info` step on a string key. -/
theorem buildLoop_info_str {src key : List Nat} {p : Nat}
    {dec₁ : WB.Decoder} (fuel ib : Nat) (t : Torrent)
    (h : WB.next_token ⟨src, p⟩ = .ok (.string key, dec₁)) :
    buildLoop (fuel + 1) .info ib t ⟨src, p⟩ =
      match handle_info_keys key dec₁ t (src.length + 1) with
      | none => none
      | some (.error e) => some (.error e)
      | some (.ok (st', t', dec'')) => buildLoop fuel st' ib t' dec'' := by
  rw [buildLoop_info, h]

/-- The `Info` step on the closing `e`: hash and validate. -/
theorem buildLoop_info_end {src : List Nat} {p i : Nat} {dec₁ : WB.Decoder}
    (fuel ib : Nat) (t : Torrent)
    (h : WB.next_token ⟨src, p⟩ = .ok (.endObject i, dec₁)) :
    buildLoop (fuel + 1) .info ib t ⟨src, p⟩ =
      match (withHash t src ib i).info.is_valid with
      | .error e => some (.error e)
      | .ok _ => buildLoop fuel .metaInfo ib (withHash t src ib i) dec₁ := by
  rw [buildLoop_info, h]

/-- Key-value pairs whose keys are neither `announce` nor `info` and whose
encodings stay inside the whole-buffer tokenizer's bounds. -/
def extrasOk : List (List Nat × Value) → Bool
  | [] => true
  | q :: qs =>
    decide (q.1 ≠ bs "announce") && decide (q.1 ≠ bs "info") &&
    decide (q.1.length < 10 ^ 21) && wfits q.2 && extrasOk qs

/-- At least one byte is encoded per pair. -/
theorem encodePairs_length_ge (ps : List (List Nat × Value)) :
    ps.length ≤ (encodePairs ps).length := by
  induction ps with
  | nil => simp [encodePairs]
  | cons q qs ih =>
    have h1 : 1 ≤ (encStr q.1).length := by
      simp [encStr]
      omega
    simp only [encodePairs, List.length_append, List.length_cons]
    omega

/-- In the `MetaInfo` state, a run of unknown key-value pairs is skipped
pair by pair, one loop iteration per pair. -/
theorem metaInfo_extras : ∀ (ps : List (List Nat × Value)) (src : List Nat)
    (p : Nat) (tail : List Nat) (ib : Nat) (t : Torrent) (fuel : Nat),
    extrasOk ps = true →
    src.drop p = encodePairs ps ++ tail →
    buildLoop (ps.length + fuel) .metaInfo ib t ⟨src, p⟩ =
      buildLoop fuel .metaInfo ib t ⟨src, p + (encodePairs ps).length⟩ := by
  intro ps
  induction ps with
  | nil =>
    intro src p tail ib t fuel _ _
    simp [encodePairs]
  | cons q qs ih =>
    intro src p tail ib t fuel hok hdrop
    have hk1 : ¬(q.1 = bs "announce") := by
      have := hok
      simp only [extrasOk, Bool.and_eq_true, decide_eq_true_eq] at this
      exact this.1.1.1.1
    have hk2 : ¬(q.1 = bs "info") := by
      have := hok
      simp only [extrasOk, Bool.and_eq_true, decide_eq_true_eq] at this
      exact this.1.1.1.2
    have hklen : q.1.length < 10 ^ 21 := by
      have := hok
      simp only [extrasOk, Bool.and_eq_true, decide_eq_true_eq] at this
      exact this.1.1.2
    have hv : wfits q.2 = true := by
      have := hok
      simp only [extrasOk, Bool.and_eq_true] at this
      exact this.1.2
    have hqs : extrasOk qs = true := by
      have := hok
      simp only [extrasOk, Bool.and_eq_true] at this
      exact this.2
    have hdrop0 : src.drop p =
        encStr q.1 ++ (encodeValue q.2 ++ (encodePairs qs ++ tail)) := by
      rw [hdrop]
      simp [encodePairs]
    have hdrop1 : src.drop (p + (encStr q.1).length) =
        encodeValue q.2 ++ (encodePairs qs ++ tail) := drop_shift hdrop0
    have hdrop2 : src.drop (p + (encStr q.1).length +
        (encodeValue q.2).length) = encodePairs qs ++ tail := drop_shift hdrop1
    have hfuel : tc q.2 ≤ src.length + 1 := by
      have h1 := tc_le_length q.2
      have h2 := congrArg List.length hdrop1
      simp only [List.length_drop, List.length_append] at h2
      omega
    have hm : handle_meta_keys q.1 ⟨src, p + (encStr q.1).length⟩ t ib
        (src.length + 1) = some (.ok (.metaInfo, ib, t,
          ⟨src, p + (encStr q.1).length + (encodeValue q.2).length⟩)) := by
      unfold handle_meta_keys
      rw [if_neg hk1, if_neg hk2, skip_value_enc hv hdrop1 hfuel]
    rw [show (q :: qs).length + fuel = (qs.length + fuel) + 1 from by
        simp; omega,
      buildLoop_metaInfo_str (qs.length + fuel) ib t
        (wb_next_str hdrop0 hklen), hm]
    show buildLoop (qs.length + fuel) .metaInfo ib t
        ⟨src, p + (encStr q.1).length + (encodeValue q.2).length⟩ = _
    rw [ih src (p + (encStr q.1).length + (encodeValue q.2).length) tail ib t
        fuel hqs hdrop2,
      show p + (encStr q.1).length + (encodeValue q.2).length +
          (encodePairs qs).length = p + (encodePairs (q :: qs)).length from by
        simp [encodePairs]; omega]

/-- `expect_extract` of a string on a string token. -/
theorem expectString_str {dec dec₁ : WB.Decoder} {s : List Nat}
    (k : TorrentKey) (h : WB.next_token dec = .ok (.string s, dec₁)) :
    expectString dec k = .ok (s, dec₁) := by
  unfold expectString
  rw [h]

/-- `expect_extract` of an integer on an integer token. -/
theorem expectInt_int {dec dec₁ : WB.Decoder} {n : Int}
    (k : TorrentKey) (h : WB.next_token dec = .ok (.int n, dec₁)) :
    expectInt dec k = .ok (n, dec₁) := by
  unfold expectInt
  rw [h]

/-- `expect_extract` of a dict opener on a `BeginDict` token. -/
theorem expectBeginDictPos_dict {dec dec₁ : WB.Decoder} {i : Nat}
    (k : TorrentKey) (h : WB.next_token dec = .ok (.beginDict i, dec₁)) :
    expectBeginDictPos dec k = .ok (i, dec₁) := by
  unfold expectBeginDictPos
  rw [h]

/-- `handle_announce` on a valid UTF-8 string token. -/
theorem handle_announce_comp {dec dec₁ : WB.Decoder} {t : Torrent}
    {s : List Nat} (h : WB.next_token dec = .ok (.string s, dec₁))
    (hu : utf8Valid s = true) :
    handle_announce dec t = .ok ({ t with announce := s }, dec₁) := by
  unfold handle_announce
  rw [expectString_str .announce h]
  simp [hu]

/-- `handle_name` on a valid UTF-8 string token. -/
theorem handle_name_comp {dec dec₁ : WB.Decoder} {t : Torrent}
    {s : List Nat} (h : WB.next_token dec = .ok (.string s, dec₁))
    (hu : utf8Valid s = true) :
    handle_name dec t =
      .ok ({ t with info := { t.info with name := s } }, dec₁) := by
  unfold handle_name
  rw [expectString_str .infoName h]
  simp [hu]

/-- `handle_piece_length` on an integer token. -/
theorem handle_piece_length_comp {dec dec₁ : WB.Decoder} {t : Torrent}
    {n : Int} (h : WB.next_token dec = .ok (.int n, dec₁)) :
    handle_piece_length dec t =
      .ok ({ t with info := { t.info with piece_length := u64cast n } },
        dec₁) := by
  unfold handle_piece_length
  rw [expectInt_int .infoLength h]

/-- `handle_pieces` on a string token. -/
theorem handle_pieces_comp {dec dec₁ : WB.Decoder} {t : Torrent}
    {s : List Nat} (h : WB.next_token dec = .ok (.string s, dec₁)) :
    handle_pieces dec t =
      .ok ({ t with info := { t.info with pieces := s } }, dec₁) := by
  unfold handle_pieces
  rw [expectString_str .infoPieces h]

/-- `handle_length` on an integer token. -/
theorem handle_length_comp {dec dec₁ : WB.Decoder} {t : Torrent}
    {n : Int} (h : WB.next_token dec = .ok (.int n, dec₁)) :
    handle_length dec t =
      .ok ({ t with info := { t.info with length := some (u64cast n) } },
        dec₁) := by
  unfold handle_length
  rw [expectInt_int .infoLength h]

/-- `handle_meta_keys` on the announce key. -/
theorem handle_meta_keys_announce {dec dec₁ : WB.Decoder} {t : Torrent}
    {s : List Nat} (ib sf : Nat)
    (h : WB.next_token dec = .ok (.string s, dec₁))
    (hu : utf8Valid s = true) :
    handle_meta_keys (bs "announce") dec t ib sf =
      some (.ok (.metaInfo, ib, { t with announce := s }, dec₁)) := by
  unfold handle_meta_keys
  rw [if_pos (show bs "announce" = bs "announce" from rfl),
    handle_announce_comp h hu]

/-- `handle_meta_keys` on the info key. -/
theorem handle_meta_keys_info {dec dec₁ : WB.Decoder} {t : Torrent}
    {i : Nat} (ib sf : Nat)
    (h : WB.next_token dec = .ok (.beginDict i, dec₁)) :
    handle_meta_keys (bs "info") dec t ib sf =
      some (.ok (.info, i, t, dec₁)) := by
  unfold handle_meta_keys
  rw [if_neg (by decide), if_pos (show bs "info" = bs "info" from rfl),
    expectBeginDictPos_dict .info h]

/-- `handle_info_keys` on the name key. -/
theorem handle_info_keys_name {dec dec₁ : WB.Decoder} {t : Torrent}
    {s : List Nat} (sf : Nat)
    (h : WB.next_token dec = .ok (.string s, dec₁))
    (hu : utf8Valid s = true) :
    handle_info_keys (bs "name") dec t sf =
      some (.ok (.info, { t with info := { t.info with name := s } },
        dec₁)) := by
  unfold handle_info_keys
  rw [if_pos (show bs "name" = bs "name" from rfl), handle_name_comp h hu]

/-- `handle_info_keys` on the piece-length key. -/
theorem handle_info_keys_piece_length {dec dec₁ : WB.Decoder} {t : Torrent}
    {n : Int} (sf : Nat)
    (h : WB.next_token dec = .ok (.int n, dec₁)) :
    handle_info_keys (bs "piece length") dec t sf =
      some (.ok (.info,
        { t with info := { t.info with piece_length := u64cast n } },
        dec₁)) := by
  unfold handle_info_keys
  rw [if_neg (by decide), if_pos (show bs "piece length" = bs "piece length"
    from rfl), handle_piece_length_comp h]

/-- `handle_info_keys` on the pieces key. -/
theorem handle_info_keys_pieces {dec dec₁ : WB.Decoder} {t : Torrent}
    {s : List Nat} (sf : Nat)
    (h : WB.next_token dec = .ok (.string s, dec₁)) :
    handle_info_keys (bs "pieces") dec t sf =
      some (.ok (.info, { t with info := { t.info with pieces := s } },
        dec₁)) := by
  unfold handle_info_keys
  rw [if_neg (by decide), if_neg (by decide),
    if_pos (show bs "pieces" = bs "pieces" from rfl), handle_pieces_comp h]

/-- `handle_info_keys` on the length key with no files recorded. -/
theorem handle_info_keys_length {dec dec₁ : WB.Decoder} {t : Torrent}
    {n : Int} (sf : Nat)
    (h : WB.next_token dec = .ok (.int n, dec₁))
    (hf : t.info.files = none) :
    handle_info_keys (bs "length") dec t sf =
      some (.ok (.info,
        { t with info := { t.info with length := some (u64cast n) } },
        dec₁)) := by
  unfold handle_info_keys
  rw [if_neg (by decide), if_neg (by decide), if_neg (by decide),
    if_pos (show bs "length" = bs "length" from rfl),
    if_neg (by rw [hf]; simp), handle_length_comp h]

/-- A fixed well-formed info dictionary used by the unknown-keys family. -/
def INFO : List Nat :=
  bs "d4:name4:test12:piece lengthi16384e6:pieces20:123456789012345678906:lengthi123ee"

/-- Stepping through the fixed info dictionary from the `Info` state: five
loop iterations build the four fields, record the hash of the dictionary's
slice and validate it. -/
theorem info_steps (src : List Nat) (q : Nat) (tail a : List Nat) (fuel : Nat)
    (hdrop : src.drop q = INFO ++ tail) :
    buildLoop (fuel + 5) .info q ⟨a, default⟩ ⟨src, q + 1⟩ =
      buildLoop fuel .metaInfo q
        ⟨a, ⟨make_sha1 INFO, bs "test", 16384,
          bs "12345678901234567890", some 123, none⟩⟩ ⟨src, q + 80⟩ := by
  have h0 : src.drop q = 100 :: (encStr (bs "name") ++ (encStr (bs "test") ++
      (encStr (bs "piece length") ++ (encodeValue (.int 16384) ++
      (encStr (bs "pieces") ++ (encStr (bs "12345678901234567890") ++
      (encStr (bs "length") ++ (encodeValue (.int 123) ++
      (101 :: tail))))))))) := by
    rw [hdrop, show INFO = 100 :: (encStr (bs "name") ++ (encStr (bs "test") ++
      (encStr (bs "piece length") ++ (encodeValue (.int 16384) ++
      (encStr (bs "pieces") ++ (encStr (bs "12345678901234567890") ++
      (encStr (bs "length") ++ (encodeValue (.int 123) ++
      [101])))))))) from by decide]
    simp
  have h1 : src.drop (q + 1) = encStr (bs "name") ++ (encStr (bs "test") ++
      (encStr (bs "piece length") ++ (encodeValue (.int 16384) ++
      (encStr (bs "pieces") ++ (encStr (bs "12345678901234567890") ++
      (encStr (bs "length") ++ (encodeValue (.int 123) ++
      (101 :: tail)))))))) := by
    have := drop_shift (a := [100]) (by rw [h0]; rfl)
    exact this
  have h2 : src.drop (q + 7) = encStr (bs "test") ++
      (encStr (bs "piece length") ++ (encodeValue (.int 16384) ++
      (encStr (bs "pieces") ++ (encStr (bs "12345678901234567890") ++
      (encStr (bs "length") ++ (encodeValue (.int 123) ++
      (101 :: tail))))))) := by
    have := drop_shift h1
    exact this
  have h3 : src.drop (q + 13) = encStr (bs "piece length") ++
      (encodeValue (.int 16384) ++
      (encStr (bs "pieces") ++ (encStr (bs "12345678901234567890") ++
      (encStr (bs "length") ++ (encodeValue (.int 123) ++
      (101 :: tail)))))) := by
    have := drop_shift h2
    exact this
  have h4 : src.drop (q + 28) = encodeValue (.int 16384) ++
      (encStr (bs "pieces") ++ (encStr (bs "12345678901234567890") ++
      (encStr (bs "length") ++ (encodeValue (.int 123) ++
      (101 :: tail))))) := by
    have := drop_shift h3
    exact this
  have h5 : src.drop (q + 35) = encStr (bs "pieces") ++
      (encStr (bs "12345678901234567890") ++
      (encStr (bs "length") ++ (encodeValue (.int 123) ++
      (101 :: tail)))) := by
    have := drop_shift h4
    exact this
  have h6 : src.drop (q + 43) = encStr (bs "12345678901234567890") ++
      (encStr (bs "length") ++ (encodeValue (.int 123) ++ (101 :: tail))) := by
    have := drop_shift h5
    exact this
  have h7 : src.drop (q + 66) = encStr (bs "length") ++
      (encodeValue (.int 123) ++ (101 :: tail)) := by
    have := drop_shift h6
    exact this
  have h8 : src.drop (q + 74) = encodeValue (.int 123) ++ (101 :: tail) := by
    have := drop_shift h7
    exact this
  have h9 : src.drop (q + 79) = 101 :: tail := by
    have := drop_shift h8
    exact this
  have hn1 : WB.next_token ⟨src, q + 1⟩ =
      .ok (.string (bs "name"), ⟨src, q + 7⟩) := by
    have := wb_next_str (d := ⟨src, q + 1⟩) h1 (by decide)
    exact this
  have hn2 : WB.next_token ⟨src, q + 7⟩ =
      .ok (.string (bs "test"), ⟨src, q + 13⟩) := by
    have := wb_next_str (d := ⟨src, q + 7⟩) h2 (by decide)
    exact this
  have hn3 : WB.next_token ⟨src, q + 13⟩ =
      .ok (.string (bs "piece length"), ⟨src, q + 28⟩) := by
    have := wb_next_str (d := ⟨src, q + 13⟩) h3 (by decide)
    exact this
  have hn4 : WB.next_token ⟨src, q + 28⟩ =
      .ok (.int 16384, ⟨src, q + 35⟩) := by
    have := wb_next_int (d := ⟨src, q + 28⟩) h4 (by decide)
    exact this
  have hn5 : WB.next_token ⟨src, q + 35⟩ =
      .ok (.string (bs "pieces"), ⟨src, q + 43⟩) := by
    have := wb_next_str (d := ⟨src, q + 35⟩) h5 (by decide)
    exact this
  have hn6 : WB.next_token ⟨src, q + 43⟩ =
      .ok (.string (bs "12345678901234567890"), ⟨src, q + 66⟩) := by
    have := wb_next_str (d := ⟨src, q + 43⟩) h6 (by decide)
    exact this
  have hn7 : WB.next_token ⟨src, q + 66⟩ =
      .ok (.string (bs "length"), ⟨src, q + 74⟩) := by
    have := wb_next_str (d := ⟨src, q + 66⟩) h7 (by decide)
    exact this
  have hn8 : WB.next_token ⟨src, q + 74⟩ =
      .ok (.int 123, ⟨src, q + 79⟩) := by
    have := wb_next_int (d := ⟨src, q + 74⟩) h8 (by decide)
    exact this
  have hn9 : WB.next_token ⟨src, q + 79⟩ =
      .ok (.endObject (q + 79), ⟨src, q + 80⟩) := by
    have := wb_next_endobj (d := ⟨src, q + 79⟩) h9
    exact this
  have hslice : get_info_slice src q (q + 79) = INFO := by
    unfold get_info_slice
    rw [hdrop, show q + 79 + 1 - q = 80 from by omega]
    exact List.take_left' (by decide)
  rw [show fuel + 5 = (fuel + 4) + 1 from rfl,
    buildLoop_info_str (fuel + 4) q ⟨a, default⟩ hn1,
    handle_info_keys_name (src.length + 1) hn2 (by decide)]
  show buildLoop (fuel + 4) .info q
    ⟨a, ⟨default, bs "test", 0, [], none, none⟩⟩ ⟨src, q + 13⟩ = _
  rw [show fuel + 4 = (fuel + 3) + 1 from rfl,
    buildLoop_info_str (fuel + 3) q
      ⟨a, ⟨default, bs "test", 0, [], none, none⟩⟩ hn3,
    handle_info_keys_piece_length (src.length + 1) hn4]
  show buildLoop (fuel + 3) .info q
    ⟨a, ⟨default, bs "test", 16384, [], none, none⟩⟩ ⟨src, q + 35⟩ = _
  rw [show fuel + 3 = (fuel + 2) + 1 from rfl,
    buildLoop_info_str (fuel + 2) q
      ⟨a, ⟨default, bs "test", 16384, [], none, none⟩⟩ hn5,
    handle_info_keys_pieces (src.length + 1) hn6]
  show buildLoop (fuel + 2) .info q
    ⟨a, ⟨default, bs "test", 16384, bs "12345678901234567890", none, none⟩⟩
    ⟨src, q + 66⟩ = _
  rw [show fuel + 2 = (fuel + 1) + 1 from rfl,
    buildLoop_info_str (fuel + 1) q
      ⟨a, ⟨default, bs "test", 16384, bs "12345678901234567890", none, none⟩⟩
      hn7,
    handle_info_keys_length (src.length + 1) hn8 rfl]
  show buildLoop (fuel + 1) .info q
    ⟨a, ⟨default, bs "test", 16384, bs "12345678901234567890", some 123,
      none⟩⟩ ⟨src, q + 79⟩ = _
  rw [buildLoop_info_end fuel q
    ⟨a, ⟨default, bs "test", 16384, bs "12345678901234567890", some 123,
      none⟩⟩ hn9]
  have hval : (withHash
      (⟨a, ⟨default, bs "test", 16384, bs "12345678901234567890", some 123,
        none⟩⟩ : Torrent) src q (q + 79)).info.is_valid = .ok () := by
    show Info.is_valid ⟨make_sha1 (get_info_slice src q (q + 79)), bs "test",
      16384, bs "12345678901234567890", some 123, none⟩ = .ok ()
    unfold Info.is_valid
    rw [if_neg (fun hc => Bool.noConfusion hc),
      if_neg (fun hc =>
        absurd (show (16384 : Nat) = 0 from hc) (by decide)),
      if_neg (fun hc => Bool.noConfusion hc),
      if_neg (fun hc =>
        hc (show (bs "12345678901234567890").length % 20 = 0 from by decide)),
      if_neg (fun hc => Bool.noConfusion hc.1)]
  rw [hval]
  show buildLoop fuel .metaInfo q
    ⟨a, ⟨make_sha1 (get_info_slice src q (q + 79)), bs "test", 16384,
      bs "12345678901234567890", some 123, none⟩⟩ ⟨src, q + 80⟩ = _
  rw [hslice]

/-- A metainfo file with the fixed announce and info dictionary, padded with
arbitrary extra key-value pairs before and after the info key. -/
def mkMeta (pre post : List (List Nat × Value)) : List Nat :=
  100 :: (bs "8:announce" ++ (bs "8:udp://tr" ++ (encodePairs pre ++
    (bs "4:info" ++ (INFO ++ (encodePairs post ++ [101]))))))

/-- The torrent every member of the `mkMeta` family parses to. -/
def builtTorrent : Torrent :=
  ⟨bs "udp://tr", ⟨make_sha1 INFO, bs "test", 16384,
    bs "12345678901234567890", some 123, none⟩⟩

/-- Every member of the `mkMeta` family parses successfully to
`builtTorrent`, whatever the unknown keys are. -/
theorem mkMeta_ok (pre post : List (List Nat × Value))
    (hpre : extrasOk pre = true) (hpost : extrasOk post = true) :
    Torrent.from_bytes (mkMeta pre post) = .ok builtTorrent := by
  have hlen : (mkMeta pre post).length =
      108 + (encodePairs pre).length + (encodePairs post).length := by
    have l1 : (bs "8:announce").length = 10 := by decide
    have l2 : (bs "8:udp://tr").length = 10 := by decide
    have l3 : (bs "4:info").length = 6 := by decide
    have l4 : INFO.length = 80 := by decide
    simp [mkMeta, l1, l2, l3, l4]
    omega
  have hb0 : (mkMeta pre post).drop 0 = [100] ++ (bs "8:announce" ++
      (bs "8:udp://tr" ++ (encodePairs pre ++ (bs "4:info" ++
      (INFO ++ (encodePairs post ++ [101])))))) := rfl
  have hb1 : (mkMeta pre post).drop 1 = encStr (bs "announce") ++
      (encStr (bs "udp://tr") ++ (encodePairs pre ++ (bs "4:info" ++
      (INFO ++ (encodePairs post ++ [101]))))) := by
    have := drop_shift hb0
    exact this
  have hb2 : (mkMeta pre post).drop 11 = encStr (bs "udp://tr") ++
      (encodePairs pre ++ (bs "4:info" ++
      (INFO ++ (encodePairs post ++ [101])))) := by
    have := drop_shift hb1
    exact this
  have hb3 : (mkMeta pre post).drop 21 = encodePairs pre ++ (bs "4:info" ++
      (INFO ++ (encodePairs post ++ [101]))) := by
    have := drop_shift hb2
    exact this
  have hb4 : (mkMeta pre post).drop (21 + (encodePairs pre).length) =
      encStr (bs "info") ++ (INFO ++ (encodePairs post ++ [101])) := by
    have := drop_shift hb3
    exact this
  have hb5 : (mkMeta pre post).drop (21 + (encodePairs pre).length + 6) =
      INFO ++ (encodePairs post ++ [101]) := by
    have := drop_shift hb4
    exact this
  have hb6 : (mkMeta pre post).drop (21 + (encodePairs pre).length + 6 + 80) =
      encodePairs post ++ [101] := by
    have := drop_shift (a := INFO) hb5
    exact this
  have hb7 : (mkMeta pre post).drop (21 + (encodePairs pre).length + 6 + 80 +
      (encodePairs post).length) = 101 :: [] := by
    have := drop_shift hb6
    exact this
  have ha : WB.next_token ⟨mkMeta pre post, 0⟩ =
      .ok (.beginDict 0, ⟨mkMeta pre post, 1⟩) := by
    have := wb_next_open_dict (d := ⟨mkMeta pre post, 0⟩) hb0
    exact this
  have hbtok : WB.next_token ⟨mkMeta pre post, 1⟩ =
      .ok (.string (bs "announce"), ⟨mkMeta pre post, 11⟩) := by
    have := wb_next_str (d := ⟨mkMeta pre post, 1⟩) hb1 (by decide)
    exact this
  have hbval : WB.next_token ⟨mkMeta pre post, 11⟩ =
      .ok (.string (bs "udp://tr"), ⟨mkMeta pre post, 21⟩) := by
    have := wb_next_str (d := ⟨mkMeta pre post, 11⟩) hb2 (by decide)
    exact this
  have hdtok : WB.next_token ⟨mkMeta pre post, 21 + (encodePairs pre).length⟩ =
      .ok (.string (bs "info"),
        ⟨mkMeta pre post, 21 + (encodePairs pre).length + 6⟩) := by
    have := wb_next_str
      (d := ⟨mkMeta pre post, 21 + (encodePairs pre).length⟩) hb4 (by decide)
    exact this
  have hdopen : WB.next_token
      ⟨mkMeta pre post, 21 + (encodePairs pre).length + 6⟩ =
      .ok (.beginDict (21 + (encodePairs pre).length + 6),
        ⟨mkMeta pre post, 21 + (encodePairs pre).length + 6 + 1⟩) := by
    have hx : (mkMeta pre post).drop (21 + (encodePairs pre).length + 6) =
        100 :: (bs "4:name4:test12:piece lengthi16384e6:pieces20:123456789012345678906:lengthi123ee" ++
          (encodePairs post ++ [101])) := by
      rw [hb5, show INFO = 100 ::
        bs "4:name4:test12:piece lengthi16384e6:pieces20:123456789012345678906:lengthi123ee"
        from by decide]
      simp
    have := wb_next_open_dict
      (d := ⟨mkMeta pre post, 21 + (encodePairs pre).length + 6⟩) hx
    exact this
  have hftok : WB.next_token ⟨mkMeta pre post,
      21 + (encodePairs pre).length + 6 + 80 + (encodePairs post).length⟩ =
      .ok (.endObject
        (21 + (encodePairs pre).length + 6 + 80 + (encodePairs post).length),
        ⟨mkMeta pre post, 21 + (encodePairs pre).length + 6 + 80 +
          (encodePairs post).length + 1⟩) := by
    have := wb_next_endobj (d := ⟨mkMeta pre post,
      21 + (encodePairs pre).length + 6 + 80 + (encodePairs post).length⟩) hb7
    exact this
  have hinfo_ne : ¬((⟨bs "udp://tr", ⟨make_sha1 INFO, bs "test", 16384,
      bs "12345678901234567890", some 123, none⟩⟩ : Torrent).info =
      default) := fun hc => absurd (congrArg Info.name hc) (by decide)
  have hvalid : Torrent.is_valid (⟨bs "udp://tr", ⟨make_sha1 INFO, bs "test",
      16384, bs "12345678901234567890", some 123, none⟩⟩ : Torrent) =
      .ok () := by
    unfold Torrent.is_valid
    rw [if_neg (fun hc => Bool.noConfusion hc), if_neg hinfo_ne]
  obtain ⟨R, hR⟩ : ∃ R, (mkMeta pre post).length + 2 =
      pre.length + (post.length + (R + 10)) := by
    have hp1 := encodePairs_length_ge pre
    have hp2 := encodePairs_length_ge post
    exact ⟨(mkMeta pre post).length + 2 -
      (pre.length + post.length + 10), by omega⟩
  have hloop : buildLoop ((mkMeta pre post).length + 2) .begin 0 default
      ⟨mkMeta pre post, 0⟩ = some (.ok builtTorrent) := by
    rw [hR,
      show pre.length + (post.length + (R + 10)) =
        (pre.length + (post.length + (R + 9))) + 1 from by omega,
      buildLoop_begin_dict (pre.length + (post.length + (R + 9))) 0 default ha,
      show pre.length + (post.length + (R + 9)) =
        (pre.length + (post.length + (R + 8))) + 1 from by omega,
      buildLoop_metaInfo_str (pre.length + (post.length + (R + 8))) 0 default
        hbtok,
      handle_meta_keys_announce 0 ((mkMeta pre post).length + 1) hbval
        (by decide)]
    show buildLoop (pre.length + (post.length + (R + 8))) .metaInfo 0
      ⟨bs "udp://tr", default⟩ ⟨mkMeta pre post, 21⟩ = _
    rw [metaInfo_extras pre (mkMeta pre post) 21
        (bs "4:info" ++ (INFO ++ (encodePairs post ++ [101]))) 0
        ⟨bs "udp://tr", default⟩ (post.length + (R + 8)) hpre hb3]
    rw [show post.length + (R + 8) = (post.length + (R + 7)) + 1 from by omega,
      buildLoop_metaInfo_str (post.length + (R + 7)) 0
        ⟨bs "udp://tr", default⟩ hdtok,
      handle_meta_keys_info 0 ((mkMeta pre post).length + 1) hdopen]
    show buildLoop (post.length + (R + 7)) .info
      (21 + (encodePairs pre).length + 6) ⟨bs "udp://tr", default⟩
      ⟨mkMeta pre post, 21 + (encodePairs pre).length + 6 + 1⟩ = _
    rw [show post.length + (R + 7) = (post.length + (R + 2)) + 5 from by omega,
      info_steps (mkMeta pre post) (21 + (encodePairs pre).length + 6)
        (encodePairs post ++ [101]) (bs "udp://tr") (post.length + (R + 2))
        hb5]
    rw [metaInfo_extras post (mkMeta pre post)
        (21 + (encodePairs pre).length + 6 + 80) [101]
        (21 + (encodePairs pre).length + 6)
        ⟨bs "udp://tr", ⟨make_sha1 INFO, bs "test", 16384,
          bs "12345678901234567890", some 123, none⟩⟩ (R + 2) hpost hb6]
    rw [show R + 2 = (R + 1) + 1 from by omega,
      buildLoop_metaInfo_end (R + 1) (21 + (encodePairs pre).length + 6)
        ⟨bs "udp://tr", ⟨make_sha1 INFO, bs "test", 16384,
          bs "12345678901234567890", some 123, none⟩⟩ hftok,
      buildLoop_finished R (21 + (encodePairs pre).length + 6)
        ⟨bs "udp://tr", ⟨make_sha1 INFO, bs "test", 16384,
          bs "12345678901234567890", some 123, none⟩⟩,
      hvalid]
    rfl
  unfold Torrent.from_bytes TorrentBuilder.build
  rw [hloop]

/-- C1: every torrent accepted by `Torrent::from_bytes` carries an info_hash
equal to the SHA-1 of a contiguous `d ... e` slice of the source
(`src[info_begin ..= end_pos]` with `d` at `info_begin` and `e` at
`end_pos`), and across the whole `mkMeta` family — identical metainfo files
except for arbitrary unknown keys added or removed outside the info
dictionary — the parse succeeds with the very same info_hash
`make_sha1 INFO`. -/
theorem C1_info_hash_slice :
    (∀ (src : List Nat) (t : Torrent), Torrent.from_bytes src = .ok t →
      ∃ b e, b < e ∧ e < src.length ∧ src.getD b 0 = 100 ∧
        src.getD e 0 = 101 ∧
        t.info.info_hash = make_sha1 (get_info_slice src b e)) ∧
    (∀ pre post : List (List Nat × Value),
      extrasOk pre = true → extrasOk post = true →
      Torrent.from_bytes (mkMeta pre post) = .ok builtTorrent ∧
      builtTorrent.info.info_hash = make_sha1 INFO) := by
  refine ⟨?_, fun pre post hpre hpost => ⟨mkMeta_ok pre post hpre hpost, rfl⟩⟩
  intro src t h
  exact (from_bytes_ok h).2.1.2.2.2.2.2

/-- C1 witness: a member of the family with one unknown key on each side of
the info dictionary parses to `builtTorrent`, whose hash is that of the
fixed info slice. -/
theorem C1_info_hash_slice_witness :
    Torrent.from_bytes (mkMeta [(bs "comment", .str (bs "hi"))]
        [(bs "creation date", .int 0)]) = .ok builtTorrent ∧
    builtTorrent.info.info_hash = make_sha1 INFO :=
  C1_info_hash_slice.2 [(bs "comment", .str (bs "hi"))]
    [(bs "creation date", .int 0)] (by decide) (by decide)

/-- C3 witness: the validation conclusions at the concrete parse of the
plain family member. -/
theorem C3_final_validation_witness :
    builtTorrent.announce ≠ [] ∧ builtTorrent.info.name ≠ [] ∧
    builtTorrent.info.piece_length ≠ 0 ∧ builtTorrent.info.pieces ≠ [] ∧
    builtTorrent.info.pieces.length % 20 = 0 ∧
    ((builtTorrent.info.length.isSome = true ∧
        builtTorrent.info.files = none) ∨
     (builtTorrent.info.length = none ∧
        builtTorrent.info.files.isSome = true)) :=
  (C3_final_validation (mkMeta [] []) builtTorrent
    (mkMeta_ok [] [] rfl rfl)).1
